import Mathlib

/-!
# Receipt processor: validation and points calculation

A shallow embedding of `backend/utils/utils.go`, `backend/models/receipt.go` and
`backend/controllers/receipts/receipt-operations.go`, and the properties of
`CalculatePoints`, `ValidateReceipt`, `ValidateID`, `GenerateReceiptID` and the two handlers.

* Go strings are modelled by Lean strings (valid UTF-8 text, which is what the JSON decoder
  hands to the handlers); `len` is the length in bytes of the UTF-8 encoding.
* The library functions the program calls are modelled next to the code that calls them:
  `regexp.MatchString` on the three fixed patterns, `time.Parse` on the two fixed layouts,
  `strings.TrimSpace`, `strings.ReplaceAll`, `strings.HasSuffix`.
* A `float64` is modelled exactly, as a dyadic rational, an infinity or not-a-number, with
  IEEE 754 rounding to nearest, ties to even, after every operation.
* `strconv.ParseFloat` is modelled on the strings that end with `.` and a run of digits,
  which cover every amount `ValidateReceipt` accepts and every total that ends in `.00`;
  what it does on the other strings that may be numbers, and what the conversion to `int`
  gives outside the range of `int`, are parameters (`Ext`) over which the properties are
  quantified.
* The Go `int` is the 64-bit one: every addition to `points` wraps around at `2 ^ 63`.
-/

set_option maxRecDepth 100000
set_option exponentiation.threshold 2000

namespace ReceiptProcessor

/-! ## Data model (`models/receipt.go`) -/

/-- The Go struct `models.Item`. -/
structure Item where
  ShortDescription : String
  Price : String
deriving DecidableEq, Repr

/-- The Go struct `models.Receipt`. -/
structure Receipt where
  Retailer : String
  PurchaseDate : String
  PurchaseTime : String
  Items : List Item
  Total : String
deriving DecidableEq, Repr

/-! ## Strings -/

/-- Go `len` of a string given by its code points: the number of bytes of its UTF-8 encoding. -/
def goLen (cs : List Char) : Nat :=
  (cs.map Char.utf8Size).sum

/-- The result of `strings.ReplaceAll(s, " ", "")`: every occurrence of U+0020 removed. -/
def removeSpaces (cs : List Char) : List Char :=
  cs.filter (fun c => c != ' ')

/-- Go `unicode.IsSpace`: the code points with the Unicode White_Space property. -/
def isSpace (c : Char) : Bool :=
  let n := c.toNat
  (9 ≤ n && n ≤ 13) || n == 0x20 || n == 0x85 || n == 0xA0 || n == 0x1680 ||
  (0x2000 ≤ n && n ≤ 0x200A) || n == 0x2028 || n == 0x2029 || n == 0x202F ||
  n == 0x205F || n == 0x3000

/-- The result of `strings.TrimSpace`: leading and trailing white space removed. -/
def trimSpace (cs : List Char) : List Char :=
  ((cs.dropWhile isSpace).reverse.dropWhile isSpace).reverse

/-- The result of `strings.HasSuffix(s, suffix)`. -/
def hasSuffix (cs suffix : List Char) : Bool :=
  suffix.reverse.isPrefixOf cs.reverse

/-! ## The regular expressions of `ValidateReceipt` and `ValidateID` -/

/-- ASCII decimal digit, the class `\d` of Go regular expressions. -/
def isDigit (c : Char) : Bool :=
  '0' ≤ c && c ≤ '9'

/-- The class `\w` of Go regular expressions: `[0-9A-Za-z_]`. -/
def isWordChar (c : Char) : Bool :=
  isDigit c || ('A' ≤ c && c ≤ 'Z') || ('a' ≤ c && c ≤ 'z') || c == '_'

/-- The class `\s` of Go regular expressions: `[\t\n\f\r ]`. -/
def isReSpace (c : Char) : Bool :=
  c == '\t' || c == '\n' || c.toNat == 12 || c == '\r' || c == ' '

/-- Whether `regexp.MatchString("^[\\w\\s\\-]+$", s)` reports a match. -/
def matchName (cs : List Char) : Bool :=
  !cs.isEmpty && cs.all (fun c => isWordChar c || isReSpace c || c == '-')

/-- Whether `regexp.MatchString("^\\d+\\.\\d{2}$", s)` reports a match. -/
def matchAmount (cs : List Char) : Bool :=
  match cs.reverse with
  | d2 :: d1 :: dot :: rest =>
      isDigit d2 && isDigit d1 && dot == '.' && !rest.isEmpty && rest.all isDigit
  | _ => false

/-- Whether `regexp.MatchString("^\\S+$", s)` reports a match. -/
def matchID (cs : List Char) : Bool :=
  !cs.isEmpty && cs.all (fun c => !isReSpace c)

/-! ## `time.Parse` on the layouts `"2006-01-02"` and `"15:04"` -/

/-- Value of an ASCII digit. -/
def digitVal (c : Char) : Nat :=
  c.toNat - '0'.toNat

/-- The helper `getnum` of Go's `time` package: reads a two-digit number, or a one-digit
number when `fixed` is false and no second digit follows. -/
def getnum (cs : List Char) ( fixed : Bool) : Option (Nat × List Char) :=
  match cs with
  | [] => none
  | a :: rest =>
    if !isDigit a then none
    else match rest with
      | b :: rest2 =>
        if isDigit b then some (digitVal a * 10 + digitVal b, rest2)
        else if fixed then none else some (digitVal a, rest)
      | [] => if fixed then none else some (digitVal a, rest)

/-- Go `time.isLeap`. -/
def isLeap (year : Nat) : Bool :=
  year % 4 == 0 && (year % 100 != 0 || year % 400 == 0)

/-- Go `time.daysIn`. -/
def daysIn (month year : Nat) : Nat :=
  if month == 2 then (if isLeap year then 29 else 28)
  else if month == 4 || month == 6 || month == 9 || month == 11 then 30
  else 31

/-- The calendar fields of a successfully parsed date. -/
structure Date where
  year : Nat
  month : Nat
  day : Nat
deriving DecidableEq, Repr

/-- Model of `time.Parse("2006-01-02", s)`: four digits, `-`, two digits of a month in 1..12,
`-`, two digits of a day that exists in that month, and nothing after. -/
def parseDate (cs : List Char) : Option Date :=
  match cs with
  | y1 :: y2 :: y3 :: y4 :: rest =>
    if !(isDigit y1 && isDigit y2 && isDigit y3 && isDigit y4) then none
    else
      let year := digitVal y1 * 1000 + digitVal y2 * 100 + digitVal y3 * 10 + digitVal y4
      match rest with
      | '-' :: rest1 =>
        match getnum rest1 true with
        | none => none
        | some (month, rest2) =>
          if month == 0 || 12 < month then none
          else match rest2 with
            | '-' :: rest3 =>
              match getnum rest3 true with
              | none => none
              | some (day, rest4) =>
                if !rest4.isEmpty then none
                else if day < 1 || day > daysIn month year then none
                else some ⟨year, month, day⟩
            | _ => none
      | _ => none
  | _ => none

/-- Model of `time.Parse("15:04", s)`: the hour (one or two digits, below 24), `:`, two digits
of a minute below 60, and nothing after.  The result is the pair (hour, minute). -/
def parseTime (cs : List Char) : Option (Nat × Nat) :=
  match getnum cs false with
  | none => none
  | some (hour, rest) =>
    if 24 ≤ hour then none
    else match rest with
      | ':' :: rest1 =>
        match getnum rest1 true with
        | none => none
        | some (min, rest2) =>
          if 60 ≤ min then none
          else if !rest2.isEmpty then none
          else some (hour, min)
      | _ => none

/-! ## `float64`

A `float64` is not-a-number, an infinity, or a finite dyadic rational `num / 2 ^ scale`
(the sign of zero is not recorded: no operation of the program observes it).  Arithmetic is
IEEE 754 binary64: the exact result rounded to 53 significant bits, ties to even, with
gradual underflow at `2 ^ (-1074)` and overflow to infinity at `2 ^ 1024`. -/

/-- A `float64` value. -/
inductive F64 where
  | nan
  | inf (neg : Bool)
  | fin (num : Int) (scale : Nat)
deriving DecidableEq, Repr

/-- Auxiliary loop of `bitLen`. -/
def bitLenAux : Nat → Nat → Nat
  | 0, _ => 0
  | fuel + 1, n => if n = 0 then 0 else bitLenAux fuel (n / 2) + 1

/-- Number of binary digits of `n` (0 for 0). -/
def bitLen (n : Nat) : Nat :=
  bitLenAux n n

/-- The quotient `a / b` rounded to the nearest natural number, ties to even. -/
def roundHalfEven (a b : Nat) : Nat :=
  let q := a / b
  let r := a % b
  if 2 * r < b then q else if b < 2 * r then q + 1 else if q % 2 = 0 then q else q + 1

/-- Exponent `e` of the unit in the last place of the `float64` format at the positive
rational `a / b`: `2 ^ (e + 52) ≤ a / b < 2 ^ (e + 53)`, and `e = -1074` in the subnormal
range. -/
def ulpExp (a b : Nat) : Int :=
  let l : Int := (bitLen a : Int) - (bitLen b : Int)
  let E : Int := if b * 2 ^ l.toNat ≤ a * 2 ^ (-l).toNat then l else l - 1
  max (E - 52) (-1074)

/-- The `float64` nearest to the positive rational `a / b`, ties to even; `+Inf` when the
rounded value does not fit the format. -/
def roundPos (a b : Nat) : F64 :=
  let e := ulpExp a b
  if 0 ≤ e then
    let m := roundHalfEven a (b * 2 ^ e.toNat)
    if 2 ^ 1024 ≤ m * 2 ^ e.toNat then .inf false else .fin (m * 2 ^ e.toNat : Nat) 0
  else
    .fin (roundHalfEven (a * 2 ^ (-e).toNat) b : Nat) (-e).toNat

/-- The `float64` nearest to the rational `num / den` (`den > 0`). -/
def roundRat (num : Int) (den : Nat) : F64 :=
  if num = 0 then .fin 0 0
  else if 0 < num then roundPos num.toNat den
  else match roundPos (-num).toNat den with
    | .fin n k => .fin (-n) k
    | .inf _ => .inf true
    | .nan => .nan

namespace F64

/-- The `float64` product `x * y`. -/
def mul : F64 → F64 → F64
  | fin a j, fin b k => roundRat (a * b) (2 ^ (j + k))
  | nan, _ => nan
  | _, nan => nan
  | inf s, fin b _ => if b = 0 then nan else inf (s != decide (b < 0))
  | fin a _, inf s => if a = 0 then nan else inf (s != decide (a < 0))
  | inf s, inf t => inf (s != t)

/-- The `float64` sum `x + y`. -/
def add : F64 → F64 → F64
  | fin a j, fin b k => roundRat (a * 2 ^ k + b * 2 ^ j) (2 ^ (j + k))
  | nan, _ => nan
  | _, nan => nan
  | inf s, fin _ _ => inf s
  | fin _ _, inf s => inf s
  | inf s, inf t => if s = t then inf s else nan

/-- The `float64` negation `-x`. -/
def neg : F64 → F64
  | nan => nan
  | inf s => inf (!s)
  | fin a j => fin (-a) j

/-- The `float64` difference `x - y`. -/
def sub (x y : F64) : F64 :=
  add x (neg y)

/-- Go `math.Abs`. -/
def abs : F64 → F64
  | nan => nan
  | inf _ => inf false
  | fin a j => fin (Int.ofNat a.natAbs) j

/-- The comparison `x > y` of `float64` values (false when either is not a number). -/
def gt : F64 → F64 → Bool
  | fin a j, fin b k => decide (b * 2 ^ j < a * 2 ^ k)
  | inf s, fin _ _ => !s
  | fin _ _, inf s => s
  | inf s, inf t => !s && t
  | nan, _ => false
  | _, nan => false

/-- Go `math.Ceil`. -/
def ceil : F64 → F64
  | fin a j => fin (-((-a) / (2 ^ j : Int))) 0
  | x => x

/-- The test `math.Mod(x, 0.25) == 0`.  `math.Mod` is exact, so for a finite `x` the test is
that `4 * x` is an integer; `Mod` of an infinity or of not-a-number is not-a-number, which
is not equal to 0. -/
def modQuarterIsZero : F64 → Bool
  | fin a j => (a * 4) % (2 ^ j : Int) == 0
  | _ => false

/-- The finite value truncated toward zero. -/
def trunc (a : Int) (j : Nat) : Int :=
  if 0 ≤ a then a / (2 ^ j : Int) else -((-a) / (2 ^ j : Int))

end F64

/-- The constant `0.2` as a `float64`. -/
def c0_2 : F64 := roundRat 1 5

/-- The constant `0.0001` as a `float64` (`epsilon` in `ValidateReceipt`). -/
def c0_0001 : F64 := roundRat 1 10000

/-! ## Parts of the platform that the program relies on but does not fix -/

/-- What the Go implementation does where this development does not spell it out. -/
structure Ext where
  /-- The result of `strconv.ParseFloat(s, 64)` on a string `s` that does not end with `.`
  and a run of digits: `none` for an error, `some v` for the value `v`. -/
  parseFloatOther : List Char → Option F64
  /-- The result of converting to `int` a `float64` that `int` cannot represent (the Go
  specification leaves it to the implementation). -/
  intOfUnrepresentable : F64 → Int

/-! ## `strconv.ParseFloat` -/

/-- Value of a string of decimal digits. -/
def digitsVal (ds : List Char) : Nat :=
  ds.foldl (fun acc c => acc * 10 + digitVal c) 0

/-- Splits `digits . digits` (both runs non-empty) into the two runs of digits. -/
def splitDecimal (cs : List Char) : Option (List Char × List Char) :=
  let ip := cs.takeWhile isDigit
  match cs.dropWhile isDigit with
  | '.' :: fp => if !ip.isEmpty && !fp.isEmpty && fp.all isDigit then some (ip, fp) else none
  | _ => none

/-- Whether a string accepted by `strconv.ParseFloat` can start with `c`: a sign, a digit,
the decimal point, or the first letter of `inf`, `infinity` or `nan`. -/
def canStartFloat (c : Char) : Bool :=
  isDigit c || c == '+' || c == '-' || c == '.' || c == 'i' || c == 'I' || c == 'n' || c == 'N'

/-- Splits a string that ends with `.` and a run of digits (which may be empty) into what
comes before that `.` and the run of digits. -/
def splitAtDot (cs : List Char) : Option (List Char × List Char) :=
  match cs.reverse.dropWhile isDigit with
  | '.' :: pre => some (pre.reverse, (cs.reverse.takeWhile isDigit).reverse)
  | _ => none

/-- The digits of a decimal integer part that may use the digit separator `_`, or `none`
when a character is neither a digit nor `_` or when a `_` does not stand between two digits
(the rule of the helper `underscoreOK` of `strconv`).  The argument `saw` is the kind of the
character before: `'^'` at the start, `'0'` after a digit, `'_'` after a separator. -/
def integerDigits : List Char → Char → Option (List Char)
  | [], saw => if saw == '_' then none else some []
  | c :: rest, saw =>
    if isDigit c then (integerDigits rest '0').map (fun ds => c :: ds)
    else if c == '_' then (if saw == '0' then integerDigits rest '_' else none)
    else none

/-- The sign at the start of a number (true for `-`) and what follows it. -/
def splitSign (cs : List Char) : Bool × List Char :=
  match cs with
  | '+' :: rest => (false, rest)
  | '-' :: rest => (true, rest)
  | _ => (false, cs)

/-- Model of `strconv.ParseFloat(s, 64)`: `none` when Go returns an error.  A decimal
`digits . digits` is converted to the nearest `float64` (an error when that is out of range).
So is every other string that ends with `.` and a run of digits, when what comes before the
`.` is an optional sign and digits (with `_` between digits allowed) and there is a digit at
all; when it is anything else (an exponent, a hexadecimal mantissa without exponent, `inf`,
`nan`, ...) the string is a syntax error.  A string that is empty or starts with a character
no number starts with is a syntax error; the other strings are left to `ext`. -/
def ParseFloat (ext : Ext) (cs : List Char) : Option F64 :=
  match splitDecimal cs with
  | some (ip, fp) =>
    match roundRat (digitsVal (ip ++ fp)) (10 ^ fp.length) with
    | .fin n k => some (.fin n k)
    | _ => none
  | none =>
    match splitAtDot cs with
    | some (pre, fp) =>
      match integerDigits (splitSign pre).2 '^' with
      | none => none
      | some ip =>
        if ip.isEmpty && fp.isEmpty then none
        else
          let mantissa : Int := digitsVal (ip ++ fp)
          match roundRat (if (splitSign pre).1 then -mantissa else mantissa)
              (10 ^ fp.length) with
          | .fin n k => some (.fin n k)
          | _ => none
    | none =>
      match cs with
      | [] => none
      | c :: _ => if canStartFloat c then ext.parseFloatOther cs else none

/-! ## Go `int` -/

/-- Reduction of an integer to the range of the 64-bit Go `int`. -/
def wrap64 (x : Int) : Int :=
  (x + 2 ^ 63) % 2 ^ 64 - 2 ^ 63

/-- The conversion `int(x)` of a `float64`. -/
def toInt (ext : Ext) (x : F64) : Int :=
  match x with
  | .fin a j =>
    let t := F64.trunc a j
    if -(2 ^ 63) ≤ t ∧ t < 2 ^ 63 then t else wrap64 (ext.intOfUnrepresentable x)
  | _ => wrap64 (ext.intOfUnrepresentable x)

/-! ## `utils.go` -/

/-- The errors `CalculatePoints` returns. -/
inductive CalcError where
  /-- `"failed to parse price: ..."` -/
  | price
  /-- `"failed to parse purchase date: ..."` -/
  | purchaseDate
  /-- `"failed to parse purchase time: ..."` -/
  | purchaseTime
deriving DecidableEq, Repr

/-- Go `isRoundDollarAmount`. -/
def isRoundDollarAmount (total : String) : Bool :=
  hasSuffix total.data ".00".data

/-- Go `parseTotal`. -/
def parseTotal (ext : Ext) (total : String) : F64 :=
  match ParseFloat ext total.data with
  | none => .fin 0 0
  | some value => value

/-- Go `isMultipleOfQuarter`. -/
def isMultipleOfQuarter (ext : Ext) (total : String) : Bool :=
  F64.modQuarterIsZero (parseTotal ext total)

/-- The loop over the items in `CalculatePoints`, started with `points`. -/
def itemsLoop (ext : Ext) : List Item → Int → Except CalcError Int
  | [], points => .ok points
  | item :: rest, points =>
    let trimmedLength := goLen (trimSpace item.ShortDescription.data)
    if trimmedLength % 3 == 0 then
      match ParseFloat ext item.Price.data with
      | none => .error .price
      | some price =>
        itemsLoop ext rest (wrap64 (points + toInt ext (F64.ceil (F64.mul price c0_2))))
    else itemsLoop ext rest points

/-- Go `CalculatePoints`: the pair of the points and the error (`none` for `nil`). -/
def CalculatePoints (ext : Ext) (receipt : Receipt) : Int × Option CalcError :=
  let points : Int := 0
  let points := wrap64 (points + goLen (removeSpaces receipt.Retailer.data))
  let points := if isRoundDollarAmount receipt.Total then wrap64 (points + 50) else points
  let points := if isMultipleOfQuarter ext receipt.Total then wrap64 (points + 25) else points
  let points := wrap64 (points + wrap64 ((receipt.Items.length / 2 : Nat) * 5))
  match itemsLoop ext receipt.Items points with
  | .error e => (0, some e)
  | .ok points =>
    match parseDate receipt.PurchaseDate.data with
    | none => (0, some .purchaseDate)
    | some purchaseDate =>
      let points := if purchaseDate.day % 2 == 1 then wrap64 (points + 6) else points
      match parseTime receipt.PurchaseTime.data with
      | none => (0, some .purchaseTime)
      | some (hour, min) =>
        let points :=
          if 14 * 60 < hour * 60 + min && hour * 60 + min < 16 * 60 then wrap64 (points + 10)
          else points
        (points, none)

/-- The errors `ValidateReceipt` returns. -/
inductive ValidationError where
  | retailerRequired
  | purchaseDateRequired
  | purchaseTimeRequired
  | totalRequired
  | itemRequired
  | retailerInvalid
  | purchaseDateFormat
  | purchaseTimeFormat
  | totalFormat
  | itemDescriptionRequired
  | itemPriceRequired
  | itemDescriptionInvalid
  | itemPriceFormat
  | itemPriceParse
  | totalParse
  | totalMismatch
deriving DecidableEq, Repr

/-- The text of each error of `ValidateReceipt`. -/
def ValidationError.message : ValidationError → String
  | .retailerRequired => "Retailer is required"
  | .purchaseDateRequired => "PurchaseDate is required"
  | .purchaseTimeRequired => "PurchaseTime is required"
  | .totalRequired => "Total is required"
  | .itemRequired => "At least one item is required"
  | .retailerInvalid => "Retailer name has invalid characters"
  | .purchaseDateFormat => "Invalid PurchaseDate format"
  | .purchaseTimeFormat => "Invalid PurchaseTime format"
  | .totalFormat => "Invalid Total format"
  | .itemDescriptionRequired => "Item ShortDescription is required"
  | .itemPriceRequired => "Item Price is required"
  | .itemDescriptionInvalid => "Item ShortDescription has invalid characters"
  | .itemPriceFormat => "Item Price has an invalid format"
  | .itemPriceParse => "Failed to parse item price"
  | .totalParse => "Failed to parse total amount"
  | .totalMismatch => "Total amount does not match the sum of item prices"

/-- The loop over the items in `ValidateReceipt`, started with `totalFromItems`. -/
def validateItems (ext : Ext) : List Item → F64 → Except ValidationError F64
  | [], totalFromItems => .ok totalFromItems
  | item :: rest, totalFromItems =>
    if item.ShortDescription == "" then .error .itemDescriptionRequired
    else if item.Price == "" then .error .itemPriceRequired
    else if !matchName item.ShortDescription.data then .error .itemDescriptionInvalid
    else if !matchAmount item.Price.data then .error .itemPriceFormat
    else match ParseFloat ext item.Price.data with
      | none => .error .itemPriceParse
      | some price => validateItems ext rest (F64.add totalFromItems price)

/-- Go `ValidateReceipt`: `none` for `nil`. -/
def ValidateReceipt (ext : Ext) (receipt : Receipt) : Option ValidationError :=
  if receipt.Retailer == "" then some .retailerRequired
  else if receipt.PurchaseDate == "" then some .purchaseDateRequired
  else if receipt.PurchaseTime == "" then some .purchaseTimeRequired
  else if receipt.Total == "" then some .totalRequired
  else if receipt.Items.length == 0 then some .itemRequired
  else if !matchName receipt.Retailer.data then some .retailerInvalid
  else if (parseDate receipt.PurchaseDate.data).isNone then some .purchaseDateFormat
  else if (parseTime receipt.PurchaseTime.data).isNone then some .purchaseTimeFormat
  else if !matchAmount receipt.Total.data then some .totalFormat
  else match validateItems ext receipt.Items (.fin 0 0) with
    | .error e => some e
    | .ok totalFromItems =>
      match ParseFloat ext receipt.Total.data with
      | none => some .totalParse
      | some total =>
        if F64.gt (F64.abs (F64.sub totalFromItems total)) c0_0001 then some .totalMismatch
        else none

/-- An instance of `Ext` for evaluating the program: no string outside the decimal form is
accepted, and an unrepresentable conversion gives the least `int`, as on amd64. -/
def ext0 : Ext where
  parseFloatOther := fun _ => none
  intOfUnrepresentable := fun _ => -(2 ^ 63)

/-! ## Auxiliary definitions used to state the properties -/

/-- Whether the item takes part in the price rule: the length of its trimmed description is
a multiple of 3. -/
def relevant (item : Item) : Bool :=
  goLen (trimSpace item.ShortDescription.data) % 3 == 0

/-- What the loop of `CalculatePoints` adds for one item. -/
def itemTerm (ext : Ext) (item : Item) : Int :=
  if relevant item then
    match ParseFloat ext item.Price.data with
    | some price => toInt ext (F64.ceil (F64.mul price c0_2))
    | none => 0
  else 0

/-- Whether a parsed time of day lies strictly between 14:00 and 16:00. -/
def inWindow (hour min : Nat) : Bool :=
  14 * 60 < hour * 60 + min && hour * 60 + min < 16 * 60

/-- The sum of what the rules of `CalculatePoints` that precede the date and time rules add. -/
def baseSum (ext : Ext) (receipt : Receipt) : Int :=
  (goLen (removeSpaces receipt.Retailer.data) : Int)
    + (if isRoundDollarAmount receipt.Total then 50 else 0)
    + (if isMultipleOfQuarter ext receipt.Total then 25 else 0)
    + ((receipt.Items.length / 2 : Nat) * 5 : Int)
    + ((receipt.Items.map (itemTerm ext)).sum)

/-- ASCII letter or digit. -/
def isAlphanumeric (c : Char) : Bool :=
  isDigit c || ('A' ≤ c && c ≤ 'Z') || ('a' ≤ c && c ≤ 'z')

/-- All relevant items of the receipt have a price that parses. -/
def pricesParse (ext : Ext) (receipt : Receipt) : Bool :=
  receipt.Items.all (fun item => !relevant item || (ParseFloat ext item.Price.data).isSome)


/-! ## The checks of `ValidateReceipt`, one by one -/

/-- A check: whether it is violated, and the error that reports the violation. -/
abbrev Check := Bool × ValidationError

/-- The `float64` sum of the prices of the items, accumulated in sequence order from
`start` (a price that does not parse adds nothing). -/
def sumPrices (ext : Ext) : List Item → F64 → F64
  | [], start => start
  | item :: rest, start =>
    match ParseFloat ext item.Price.data with
    | none => sumPrices ext rest start
    | some price => sumPrices ext rest (F64.add start price)

/-- The checks on the fields of the receipt, in the order of the specification. -/
def receiptChecks (r : Receipt) : List Check :=
  [ (r.Retailer == "", .retailerRequired),
    (r.PurchaseDate == "", .purchaseDateRequired),
    (r.PurchaseTime == "", .purchaseTimeRequired),
    (r.Total == "", .totalRequired),
    (r.Items.isEmpty, .itemRequired),
    (!matchName r.Retailer.data, .retailerInvalid),
    ((parseDate r.PurchaseDate.data).isNone, .purchaseDateFormat),
    ((parseTime r.PurchaseTime.data).isNone, .purchaseTimeFormat),
    (!matchAmount r.Total.data, .totalFormat) ]

/-- The checks on one item. -/
def itemChecks (ext : Ext) (item : Item) : List Check :=
  [ (item.ShortDescription == "", .itemDescriptionRequired),
    (item.Price == "", .itemPriceRequired),
    (!matchName item.ShortDescription.data, .itemDescriptionInvalid),
    (!matchAmount item.Price.data, .itemPriceFormat),
    ((ParseFloat ext item.Price.data).isNone, .itemPriceParse) ]

/-- The comparison of the sum of the prices with the total. -/
def sumChecks (ext : Ext) (r : Receipt) : List Check :=
  [ ((ParseFloat ext r.Total.data).isNone, .totalParse),
    (F64.gt (F64.abs (F64.sub (sumPrices ext r.Items (.fin 0 0)) (parseTotal ext r.Total)))
      c0_0001, .totalMismatch) ]

/-- All the checks in order: the fields, the items one after the other, the sum. -/
def allChecks (ext : Ext) (r : Receipt) : List Check :=
  receiptChecks r ++ (r.Items.map (itemChecks ext)).flatten ++ sumChecks ext r

/-- The error of the first violated check, if any. -/
def firstViolation (checks : List Check) : Option ValidationError :=
  (checks.find? (fun c => c.1)).map (fun c => c.2)

/-! ## Amounts as exact decimals -/

/-- The value in cents of an amount written as digits, `.`, two digits. -/
def cents (amount : String) : Nat :=
  digitsVal (amount.data.filter isDigit)

/-- The exact sum, in cents, of the prices of the items. -/
def sumCents (items : List Item) : Nat :=
  (items.map (fun item => cents item.Price)).sum

/-- Checks 1 to 6 of the specification of the validator. -/
def checks1to6 (r : Receipt) : Prop :=
  (r.Retailer ≠ "" ∧ r.PurchaseDate ≠ "" ∧ r.PurchaseTime ≠ "" ∧ r.Total ≠ "" ∧ r.Items ≠ []) ∧
  matchName r.Retailer.data = true ∧
  (parseDate r.PurchaseDate.data).isSome = true ∧
  (parseTime r.PurchaseTime.data).isSome = true ∧
  matchAmount r.Total.data = true ∧
  (∀ item ∈ r.Items, item.ShortDescription ≠ "" ∧ matchName item.ShortDescription.data = true ∧
    item.Price ≠ "" ∧ matchAmount item.Price.data = true)

/-- Check 7 of the specification on the exact decimal amounts: the sum of the prices and the
total, `sumCents / 100` and `cents / 100`, differ by at most 0.0001. -/
def check7Exact (r : Receipt) : Prop :=
  100 * ((sumCents r.Items : Int) - (cents r.Total : Int)).natAbs ≤ 1

/-- Check 7 as `ValidateReceipt` computes it: every price and the total convert to a
`float64`, and the `float64` sum of the prices, accumulated in sequence order, does not
differ from the `float64` total by more than the `float64` 0.0001. -/
def check7Float (ext : Ext) (r : Receipt) : Prop :=
  (∀ item ∈ r.Items, (ParseFloat ext item.Price.data).isSome = true) ∧
  (ParseFloat ext r.Total.data).isSome = true ∧
  F64.gt (F64.abs (F64.sub (sumPrices ext r.Items (.fin 0 0)) (parseTotal ext r.Total)))
    c0_0001 = false

/-! ## The points as a sum of exact contributions -/

/-- What the price rule adds for an item on its exact decimal price: the ceiling of one
fifth of the price when the trimmed description has a length divisible by 3. -/
def exactItemPoints (item : Item) : Int :=
  if goLen (trimSpace item.ShortDescription.data) % 3 = 0
  then (((cents item.Price + 499) / 500 : Nat) : Int) else 0

/-- The sum of the contributions of all rules but the retailer rule, on exact decimal
amounts, for a receipt whose date and time are given. -/
def exactRulePoints (r : Receipt) (d : Date) (hour min : Nat) : Int :=
  (if hasSuffix r.Total.data ".00".data then 50 else 0)
    + (if cents r.Total % 25 = 0 then 25 else 0)
    + 5 * ((r.Items.length / 2 : Nat) : Int)
    + (r.Items.map exactItemPoints).sum
    + (if d.day % 2 = 1 then 6 else 0)
    + (if 14 * 60 < hour * 60 + min ∧ hour * 60 + min < 16 * 60 then 10 else 0)

/-- The sum of the contributions as the specification lists them: one point per character
of the retailer name with its spaces removed, and the other rules. -/
def claimedPoints (r : Receipt) (d : Date) (hour min : Nat) : Int :=
  ((removeSpaces r.Retailer.data).length : Int) + exactRulePoints r d hour min

/-- The sum of the contributions with one point per byte of the retailer name with its
spaces removed. -/
def exactPoints (r : Receipt) (d : Date) (hour min : Nat) : Int :=
  (goLen (removeSpaces r.Retailer.data) : Int) + exactRulePoints r d hour min

/-! ## `ValidateID` and the handlers (`controllers/receipts/receipt-operations.go`)

The two `cache.Cache` values are modelled by what `Get` shows of them: the value under each
key that is present.  Expiration is not modelled: the properties are about a sequence of
calls during which no entry expires.  The handlers are modelled one call at a time. -/

/-- The text with which each error of `CalculatePoints` starts. -/
def CalcError.message : CalcError → String
  | .price => "failed to parse price"
  | .purchaseDate => "failed to parse purchase date"
  | .purchaseTime => "failed to parse purchase time"

/-- Go `ValidateID`: `none` for `nil`, `some text` for the error with that text. -/
def ValidateID (id : String) : Option String :=
  if !matchID id.data then some "Invalid ID format" else none

/-- The contents of a `cache.Cache`: the value that `Get` finds under each key. -/
abbrev Store (α : Type) := String → Option α

/-- The cache with no entry. -/
def Store.empty {α : Type} : Store α :=
  fun _ => none

/-- The cache after `Set(key, value, cache.DefaultExpiration)`. -/
def Store.set {α : Type} (s : Store α) (key : String) (value : α) : Store α :=
  fun k => if k = key then some value else s k

/-- The hexadecimal digits. -/
def hexDigits : List Char :=
  ['0', '1', '2', '3', '4', '5', '6', '7', '8', '9', 'a', 'b', 'c', 'd', 'e', 'f']

/-- The hexadecimal digit of the value `n % 16`. -/
def hexDigit (n : Nat) : Char :=
  hexDigits.getD (n % 16) '0'

/-- The last `count` hexadecimal digits of `u`, most significant first. -/
def hexString (u : Nat) : Nat → List Char
  | 0 => []
  | count + 1 => hexString (u / 16) count ++ [hexDigit u]

/-- The 32 hexadecimal digits `ds` grouped as `xxxxxxxx-xxxx-xxxx-xxxx-xxxxxxxxxxxx`. -/
def uuidFormat (ds : List Char) : List Char :=
  ds.take 8 ++ '-' :: (ds.drop 8).take 4 ++ '-' :: (ds.drop 12).take 4
    ++ '-' :: (ds.drop 16).take 4 ++ '-' :: ds.drop 20

/-- The canonical form of the 128-bit identifier `u`, as `uuid.UUID.String` renders what
`uuid.New` returns. -/
def uuidString (u : Nat) : String :=
  String.mk (uuidFormat (hexString u 32))

/-- Go `GenerateReceiptID`.  The identifiers that the successive calls of `uuid.New` return
are `candidates i`, `candidates (i + 1)`, ...; the loop is run for at most `fuel` rounds, and
the result is `none` when it has not ended by then. -/
def GenerateReceiptID (c : Store Receipt) (candidates : Nat → Nat) : Nat → Nat → Option String
  | 0, _ => none
  | fuel + 1, i =>
    let GenID := uuidString (candidates i)
    if (c GenID).isNone then some GenID
    else GenerateReceiptID c candidates fuel (i + 1)

/-- The body of a response. -/
inductive Body where
  /-- The JSON object with the field `id`. -/
  | id (id : String)
  /-- The JSON object `models.PointsResponse`. -/
  | points (points : Int)
  /-- The plain text that `http.Error` writes. -/
  | text (message : String)
deriving DecidableEq, Repr

/-- The response a handler writes: the status code and the body. -/
structure Response where
  status : Nat
  body : Body
deriving DecidableEq, Repr

/-- Go `ProcessReceipts`: the response and the two caches after the call, or `none` when the
loop of `GenerateReceiptID` has not ended within `fuel` rounds.  The payload is the result
of decoding the body of the request (`none` when it is not valid JSON). -/
def ProcessReceipts (ext : Ext) (candidates : Nat → Nat) (fuel : Nat) (payload : Option Receipt)
    (c : Store Receipt) (processedReceiptsCache : Store Bool) :
    Option (Response × Store Receipt × Store Bool) :=
  match payload with
  | none => some (⟨400, .text "Invalid JSON payload"⟩, c, processedReceiptsCache)
  | some receipt =>
    match ValidateReceipt ext receipt with
    | some err =>
      some (⟨400, .text ("Invalid receipt: " ++ err.message)⟩, c, processedReceiptsCache)
    | none =>
      match GenerateReceiptID c candidates fuel 0 with
      | none => none
      | some receiptID =>
        match ValidateID receiptID with
        | some err =>
          some (⟨500, .text ("Invalid generated ID: " ++ err)⟩, c, processedReceiptsCache)
        | none =>
          let c := c.set receiptID receipt
          if receiptID == "" then
            some (⟨500, .text "Failed to generrate unique receipt ID"⟩, c,
              processedReceiptsCache)
          else some (⟨200, .id receiptID⟩, c, processedReceiptsCache)

/-- Go `GetPoints`: the response and the two caches after the call. -/
def GetPoints (ext : Ext) (receiptID : String) (c : Store Receipt)
    (processedReceiptsCache : Store Bool) : Response × Store Receipt × Store Bool :=
  match ValidateID receiptID with
  | some err =>
    (⟨400, .text ("Invalid receipt ID format: " ++ err)⟩, c, processedReceiptsCache)
  | none =>
    if (processedReceiptsCache receiptID).isSome then
      (⟨200, .points 0⟩, c, processedReceiptsCache)
    else
      match c receiptID with
      | none => (⟨404, .text "No Receipt found for that id"⟩, c, processedReceiptsCache)
      | some receipt =>
        match CalculatePoints ext receipt with
        | (_, some _) =>
          (⟨500, .text "Error calculating points"⟩, c, processedReceiptsCache)
        | (points, none) =>
          (⟨200, .points points⟩, c, processedReceiptsCache.set receiptID true)

/-- Whether every character of the string is accepted nowhere in an identifier by the
specification: no character with the Unicode White_Space property. -/
def hasNoWhiteSpace (id : String) : Bool :=
  id.data.all (fun c => !isSpace c)

/-! ## Receipts of the test suite -/

/-- The receipt of `TestCalculatePoints_SuccessCase`. -/
def fixtureSuccess : Receipt :=
  { Retailer := "Valid Retailer", PurchaseDate := "2022-02-23", PurchaseTime := "15:30",
    Items := [⟨"Item 1", "10.00"⟩, ⟨"Item 2", "10.00"⟩], Total := "20.00" }

/-- The valid receipt of `TestCalculatePoints`. -/
def fixtureCalculate : Receipt :=
  { Retailer := "Test Retailer", PurchaseDate := "2022-02-28", PurchaseTime := "15:30",
    Items := [⟨"Item 1", "50.00"⟩, ⟨"Item 2", "25.00"⟩], Total := "100.00" }

/-- The valid receipt of `TestValidateReceipt`. -/
def fixtureValidate : Receipt :=
  { Retailer := "Test Retailer", PurchaseDate := "2022-02-28", PurchaseTime := "15:30",
    Items := [⟨"Item 1", "50.00"⟩, ⟨"Item 2", "25.00"⟩], Total := "75.00" }

/-- The receipt of `TestProcessReceiptsAndRetrievePoints`. -/
def fixtureProcess : Receipt :=
  { Retailer := "Test Retailer", PurchaseDate := "2022-02-28", PurchaseTime := "12:34",
    Items := [⟨"Item 1", "10.99"⟩, ⟨"Item 2", "15.00"⟩], Total := "25.99" }

/-- The zero value `models.Receipt{}`. -/
def emptyReceipt : Receipt :=
  { Retailer := "", PurchaseDate := "", PurchaseTime := "", Items := [], Total := "" }
/-! ## Lemmas -/

theorem wrap64_add_left (a b : Int) : wrap64 (wrap64 a + b) = wrap64 (a + b) := by
  unfold wrap64; omega

theorem wrap64_add_right (a b : Int) : wrap64 (a + wrap64 b) = wrap64 (a + b) := by
  unfold wrap64; omega

theorem wrap64_range (a : Int) : -(2 ^ 63) ≤ wrap64 a ∧ wrap64 a < 2 ^ 63 := by
  unfold wrap64; omega

theorem wrap64_of_range (a : Int) (h1 : -(2 ^ 63) ≤ a) (h2 : a < 2 ^ 63) : wrap64 a = a := by
  unfold wrap64; omega

theorem wrap64_idem (a : Int) : wrap64 (wrap64 a) = wrap64 a := by
  unfold wrap64; omega

/-- The loop over the items fails exactly when a relevant item has a price that does not
parse, and otherwise adds the terms of the items. -/
theorem itemsLoop_eq (ext : Ext) (items : List Item) (p : Int) :
    itemsLoop ext items (wrap64 p) =
      if items.all (fun item => !relevant item || (ParseFloat ext item.Price.data).isSome)
      then .ok (wrap64 (p + (items.map (itemTerm ext)).sum))
      else .error .price := by
  induction items generalizing p with
  | nil => simp [itemsLoop]
  | cons item rest ih =>
    rw [itemsLoop]
    simp only [List.all_cons, List.map_cons, List.sum_cons]
    by_cases hrel : relevant item = true
    · have hrel2 : (goLen (trimSpace item.ShortDescription.data) % 3 == 0) = true := hrel
      rw [if_pos hrel2]
      cases hpf : ParseFloat ext item.Price.data with
      | none => simp [hrel]
      | some price =>
        simp only [wrap64_add_left, ih, hrel, itemTerm, hpf, Bool.not_true, Bool.false_or,
          Option.isSome_some, Bool.true_and, if_true, add_assoc]
    · have hrel2 : ¬ (goLen (trimSpace item.ShortDescription.data) % 3 == 0) = true := hrel
      rw [if_neg hrel2, ih]
      simp only [Bool.not_eq_true] at hrel
      simp [hrel, itemTerm]

theorem headPoints_eq (ext : Ext) (receipt : Receipt) :
    (wrap64 ((if isMultipleOfQuarter ext receipt.Total then
        wrap64 ((if isRoundDollarAmount receipt.Total then
          wrap64 (wrap64 (0 + (goLen (removeSpaces receipt.Retailer.data) : Int)) + 50)
          else wrap64 (0 + (goLen (removeSpaces receipt.Retailer.data) : Int))) + 25)
        else (if isRoundDollarAmount receipt.Total then
          wrap64 (wrap64 (0 + (goLen (removeSpaces receipt.Retailer.data) : Int)) + 50)
          else wrap64 (0 + (goLen (removeSpaces receipt.Retailer.data) : Int))))
        + wrap64 ((receipt.Items.length / 2 : Nat) * 5)))
    = wrap64 ((goLen (removeSpaces receipt.Retailer.data) : Int)
        + (if isRoundDollarAmount receipt.Total then 50 else 0)
        + (if isMultipleOfQuarter ext receipt.Total then 25 else 0)
        + ((receipt.Items.length / 2 : Nat) * 5 : Int)) := by
  split_ifs <;> simp only [wrap64_add_left, wrap64_add_right, zero_add, add_zero]

/-- The result of `CalculatePoints` in closed form. -/
theorem CalculatePoints_eq (ext : Ext) (receipt : Receipt) :
    CalculatePoints ext receipt =
      if pricesParse ext receipt then
        match parseDate receipt.PurchaseDate.data with
        | none => (0, some .purchaseDate)
        | some d =>
          match parseTime receipt.PurchaseTime.data with
          | none => (0, some .purchaseTime)
          | some (hour, min) =>
            (wrap64 (baseSum ext receipt + (if d.day % 2 == 1 then 6 else 0)
              + (if inWindow hour min then 10 else 0)), none)
      else (0, some .price) := by
  unfold CalculatePoints
  simp only []
  rw [headPoints_eq, itemsLoop_eq]
  by_cases h1 : pricesParse ext receipt = true
  · have h1b : (receipt.Items.all
        (fun item => !relevant item || (ParseFloat ext item.Price.data).isSome)) = true := h1
    rw [if_pos h1, if_pos h1b]
    simp only []
    cases parseDate receipt.PurchaseDate.data with
    | none => rfl
    | some d =>
      simp only []
      cases parseTime receipt.PurchaseTime.data with
      | none => rfl
      | some hm =>
        obtain ⟨hour, min⟩ := hm
        simp only [inWindow, baseSum]
        split_ifs <;> simp only [wrap64_add_left, add_zero]
  · have h1b : ¬ (receipt.Items.all
        (fun item => !relevant item || (ParseFloat ext item.Price.data).isSome)) = true := h1
    rw [if_neg h1, if_neg h1b]

theorem firstViolation_cons (c : Check) (cs : List Check) :
    firstViolation (c :: cs) = if c.1 then some c.2 else firstViolation cs := by
  unfold firstViolation
  rw [List.find?_cons]
  cases c.1 <;> simp

theorem firstViolation_append (xs ys : List Check) :
    firstViolation (xs ++ ys) = (firstViolation xs).orElse (fun _ => firstViolation ys) := by
  induction xs with
  | nil => simp [firstViolation]
  | cons c cs ih =>
    rw [List.cons_append, firstViolation_cons, firstViolation_cons, ih]
    cases c.1 <;> simp

/-- The loop of `ValidateReceipt` fails with the error of the first violated item check and
otherwise returns the sum of the prices. -/
theorem validateItems_eq (ext : Ext) (items : List Item) (acc : F64) :
    validateItems ext items acc =
      match firstViolation (items.map (itemChecks ext)).flatten with
      | some e => .error e
      | none => .ok (sumPrices ext items acc) := by
  induction items generalizing acc with
  | nil => rfl
  | cons item rest ih =>
    rw [validateItems, List.map_cons, List.flatten_cons, firstViolation_append]
    simp only [itemChecks, firstViolation_cons]
    by_cases h1 : (item.ShortDescription == "") = true
    · simp [h1]
    · by_cases h2 : (item.Price == "") = true
      · simp [h1, h2]
      · by_cases h3 : (!matchName item.ShortDescription.data) = true
        · simp [h1, h2, h3]
        · by_cases h4 : (!matchAmount item.Price.data) = true
          · simp [h1, h2, h3, h4]
          · rw [if_neg h1, if_neg h2, if_neg h3, if_neg h4]
            rw [if_neg h1, if_neg h2, if_neg h3, if_neg h4]
            cases hpf : ParseFloat ext item.Price.data with
            | none => simp
            | some price =>
              simp only [ih, Option.isNone_some, sumPrices, hpf]
              simp [firstViolation]

/-- `ValidateReceipt` returns the error of the first violated check. -/
theorem ValidateReceipt_eq (ext : Ext) (r : Receipt) :
    ValidateReceipt ext r = firstViolation (allChecks ext r) := by
  unfold ValidateReceipt allChecks
  rw [List.append_assoc, firstViolation_append]
  simp only [receiptChecks, firstViolation_cons]
  by_cases h1 : (r.Retailer == "") = true
  · simp [h1]
  rw [if_neg h1, if_neg h1]
  by_cases h2 : (r.PurchaseDate == "") = true
  · simp [h2]
  rw [if_neg h2, if_neg h2]
  by_cases h3 : (r.PurchaseTime == "") = true
  · simp [h3]
  rw [if_neg h3, if_neg h3]
  by_cases h4 : (r.Total == "") = true
  · simp [h4]
  rw [if_neg h4, if_neg h4]
  by_cases h5 : r.Items.isEmpty = true
  · have : (r.Items.length == 0) = true := by
      rw [List.isEmpty_iff] at h5
      simp [h5]
    simp [h5, this]
  have h5b : ¬ (r.Items.length == 0) = true := by
    intro hc
    apply h5
    rw [List.isEmpty_iff]
    exact List.length_eq_zero.mp (by simpa using hc)
  rw [if_neg h5, if_neg h5b]
  by_cases h6 : (!matchName r.Retailer.data) = true
  · simp [h6]
  rw [if_neg h6, if_neg h6]
  by_cases h7 : (parseDate r.PurchaseDate.data).isNone = true
  · simp [h7]
  rw [if_neg h7, if_neg h7]
  by_cases h8 : (parseTime r.PurchaseTime.data).isNone = true
  · simp [h8]
  rw [if_neg h8, if_neg h8]
  by_cases h9 : (!matchAmount r.Total.data) = true
  · simp [h9]
  rw [if_neg h9, if_neg h9]
  rw [validateItems_eq, firstViolation_append]
  cases hv : firstViolation (List.map (itemChecks ext) r.Items).flatten with
  | some e => simp [firstViolation]
  | none =>
    simp only [sumChecks, firstViolation_cons, parseTotal]
    cases hpf : ParseFloat ext r.Total.data with
    | none => simp [firstViolation]
    | some total =>
      by_cases hgt : F64.gt (F64.abs (F64.sub (sumPrices ext r.Items (.fin 0 0)) total))
          c0_0001 = true
      · simp [hgt, firstViolation]
      · simp [hgt, firstViolation]

theorem firstViolation_eq_none (cs : List Check) :
    firstViolation cs = none ↔ ∀ c ∈ cs, c.1 = false := by
  unfold firstViolation
  rw [Option.map_eq_none', List.find?_eq_none]
  constructor
  · intro h c hc
    simpa using h c hc
  · intro h c hc
    simp [h c hc]

/-- `ValidateReceipt` accepts exactly the receipts that pass checks 1 to 6 and the
comparison of the `float64` sum of the prices with the `float64` total. -/
theorem ValidateReceipt_eq_none (ext : Ext) (r : Receipt) :
    ValidateReceipt ext r = none ↔ checks1to6 r ∧ check7Float ext r := by
  rw [ValidateReceipt_eq, firstViolation_eq_none]
  unfold allChecks checks1to6 check7Float
  simp only [List.mem_append, List.mem_flatten, List.mem_map, receiptChecks, itemChecks,
    sumChecks, List.mem_cons, List.mem_singleton, List.not_mem_nil, or_false]
  constructor
  · intro h
    have r1 := h (r.Retailer == "", .retailerRequired) (by simp)
    have r2 := h (r.PurchaseDate == "", .purchaseDateRequired) (by simp)
    have r3 := h (r.PurchaseTime == "", .purchaseTimeRequired) (by simp)
    have r4 := h (r.Total == "", .totalRequired) (by simp)
    have r5 := h (r.Items.isEmpty, .itemRequired) (by simp)
    have r6 := h (!matchName r.Retailer.data, .retailerInvalid) (by simp)
    have r7 := h ((parseDate r.PurchaseDate.data).isNone, .purchaseDateFormat) (by simp)
    have r8 := h ((parseTime r.PurchaseTime.data).isNone, .purchaseTimeFormat) (by simp)
    have r9 := h (!matchAmount r.Total.data, .totalFormat) (by simp)
    have s1 := h ((ParseFloat ext r.Total.data).isNone, .totalParse) (by simp)
    have s2 := h (F64.gt (F64.abs (F64.sub (sumPrices ext r.Items (.fin 0 0))
      (parseTotal ext r.Total))) c0_0001, .totalMismatch) (by simp)
    have hi : ∀ item ∈ r.Items, ∀ c ∈ itemChecks ext item, c.1 = false := by
      intro item hitem c hc
      apply h c
      left; right
      exact ⟨itemChecks ext item, ⟨item, hitem, rfl⟩, hc⟩
    simp only [beq_eq_false_iff_ne, ne_eq, Bool.not_eq_false'] at r1 r2 r3 r4 r6 r9
    refine ⟨⟨⟨r1, r2, r3, r4, ?_⟩, r6, ?_, ?_, r9, ?_⟩, ?_, ?_, s2⟩
    · intro hnil; rw [hnil] at r5; simp at r5
    · simpa [Option.isSome_iff_ne_none, Option.isNone_iff_eq_none] using r7
    · simpa [Option.isSome_iff_ne_none, Option.isNone_iff_eq_none] using r8
    · intro item hitem
      have i1 := hi item hitem (item.ShortDescription == "", .itemDescriptionRequired)
        (by simp [itemChecks])
      have i2 := hi item hitem (item.Price == "", .itemPriceRequired) (by simp [itemChecks])
      have i3 := hi item hitem (!matchName item.ShortDescription.data, .itemDescriptionInvalid)
        (by simp [itemChecks])
      have i4 := hi item hitem (!matchAmount item.Price.data, .itemPriceFormat)
        (by simp [itemChecks])
      simp only [beq_eq_false_iff_ne, ne_eq, Bool.not_eq_false'] at i1 i2 i3 i4
      exact ⟨i1, i3, i2, i4⟩
    · intro item hitem
      have i5 := hi item hitem ((ParseFloat ext item.Price.data).isNone, .itemPriceParse)
        (by simp [itemChecks])
      simpa [Option.isSome_iff_ne_none, Option.isNone_iff_eq_none] using i5
    · simpa [Option.isSome_iff_ne_none, Option.isNone_iff_eq_none] using s1
  · rintro ⟨⟨⟨r1, r2, r3, r4, r5⟩, r6, r7, r8, r9, hitems⟩, hparse, s1, s2⟩ c hc
    rcases hc with (hc | ⟨l, ⟨item, hitem, rfl⟩, hc⟩) | hc
    · rcases hc with rfl | rfl | rfl | rfl | rfl | rfl | rfl | rfl | rfl
      all_goals simp_all [Option.isSome_iff_ne_none]
    · obtain ⟨i1, i3, i2, i4⟩ := hitems item hitem
      have i5 := hparse item hitem
      simp only [itemChecks, List.mem_cons, List.mem_singleton, List.not_mem_nil,
        or_false] at hc
      rcases hc with rfl | rfl | rfl | rfl | rfl
      all_goals simp_all [Option.isSome_iff_ne_none]
    · rcases hc with rfl | rfl
      all_goals simp_all [Option.isSome_iff_ne_none]

/-! ### Rounding -/

theorem bitLenAux_spec (fuel n : Nat) (hf : n ≤ fuel) (hn : 0 < n) :
    2 ^ (bitLenAux fuel n - 1) ≤ n ∧ n < 2 ^ bitLenAux fuel n := by
  induction fuel generalizing n with
  | zero => omega
  | succ fuel ih =>
    rw [bitLenAux, if_neg (by omega)]
    by_cases h1 : n / 2 = 0
    · have hn1 : n = 1 := by omega
      subst hn1
      cases fuel <;> simp [bitLenAux]
    · have hpos : 0 < n / 2 := Nat.pos_of_ne_zero h1
      obtain ⟨h2, h3⟩ := ih (n / 2) (by omega) hpos
      have hb : 1 ≤ bitLenAux fuel (n / 2) := by
        by_contra hc
        have : bitLenAux fuel (n / 2) = 0 := by omega
        rw [this] at h3
        simp at h3
        omega
      constructor
      · have : bitLenAux fuel (n / 2) + 1 - 1 = (bitLenAux fuel (n / 2) - 1) + 1 := by omega
        rw [this, pow_succ]
        omega
      · rw [pow_succ]
        omega

theorem bitLen_spec (n : Nat) (hn : 0 < n) :
    2 ^ (bitLen n - 1) ≤ n ∧ n < 2 ^ bitLen n :=
  bitLenAux_spec n n le_rfl hn

theorem bitLen_pos (n : Nat) (hn : 0 < n) : 1 ≤ bitLen n := by
  by_contra hc
  have h0 : bitLen n = 0 := by omega
  have := (bitLen_spec n hn).2
  rw [h0] at this
  simp at this
  omega

/-- The rounded quotient is within one half of the exact quotient. -/
theorem roundHalfEven_err (a b : Nat) (hb : 0 < b) :
    2 * ((roundHalfEven a b : Int) * b - a).natAbs ≤ b := by
  unfold roundHalfEven
  have h1 := Nat.div_add_mod a b
  have h2 := Nat.mod_lt a hb
  generalize a / b = q at *
  generalize a % b = r at *
  have ha : (a : Int) = b * q + r := by exact_mod_cast h1.symm
  simp only []
  split_ifs with c1 c2 c3
  · have : ((q : Int) * b - a) = -r := by rw [ha]; ring
    rw [this]; simp; omega
  · have : (((q + 1 : Nat) : Int) * b - a) = b - r := by rw [ha]; push_cast; ring
    rw [this]; omega
  · have : ((q : Int) * b - a) = -r := by rw [ha]; ring
    rw [this]; simp; omega
  · have : (((q + 1 : Nat) : Int) * b - a) = b - r := by rw [ha]; push_cast; ring
    rw [this]; omega

/-- A natural number that is strictly within one half of the exact quotient is the rounded
quotient. -/
theorem roundHalfEven_unique (a b m : Nat) (hb : 0 < b)
    (h : 2 * ((m : Int) * b - a).natAbs < b) : roundHalfEven a b = m := by
  have herr := roundHalfEven_err a b hb
  generalize roundHalfEven a b = m' at herr
  by_contra hne
  rcases Nat.lt_or_gt_of_ne hne with hlt | hgt
  · have : (m' : Int) + 1 ≤ m := by exact_mod_cast hlt
    have hm : (m' : Int) * b + b ≤ m * b := by nlinarith
    omega
  · have : (m : Int) + 1 ≤ m' := by exact_mod_cast hgt
    have hm : (m : Int) * b + b ≤ m' * b := by nlinarith
    omega

/-- An exact quotient is not changed by rounding. -/
theorem roundHalfEven_mul (m b : Nat) (hb : 0 < b) : roundHalfEven (m * b) b = m := by
  apply roundHalfEven_unique _ _ _ hb
  push_cast
  simp
  exact hb

/-- The binary exponent chosen by `ulpExp`: the quotient `a / b` is below `2 ^ (E + 1)`, and
`E < B` when the quotient is below `2 ^ B`. -/
theorem ulpExp_bound (a b B : Nat) (ha : 0 < a) (hb : 0 < b) (h : a < b * 2 ^ B) :
    ∃ E : Int, ulpExp a b = max (E - 52) (-1074) ∧ E + 1 ≤ B ∧
      a * 2 ^ (-(E + 1)).toNat < b * 2 ^ (E + 1).toNat := by
  obtain ⟨ha1, ha2⟩ := bitLen_spec a ha
  obtain ⟨hb1, hb2⟩ := bitLen_spec b hb
  have hla := bitLen_pos a ha
  have hlb := bitLen_pos b hb
  unfold ulpExp
  simp only []
  generalize bitLen a = la at *
  generalize bitLen b = lb at *
  obtain ⟨la', rfl⟩ : ∃ x, la = x + 1 := ⟨la - 1, by omega⟩
  obtain ⟨lb', rfl⟩ : ∃ x, lb = x + 1 := ⟨lb - 1, by omega⟩
  simp only [add_tsub_cancel_right] at ha1 hb1
  rw [pow_succ] at ha2 hb2
  by_cases hl : lb' ≤ la'
  · -- the quotient is at least 1/2
    obtain ⟨d, rfl⟩ : ∃ d, la' = lb' + d := ⟨la' - lb', by omega⟩
    have e1 : (((lb' + d + 1 : Nat) : Int) - ((lb' + 1 : Nat) : Int)) = (d : Int) := by
      push_cast; ring
    rw [e1]
    have t1 : (d : Int).toNat = d := by omega
    have t2 : (-(d : Int)).toNat = 0 := by omega
    rw [t1, t2, pow_zero, mul_one]
    rw [pow_add] at ha1 ha2
    have hdB : d ≤ B := by
      by_contra hc
      have hlt : B + 1 ≤ d := by omega
      have hpow : 2 ^ (B + 1) ≤ 2 ^ d := Nat.pow_le_pow_right (by norm_num) hlt
      rw [pow_succ] at hpow
      have hbB : b * 2 ^ B < 2 ^ lb' * 2 * 2 ^ B := by
        apply Nat.mul_lt_mul_of_pos_right hb2 (by positivity)
      nlinarith
    by_cases hc : b * 2 ^ d ≤ a
    · rw [if_pos hc]
      refine ⟨d, rfl, ?_, ?_⟩
      · have hdB' : d < B := by
          by_contra hcc
          have hBd : B ≤ d := by omega
          have hpow : 2 ^ B ≤ 2 ^ d := Nat.pow_le_pow_right (by norm_num) hBd
          have : b * 2 ^ B ≤ b * 2 ^ d := Nat.mul_le_mul_left b hpow
          omega
        omega
      · have t3 : (-((d : Int) + 1)).toNat = 0 := by omega
        have t4 : ((d : Int) + 1).toNat = d + 1 := by omega
        rw [t3, t4, pow_zero, mul_one, pow_succ]
        nlinarith
    · rw [if_neg hc]
      refine ⟨(d : Int) - 1, rfl, by omega, ?_⟩
      have t3 : (-((d : Int) - 1 + 1)).toNat = 0 := by omega
      have t4 : ((d : Int) - 1 + 1).toNat = d := by omega
      rw [t3, t4, pow_zero, mul_one]
      omega
  · -- the quotient is below 1
    obtain ⟨d, rfl⟩ : ∃ d, lb' = la' + d + 1 := ⟨lb' - la' - 1, by omega⟩
    have e1 : (((la' + 1 : Nat) : Int) - ((la' + d + 1 + 1 : Nat) : Int)) = -((d : Int) + 1) := by
      push_cast; ring
    rw [e1]
    have t1 : (-((d : Int) + 1)).toNat = 0 := by omega
    have t2 : (-(-((d : Int) + 1))).toNat = d + 1 := by omega
    rw [t1, t2, pow_zero, mul_one]
    by_cases hc : b ≤ a * 2 ^ (d + 1)
    · rw [if_pos hc]
      refine ⟨-((d : Int) + 1), rfl, by omega, ?_⟩
      have t3 : (-(-((d : Int) + 1) + 1)).toNat = d := by omega
      have t4 : (-((d : Int) + 1) + 1).toNat = 0 := by omega
      rw [t3, t4, pow_zero, mul_one]
      have : 2 ^ (la' + d + 1) = 2 ^ la' * 2 * 2 ^ d := by ring
      rw [this] at hb1
      have : a * 2 ^ d < 2 ^ la' * 2 * 2 ^ d := Nat.mul_lt_mul_of_pos_right ha2 (by positivity)
      omega
    · rw [if_neg hc]
      refine ⟨-((d : Int) + 1) - 1, rfl, by omega, ?_⟩
      have t3 : (-(-((d : Int) + 1) - 1 + 1)).toNat = d + 1 := by omega
      have t4 : (-((d : Int) + 1) - 1 + 1).toNat = 0 := by omega
      rw [t3, t4, pow_zero, mul_one]
      omega

/-- Rounding a positive quotient below `2 ^ B`, with `B ≤ 52`: the result has at least
`53 - B` binary places, and its numerator is the rounded quotient scaled by them. -/
theorem roundPos_small (a b B : Nat) (ha : 0 < a) (hb : 0 < b) (hB : B ≤ 52)
    (h : a < b * 2 ^ B) :
    ∃ k : Nat, 53 ≤ k + B ∧ a * 2 ^ k < b * 2 ^ 53 ∧
      roundPos a b = .fin (roundHalfEven (a * 2 ^ k) b : Nat) k := by
  obtain ⟨E, hE, hEB, hlt⟩ := ulpExp_bound a b B ha hb h
  unfold roundPos
  simp only []
  rw [hE]
  have hneg : ¬ (0 : Int) ≤ max (E - 52) (-1074) := by omega
  rw [if_neg hneg]
  refine ⟨(-(max (E - 52) (-1074))).toNat, by omega, ?_, rfl⟩
  -- a * 2 ^ k ≤ a * 2 ^ (52 - E) < b * 2 ^ 53
  have hk : (-(max (E - 52) (-1074))).toNat ≤ (52 - E).toNat := by omega
  have h1 : a * 2 ^ (-(max (E - 52) (-1074))).toNat ≤ a * 2 ^ (52 - E).toNat :=
    Nat.mul_le_mul_left a (Nat.pow_le_pow_right (by norm_num) hk)
  refine lt_of_le_of_lt h1 ?_
  by_cases hE0 : 0 ≤ E + 1
  · obtain ⟨n, hn⟩ : ∃ n : Nat, E + 1 = n := ⟨(E + 1).toNat, by omega⟩
    have t1 : (-(E + 1)).toNat = 0 := by omega
    have t2 : (E + 1).toNat = n := by omega
    have t3 : (52 - E).toNat = 53 - n := by omega
    rw [t1, t2, pow_zero, mul_one] at hlt
    rw [t3]
    have hn53 : n ≤ 53 := by omega
    have : b * 2 ^ 53 = b * 2 ^ n * 2 ^ (53 - n) := by
      rw [mul_assoc, ← pow_add]; congr 2; omega
    rw [this]
    exact Nat.mul_lt_mul_of_pos_right hlt (by positivity)
  · obtain ⟨n, hn⟩ : ∃ n : Nat, -(E + 1) = n := ⟨(-(E + 1)).toNat, by omega⟩
    have t1 : (-(E + 1)).toNat = n := by omega
    have t2 : (E + 1).toNat = 0 := by omega
    have t3 : (52 - E).toNat = 53 + n := by omega
    rw [t1, t2, pow_zero, mul_one] at hlt
    rw [t3, pow_add, ← mul_assoc]
    have : a * 2 ^ 53 * 2 ^ n = a * 2 ^ n * 2 ^ 53 := by ring
    rw [this]
    exact Nat.mul_lt_mul_of_pos_right hlt (by positivity)

theorem abs_le_half_of_natAbs (z : Int) (b : Nat) (h : 2 * z.natAbs ≤ b) :
    |(z : ℚ)| ≤ (b : ℚ) / 2 := by
  have h1 : (2 : Int) * |z| ≤ b := by
    rw [← Int.natCast_natAbs]
    exact_mod_cast h
  have h2 : ((2 * |z| : Int) : ℚ) ≤ ((b : Int) : ℚ) := Int.cast_le.mpr h1
  push_cast at h2
  linarith

theorem abs_lt_half_of_natAbs (z : Int) (b : Nat) (h : |(z : ℚ)| < (b : ℚ) / 2) :
    2 * z.natAbs < b := by
  have h2 : ((2 * |z| : Int) : ℚ) < ((b : Int) : ℚ) := by
    push_cast
    linarith
  have h1 : (2 : Int) * |z| < b := Int.cast_lt.mp h2
  rw [← Int.natCast_natAbs] at h1
  exact_mod_cast h1

/-- Error of rounding a positive quotient below `2 ^ B`: at most `2 ^ B / 2 ^ 54`. -/
theorem roundPos_err (a b B : Nat) (ha : 0 < a) (hb : 0 < b) (hB : B ≤ 52)
    (h : a < b * 2 ^ B) :
    ∃ n k : Nat, roundPos a b = .fin (n : Int) k ∧ 53 ≤ k + B ∧
      |(n : ℚ) / 2 ^ k - (a : ℚ) / b| ≤ 2 ^ B / 2 ^ 54 := by
  obtain ⟨k, hk, -, hr⟩ := roundPos_small a b B ha hb hB h
  refine ⟨roundHalfEven (a * 2 ^ k) b, k, hr, hk, ?_⟩
  have herr := roundHalfEven_err (a * 2 ^ k) b hb
  generalize roundHalfEven (a * 2 ^ k) b = n at herr
  have hbq : (0 : ℚ) < b := by exact_mod_cast hb
  have h2k : (0 : ℚ) < 2 ^ k := by positivity
  have hq : |(n : ℚ) * b - a * 2 ^ k| ≤ b / 2 := by
    have := abs_le_half_of_natAbs _ _ herr
    push_cast at this
    exact this
  have hrew : (n : ℚ) / 2 ^ k - (a : ℚ) / b = ((n : ℚ) * b - a * 2 ^ k) / (b * 2 ^ k) := by
    field_simp
    ring
  rw [hrew, abs_div, abs_of_pos (by positivity : (0 : ℚ) < b * 2 ^ k)]
  rw [div_le_div_iff₀ (by positivity) (by positivity)]
  have hpow : (2 : ℚ) ^ 54 ≤ 2 ^ (k + B) * 2 := by
    rw [← pow_succ]
    exact pow_le_pow_right₀ (by norm_num) (by omega)
  rw [pow_add] at hpow
  have hB0 : (0 : ℚ) < 2 ^ B := by positivity
  calc |(n : ℚ) * b - a * 2 ^ k| * (2 : ℚ) ^ 54 ≤ (b : ℚ) / 2 * (2 : ℚ) ^ 54 := by
        apply mul_le_mul_of_nonneg_right hq (by positivity)
    _ ≤ (b : ℚ) / 2 * (2 ^ k * 2 ^ B * 2) := by
        apply mul_le_mul_of_nonneg_left hpow (by positivity)
    _ = 2 ^ B * ((b : ℚ) * 2 ^ k) := by ring

/-! ### Amounts -/

theorem takeWhile_append_stop {α : Type} (p : α → Bool) (l r : List α) (y : α)
    (hl : ∀ x ∈ l, p x = true) (hy : p y = false) :
    (l ++ y :: r).takeWhile p = l ∧ (l ++ y :: r).dropWhile p = y :: r := by
  induction l with
  | nil => simp [List.takeWhile, List.dropWhile, hy]
  | cons a l ih =>
    have ha : p a = true := hl a (List.mem_cons_self _ _)
    have := ih (fun x hx => hl x (List.mem_cons_of_mem _ hx))
    simp [List.takeWhile, List.dropWhile, ha, this.1, this.2]

/-- The shape of a string that matches the pattern of an amount. -/
theorem matchAmount_shape (cs : List Char) (h : matchAmount cs = true) :
    ∃ (ip : List Char) (d1 d2 : Char), cs = ip ++ ['.', d1, d2] ∧ ip ≠ [] ∧
      (∀ c ∈ ip, isDigit c = true) ∧ isDigit d1 = true ∧ isDigit d2 = true := by
  unfold matchAmount at h
  split at h
  · rename_i d2 d1 dot rest hrev
    simp only [Bool.and_eq_true, beq_iff_eq, Bool.not_eq_true', List.all_eq_true] at h
    obtain ⟨⟨⟨⟨h2, h1⟩, hdot⟩, hne⟩, hall⟩ := h
    refine ⟨rest.reverse, d1, d2, ?_, ?_, ?_, h1, h2⟩
    · have := congrArg List.reverse hrev
      rw [List.reverse_reverse] at this
      rw [this, hdot]
      simp
    · intro hc
      rw [List.reverse_eq_nil_iff] at hc
      rw [hc] at hne
      simp at hne
    · intro c hc
      exact hall c (List.mem_reverse.mp hc)
  · simp at h

/-- On a string that matches the pattern of an amount, `strconv.ParseFloat` rounds the
number of cents divided by 100. -/
theorem ParseFloat_amount (ext : Ext) (s : String) (h : matchAmount s.data = true) :
    ParseFloat ext s.data =
      match roundRat (cents s) 100 with
      | .fin n k => some (.fin n k)
      | _ => none := by
  obtain ⟨ip, d1, d2, hcs, hne, hip, h1, h2⟩ := matchAmount_shape s.data h
  have hdot : isDigit '.' = false := by decide
  obtain ⟨htake, hdrop⟩ := takeWhile_append_stop isDigit ip [d1, d2] '.' hip hdot
  have hsplit : splitDecimal s.data = some (ip, [d1, d2]) := by
    unfold splitDecimal
    simp only []
    rw [hcs, hdrop, htake]
    have : ip.isEmpty = false := by
      cases ip with
      | nil => exact absurd rfl hne
      | cons _ _ => rfl
    simp [this, h1, h2]
  have hcents : cents s = digitsVal (ip ++ [d1, d2]) := by
    unfold cents
    rw [hcs, List.filter_append]
    have hf : ip.filter isDigit = ip := List.filter_eq_self.mpr hip
    rw [hf]
    simp [List.filter, hdot, h1, h2]
  unfold ParseFloat
  rw [hsplit, hcents]
  rfl

/-- The conversion of an amount below `2 ^ B`: the value 0, or a numerator obtained by
rounding with at least `53 - B` binary places. -/
theorem ParseFloat_amount_small (ext : Ext) (s : String) (B : Nat)
    (h : matchAmount s.data = true) (hB : B ≤ 52) (hs : cents s < 100 * 2 ^ B) :
    (cents s = 0 ∧ ParseFloat ext s.data = some (.fin 0 0)) ∨
    (0 < cents s ∧ ∃ k : Nat, 53 ≤ k + B ∧ cents s * 2 ^ k < 100 * 2 ^ 53 ∧
      ParseFloat ext s.data = some (.fin (roundHalfEven (cents s * 2 ^ k) 100 : Nat) k)) := by
  rw [ParseFloat_amount ext s h]
  rcases Nat.eq_zero_or_pos (cents s) with h0 | hpos
  · left
    refine ⟨h0, ?_⟩
    rw [h0]
    rfl
  · right
    refine ⟨hpos, ?_⟩
    obtain ⟨k, hk, hlt, hr⟩ := roundPos_small (cents s) 100 B hpos (by norm_num) hB hs
    refine ⟨k, hk, hlt, ?_⟩
    have hrr : roundRat (cents s) 100 = roundPos (cents s) 100 := by
      unfold roundRat
      have h1 : ¬ ((cents s : Nat) : Int) = 0 := by omega
      have h2 : (0 : Int) < ((cents s : Nat) : Int) := by omega
      rw [if_neg h1, if_pos h2]
      simp
    rw [hrr, hr]

theorem isMultipleOfQuarter_iff (ext : Ext) (total : String)
    (hfmt : matchAmount total.data = true) (hsmall : cents total < 100 * 2 ^ 47) :
    isMultipleOfQuarter ext total = true ↔ cents total % 25 = 0 := by
  unfold isMultipleOfQuarter parseTotal
  rcases ParseFloat_amount_small ext total 47 hfmt (by norm_num) hsmall with
    ⟨h0, hp⟩ | ⟨hpos, k, hk, hlt, hp⟩
  · rw [hp, h0]
    simp [F64.modQuarterIsZero]
  · rw [hp]
    simp only [F64.modQuarterIsZero, beq_iff_eq]
    have herr := roundHalfEven_err (cents total * 2 ^ k) 100 (by norm_num)
    obtain ⟨j, rfl⟩ : ∃ j, k = j + 6 := ⟨k - 6, by omega⟩
    generalize cents total = N at *
    constructor
    · intro hmod
      generalize roundHalfEven (N * 2 ^ (j + 6)) 100 = m at *
      have hdvd : ((2 : Int) ^ (j + 6)) ∣ (m : Int) * 4 := Int.dvd_of_emod_eq_zero hmod
      obtain ⟨t, ht⟩ := hdvd
      have hp64 : (2 : Int) ^ (j + 6) = 2 ^ j * 64 := by rw [pow_add]; norm_num
      have hpj : (0 : Int) < 2 ^ j := by positivity
      -- m = t * 2 ^ j * 16
      have hm : (m : Int) = 2 ^ j * 16 * t := by
        rw [hp64] at ht
        linarith
      push_cast at herr
      rw [hm, hp64] at herr
      have hfac : (2 : Int) ^ j * 16 * t * 100 - (N : Int) * (2 ^ j * 64)
          = 2 ^ j * 64 * (25 * t - N) := by ring
      rw [hfac, Int.natAbs_mul, Int.natAbs_mul] at herr
      have hz : (25 * t - (N : Int)).natAbs = 0 := by
        by_contra hc
        have h1 : 1 ≤ (25 * t - (N : Int)).natAbs := Nat.one_le_iff_ne_zero.mpr hc
        have h2 : 1 ≤ ((2 : Int) ^ j).natAbs := by
          apply Nat.one_le_iff_ne_zero.mpr
          intro h0
          rw [Int.natAbs_eq_zero] at h0
          omega
        have h3 : (64 : Int).natAbs = 64 := rfl
        rw [h3] at herr
        have : 64 ≤ ((2 : Int) ^ j).natAbs * 64 * (25 * t - (N : Int)).natAbs := by
          calc 64 = 1 * 64 * 1 := by norm_num
            _ ≤ ((2 : Int) ^ j).natAbs * 64 * (25 * t - (N : Int)).natAbs := by
              apply Nat.mul_le_mul (Nat.mul_le_mul h2 le_rfl) h1
        omega
      rw [Int.natAbs_eq_zero] at hz
      omega
    · intro hmod
      obtain ⟨q, hq⟩ : ∃ q, N = 25 * q := ⟨N / 25, by omega⟩
      have hexact : N * 2 ^ (j + 6) = (q * 2 ^ j * 16) * 100 := by
        rw [hq, pow_add]; ring
      rw [hexact, roundHalfEven_mul _ _ (by norm_num)]
      push_cast
      have : ((q : Int) * 2 ^ j * 16 * 4) = 2 ^ (j + 6) * q := by rw [pow_add]; ring
      rw [this]
      exact Int.mul_emod_right _ _

/-! ### The price rule -/

theorem c0_2_eq : c0_2 = .fin 7205759403792794 55 := by decide

theorem roundRat_pos (a b : Nat) (ha : 0 < a) : roundRat (a : Int) b = roundPos a b := by
  unfold roundRat
  have h1 : ¬ (a : Int) = 0 := by omega
  have h2 : (0 : Int) < (a : Int) := by omega
  rw [if_neg h1, if_pos h2]
  simp

theorem mul_c0_2 (n k : Nat) (hn : 0 < n) :
    F64.mul (.fin (n : Int) k) c0_2 = roundPos (n * 7205759403792794) (2 ^ (k + 55)) := by
  rw [c0_2_eq]
  show roundRat ((n : Int) * 7205759403792794) (2 ^ (k + 55)) = _
  have : ((n : Int) * 7205759403792794) = ((n * 7205759403792794 : Nat) : Int) := by push_cast; rfl
  rw [this, roundRat_pos _ _ (by positivity)]

/-- The conversion to `int` of the ceiling of a non-negative `float64` whose ceiling is a
given natural number below `2 ^ 63`. -/
theorem toInt_ceil_of_bounds (ext : Ext) (n k q : Nat) (hq : (q : Int) < 2 ^ 63)
    (hlo : (q : Int) * 2 ^ k - 2 ^ k < n) (hhi : (n : Int) ≤ q * 2 ^ k) :
    toInt ext (F64.ceil (.fin (n : Int) k)) = q := by
  have hd : (0 : Int) < 2 ^ k := by positivity
  have hdiv : (-(n : Int)) / (2 ^ k : Int) = -(q : Int) := by
    have := (Int.ediv_emod_unique (a := -(n : Int)) (b := (2 ^ k : Int))
      (r := (q : Int) * 2 ^ k - n) (q := -(q : Int)) hd).mpr
      ⟨by ring, by linarith, by linarith⟩
    exact this.1
  unfold F64.ceil toInt
  simp only [hdiv, neg_neg, F64.trunc, pow_zero, Int.ediv_one]
  have h0 : (0 : Int) ≤ q := by positivity
  rw [if_pos h0, if_pos ⟨by omega, hq⟩]

theorem roundHalfEven_err_rat (a b k B : Nat) (hb : 0 < b) (hk : 53 ≤ k + B) :
    |((roundHalfEven (a * 2 ^ k) b : Nat) : ℚ) / 2 ^ k - (a : ℚ) / b| ≤ 2 ^ B / 2 ^ 54 := by
  have herr := roundHalfEven_err (a * 2 ^ k) b hb
  generalize roundHalfEven (a * 2 ^ k) b = n at herr
  have hbq : (0 : ℚ) < b := by exact_mod_cast hb
  have h2k : (0 : ℚ) < 2 ^ k := by positivity
  have hq : |(n : ℚ) * b - a * 2 ^ k| ≤ b / 2 := by
    have := abs_le_half_of_natAbs _ _ herr
    push_cast at this
    exact this
  have hrew : (n : ℚ) / 2 ^ k - (a : ℚ) / b = ((n : ℚ) * b - a * 2 ^ k) / (b * 2 ^ k) := by
    field_simp
    ring
  rw [hrew, abs_div, abs_of_pos (by positivity : (0 : ℚ) < b * 2 ^ k)]
  rw [div_le_div_iff₀ (by positivity) (by positivity)]
  have hpow : (2 : ℚ) ^ 54 ≤ 2 ^ (k + B) * 2 := by
    rw [← pow_succ]
    exact pow_le_pow_right₀ (by norm_num) (by omega)
  rw [pow_add] at hpow
  calc |(n : ℚ) * b - a * 2 ^ k| * (2 : ℚ) ^ 54 ≤ (b : ℚ) / 2 * (2 : ℚ) ^ 54 := by
        apply mul_le_mul_of_nonneg_right hq (by positivity)
    _ ≤ (b : ℚ) / 2 * (2 ^ k * 2 ^ B * 2) := by
        apply mul_le_mul_of_nonneg_left hpow (by positivity)
    _ = 2 ^ B * ((b : ℚ) * 2 ^ k) := by ring

/-- The points of the price rule for a price below `2 ^ 45`: the `float64` computation
`int(math.Ceil(price * 0.2))` gives the ceiling of the exact price divided by 5. -/
theorem itemPoints_small (ext : Ext) (price : String) (hfmt : matchAmount price.data = true)
    (hsmall : cents price < 100 * 2 ^ 45) :
    ∃ v, ParseFloat ext price.data = some v ∧
      toInt ext (F64.ceil (F64.mul v c0_2)) = (((cents price + 499) / 500 : Nat) : Int) := by
  rcases ParseFloat_amount_small ext price 45 hfmt (by norm_num) hsmall with
    ⟨h0, hp⟩ | ⟨hpos, k1, hk1, hlt1, hp⟩
  · refine ⟨_, hp, ?_⟩
    rw [h0]
    have : F64.mul (.fin 0 0) c0_2 = .fin 0 0 := by decide
    rw [this]
    simp [F64.ceil, toInt, F64.trunc]
  · refine ⟨_, hp, ?_⟩
    generalize cents price = N at *
    by_cases hr : N % 500 = 0
    · -- the exact quotient is an integer
      obtain ⟨q, rfl⟩ : ∃ q, N = 500 * q := ⟨N / 500, by omega⟩
      have hq0 : 0 < q := by omega
      have hexact : 500 * q * 2 ^ k1 = (5 * q * 2 ^ k1) * 100 := by ring
      rw [hexact, roundHalfEven_mul _ _ (by norm_num)]
      rw [mul_c0_2 _ _ (by positivity)]
      have hq45 : 5 * q < 2 ^ 45 := by omega
      have hsm : 5 * q * 2 ^ k1 * 7205759403792794 < 2 ^ (k1 + 55) * 2 ^ 43 := by
        have h1 : 5 * q * 7205759403792794 < 2 ^ 55 * 2 ^ 43 := by omega
        have h2 : 5 * q * 2 ^ k1 * 7205759403792794 = (5 * q * 7205759403792794) * 2 ^ k1 := by
          ring
        have h3 : 2 ^ (k1 + 55) * 2 ^ 43 = (2 ^ 55 * 2 ^ 43) * 2 ^ k1 := by
          rw [pow_add]; ring
        rw [h2, h3]
        exact Nat.mul_lt_mul_of_pos_right h1 (by positivity)
      obtain ⟨k2, hk2, hlt2, hres⟩ := roundPos_small _ _ 43 (by positivity) (by positivity)
        (by norm_num) hsm
      rw [hres]
      have hqk : q * 2 ^ k2 < 2 ^ 53 := by
        have e1 : 5 * q * 2 ^ k1 * 7205759403792794 * 2 ^ k2
            = (q * 2 ^ k2) * (2 ^ 55 + 2) * 2 ^ k1 := by ring
        have e2 : 2 ^ (k1 + 55) * 2 ^ 53 = (2 ^ 53 * 2 ^ 55) * 2 ^ k1 := by
          rw [pow_add]; ring
        rw [e1, e2] at hlt2
        have h4 := Nat.lt_of_mul_lt_mul_right hlt2
        by_contra hc
        have : 2 ^ 53 ≤ q * 2 ^ k2 := by omega
        nlinarith
      have huniq : roundHalfEven (5 * q * 2 ^ k1 * 7205759403792794 * 2 ^ k2) (2 ^ (k1 + 55))
          = q * 2 ^ k2 := by
        apply roundHalfEven_unique _ _ _ (by positivity)
        have e3 : (((q * 2 ^ k2 : Nat) : Int) * ((2 ^ (k1 + 55) : Nat) : Int)
            - ((5 * q * 2 ^ k1 * 7205759403792794 * 2 ^ k2 : Nat) : Int))
            = -((2 * (q * 2 ^ k2) * 2 ^ k1 : Nat) : Int) := by
          push_cast
          rw [pow_add]
          ring
        rw [e3, Int.natAbs_neg, Int.natAbs_ofNat]
        have e4 : 2 ^ (k1 + 55) = 2 ^ 55 * 2 ^ k1 := by rw [pow_add]; ring
        rw [e4]
        have : 2 * (2 * (q * 2 ^ k2) * 2 ^ k1) = (4 * (q * 2 ^ k2)) * 2 ^ k1 := by ring
        rw [this]
        apply Nat.mul_lt_mul_of_pos_right _ (by positivity)
        omega
      rw [huniq]
      have hceil := toInt_ceil_of_bounds ext (q * 2 ^ k2) k2 q (by omega)
        (by push_cast; have : (0 : Int) < 2 ^ k2 := by positivity
            linarith) (by push_cast; exact le_rfl)
      rw [hceil]
      have hdiv : (500 * q + 499) / 500 = q := by omega
      rw [hdiv]
    · -- the exact quotient is not an integer
      obtain ⟨q, r, rfl, hr1, hr2⟩ : ∃ q r, N = 500 * q + r ∧ 1 ≤ r ∧ r ≤ 499 :=
        ⟨N / 500, N % 500, by omega, by omega, by omega⟩
      have hx := roundHalfEven_err_rat (500 * q + r) 100 k1 45 (by norm_num) hk1
      generalize roundHalfEven ((500 * q + r) * 2 ^ k1) 100 = n1 at *
      have hxl := (abs_le.mp hx).1
      have hxu := (abs_le.mp hx).2
      have hNq : ((500 * q + r : Nat) : ℚ) = 500 * q + r := by push_cast; rfl
      rw [hNq] at hxl hxu
      have hrq1 : (1 : ℚ) ≤ r := by exact_mod_cast hr1
      have hrq2 : (r : ℚ) ≤ 499 := by exact_mod_cast hr2
      have hq0 : (0 : ℚ) ≤ q := by positivity
      have hsmq : (500 * (q : ℚ) + r) < 100 * 2 ^ 45 := by exact_mod_cast hsmall
      have h2k1 : (0 : ℚ) < 2 ^ k1 := by positivity
      have hn1pos : 0 < n1 := by
        by_contra hc
        have : n1 = 0 := by omega
        rw [this] at hxl
        norm_num at hxl
        linarith
      rw [mul_c0_2 _ _ hn1pos]
      have hsm : n1 * 7205759403792794 < 2 ^ (k1 + 55) * 2 ^ 43 := by
        have hq1 : (n1 : ℚ) / 2 ^ k1 < 2 ^ 45 + 1 := by
          norm_num at hxu hsmq ⊢
          linarith
        rw [div_lt_iff₀ h2k1] at hq1
        have hq2 : (n1 : ℚ) * 7205759403792794 < 2 ^ (k1 + 55) * 2 ^ 43 := by
          rw [pow_add]
          have : (n1 : ℚ) * 7205759403792794 < (2 ^ 45 + 1) * 2 ^ k1 * 7205759403792794 := by
            apply mul_lt_mul_of_pos_right hq1 (by norm_num)
          have h5 : ((2 : ℚ) ^ 45 + 1) * 2 ^ k1 * 7205759403792794
              ≤ 2 ^ k1 * 2 ^ 55 * 2 ^ 43 := by
            have : ((2 : ℚ) ^ 45 + 1) * 7205759403792794 ≤ 2 ^ 55 * 2 ^ 43 := by norm_num
            nlinarith
          linarith
        exact_mod_cast hq2
      obtain ⟨k2, hk2, -, hres⟩ := roundPos_small _ _ 43 (by positivity) (by positivity)
        (by norm_num) hsm
      rw [hres]
      have hy := roundHalfEven_err_rat (n1 * 7205759403792794) (2 ^ (k1 + 55)) k2 43
        (by positivity) hk2
      generalize roundHalfEven (n1 * 7205759403792794 * 2 ^ k2) (2 ^ (k1 + 55)) = n2 at *
      have hyl := (abs_le.mp hy).1
      have hyu := (abs_le.mp hy).2
      have hyq : (((n1 * 7205759403792794 : Nat) : ℚ)) / ((2 ^ (k1 + 55) : Nat) : ℚ)
          = (n1 : ℚ) / 2 ^ k1 * (7205759403792794 / 2 ^ 55) := by
        push_cast
        rw [pow_add]
        field_simp
      rw [hyq] at hyl hyu
      set xd : ℚ := (n1 : ℚ) / 2 ^ k1 with hxd
      have h2k2 : (0 : ℚ) < 2 ^ k2 := by positivity
      have hlo : (q : ℚ) < (n2 : ℚ) / 2 ^ k2 := by
        norm_num at hxl hxu hyl hyu hsmq ⊢
        linarith
      have hhi : (n2 : ℚ) / 2 ^ k2 ≤ q + 1 := by
        norm_num at hxl hxu hyl hyu hsmq ⊢
        linarith
      rw [lt_div_iff₀ h2k2] at hlo
      rw [div_le_iff₀ h2k2] at hhi
      have hloZ : ((q : Int) + 1) * 2 ^ k2 - 2 ^ k2 < n2 := by
        have : (q : Int) * 2 ^ k2 < n2 := by exact_mod_cast hlo
        linarith
      have hhiZ : (n2 : Int) ≤ ((q : Int) + 1) * 2 ^ k2 := by exact_mod_cast hhi
      have hq63 : (((q + 1 : Nat) : Int)) < 2 ^ 63 := by
        have : q + 1 < 2 ^ 63 := by omega
        exact_mod_cast this
      have hceil := toInt_ceil_of_bounds ext n2 k2 (q + 1) hq63
        (by push_cast; exact hloZ) (by push_cast; exact hhiZ)
      rw [hceil]
      have hdiv : (500 * q + r + 499) / 500 = q + 1 := by omega
      rw [hdiv]

theorem itemTerm_small (ext : Ext) (item : Item) (hfmt : matchAmount item.Price.data = true)
    (hsmall : cents item.Price < 100 * 2 ^ 45) :
    itemTerm ext item =
      if goLen (trimSpace item.ShortDescription.data) % 3 = 0
      then (((cents item.Price + 499) / 500 : Nat) : Int) else 0 := by
  obtain ⟨v, hv, hpts⟩ := itemPoints_small ext item.Price hfmt hsmall
  unfold itemTerm relevant
  by_cases hrel : goLen (trimSpace item.ShortDescription.data) % 3 = 0
  · simp only [hrel, beq_self_eq_true, if_true, hv, hpts]
  · have : (goLen (trimSpace item.ShortDescription.data) % 3 == 0) = false := by
      simpa using hrel
    simp only [this, hrel, if_false, Bool.false_eq_true]

theorem ParseFloat_zero (ext : Ext) : ParseFloat ext "0.00".data = some (.fin 0 0) := by
  rfl

theorem itemTerm_zero (ext : Ext) (item : Item) :
    itemTerm ext { item with Price := "0.00" } = 0 := by
  unfold itemTerm
  split_ifs
  · rw [show ParseFloat ext ({ item with Price := "0.00" } : Item).Price.data
        = some (.fin 0 0) from rfl]
    have : F64.mul (.fin 0 0) c0_2 = .fin 0 0 := by decide
    simp only [this]
    simp [F64.ceil, toInt, F64.trunc]
  · rfl

theorem pricesParse_replace (ext : Ext) (r : Receipt) (pre post : List Item) (item : Item)
    (hitems : r.Items = pre ++ item :: post) (h : pricesParse ext r = true) :
    pricesParse ext { r with Items := pre ++ { item with Price := "0.00" } :: post } = true := by
  unfold pricesParse at *
  rw [hitems] at h
  simp only [List.all_append, List.all_cons, Bool.and_eq_true] at h ⊢
  refine ⟨h.1, ?_, h.2.2⟩
  rw [show ParseFloat ext ({ item with Price := "0.00" } : Item).Price.data
      = some (.fin 0 0) from rfl]
  simp

/-! ### Sums -/

/-- Error of rounding a quotient of absolute value below `2 ^ B`. -/
theorem roundRat_err (num : Int) (den B : Nat) (hden : 0 < den) (hB : B ≤ 52)
    (h : num.natAbs < den * 2 ^ B) :
    ∃ (wn : Int) (wl : Nat), roundRat num den = .fin wn wl ∧
      |(wn : ℚ) / 2 ^ wl - (num : ℚ) / den| ≤ 2 ^ B / 2 ^ 54 := by
  have hu : (0 : ℚ) ≤ 2 ^ B / 2 ^ 54 := by positivity
  unfold roundRat
  by_cases h0 : num = 0
  · rw [if_pos h0]
    refine ⟨0, 0, rfl, ?_⟩
    rw [h0]
    simpa using hu
  rw [if_neg h0]
  by_cases hpos : 0 < num
  · rw [if_pos hpos]
    obtain ⟨a, rfl⟩ : ∃ a : Nat, num = a := ⟨num.toNat, by omega⟩
    have ha : 0 < a := by omega
    obtain ⟨n, k, hr, -, herr⟩ := roundPos_err a den B ha hden hB (by simpa using h)
    refine ⟨n, k, ?_, ?_⟩
    · simpa using hr
    · simpa using herr
  · rw [if_neg hpos]
    obtain ⟨a, rfl⟩ : ∃ a : Nat, num = -(a : Int) := ⟨(-num).toNat, by omega⟩
    have ha : 0 < a := by omega
    obtain ⟨n, k, hr, -, herr⟩ := roundPos_err a den B ha hden hB (by simpa using h)
    have e1 : (-(-(a : Int))).toNat = a := by omega
    rw [e1, hr]
    refine ⟨-(n : Int), k, rfl, ?_⟩
    push_cast
    have : -(n : ℚ) / 2 ^ k - -(a : ℚ) / den = -((n : ℚ) / 2 ^ k - (a : ℚ) / den) := by ring
    rw [this, abs_neg]
    exact herr

theorem natAbs_lt_of_abs_lt (num : Int) (den B : Nat) (hden : 0 < den)
    (h : |(num : ℚ) / den| < 2 ^ B) : num.natAbs < den * 2 ^ B := by
  have hd : (0 : ℚ) < den := by exact_mod_cast hden
  rw [abs_div, abs_of_pos hd, div_lt_iff₀ hd] at h
  have h1 : ((|num| : Int) : ℚ) < ((den * 2 ^ B : Nat) : ℚ) := by
    push_cast
    linarith
  have h2 : |num| < ((den * 2 ^ B : Nat) : Int) := by exact_mod_cast h1
  rw [← Int.natCast_natAbs] at h2
  exact_mod_cast h2

/-- Error of a `float64` addition whose exact result has absolute value below `2 ^ B`. -/
theorem add_err (a : Int) (j : Nat) (b : Int) (k B : Nat) (hB : B ≤ 52)
    (h : |(a : ℚ) / 2 ^ j + (b : ℚ) / 2 ^ k| < 2 ^ B) :
    ∃ (wn : Int) (wl : Nat), F64.add (.fin a j) (.fin b k) = .fin wn wl ∧
      |(wn : ℚ) / 2 ^ wl - ((a : ℚ) / 2 ^ j + (b : ℚ) / 2 ^ k)| ≤ 2 ^ B / 2 ^ 54 := by
  have hq : (((a * 2 ^ k + b * 2 ^ j : Int)) : ℚ) / ((2 ^ (j + k) : Nat) : ℚ)
      = (a : ℚ) / 2 ^ j + (b : ℚ) / 2 ^ k := by
    push_cast
    rw [pow_add]
    field_simp
  have hlt : (a * 2 ^ k + b * 2 ^ j : Int).natAbs < 2 ^ (j + k) * 2 ^ B := by
    apply natAbs_lt_of_abs_lt _ _ _ (by positivity)
    rw [hq]
    exact h
  obtain ⟨wn, wl, hr, herr⟩ := roundRat_err _ _ B (by positivity) hB hlt
  refine ⟨wn, wl, hr, ?_⟩
  rw [hq] at herr
  exact herr

/-- Error of the conversion of an amount below `2 ^ B`. -/
theorem ParseFloat_amount_err (ext : Ext) (s : String) (B : Nat)
    (h : matchAmount s.data = true) (hB : B ≤ 52) (hs : cents s < 100 * 2 ^ B) :
    ∃ (n : Int) (k : Nat), ParseFloat ext s.data = some (.fin n k) ∧
      |(n : ℚ) / 2 ^ k - (cents s : ℚ) / 100| ≤ 2 ^ B / 2 ^ 54 := by
  rcases ParseFloat_amount_small ext s B h hB hs with ⟨h0, hp⟩ | ⟨-, k, hk, -, hp⟩
  · refine ⟨0, 0, hp, ?_⟩
    rw [h0]
    have hu : (0 : ℚ) ≤ 2 ^ B / 2 ^ 54 := by positivity
    simpa using hu
  · refine ⟨_, k, hp, ?_⟩
    have := roundHalfEven_err_rat (cents s) 100 k B (by norm_num) hk
    simpa using this

theorem sumCents_cons (item : Item) (rest : List Item) :
    sumCents (item :: rest) = cents item.Price + sumCents rest := by
  simp [sumCents]

/-- Error of the `float64` sum of the prices: three rounding errors per item. -/
theorem sumPrices_err (ext : Ext) (B : Nat) (hB : B + 1 ≤ 52) :
    ∀ (items : List Item) (a : Int) (j : Nat) (Ae : ℚ) (m : Nat),
      (∀ item ∈ items, matchAmount item.Price.data = true) →
      0 ≤ Ae → Ae + (sumCents items : ℚ) / 100 < 2 ^ B →
      |(a : ℚ) / 2 ^ j - Ae| ≤ m * (3 * (2 ^ B / 2 ^ 54)) →
      (m + items.length) * 3 ≤ 2 ^ 53 →
      ∃ (c : Int) (l : Nat), sumPrices ext items (.fin a j) = .fin c l ∧
        |(c : ℚ) / 2 ^ l - (Ae + (sumCents items : ℚ) / 100)|
          ≤ ((m + items.length : Nat) : ℚ) * (3 * (2 ^ B / 2 ^ 54)) := by
  intro items
  induction items with
  | nil =>
    intro a j Ae m _ _ _ hacc _
    refine ⟨a, j, rfl, ?_⟩
    simpa [sumCents] using hacc
  | cons item rest ih =>
    intro a j Ae m hfmt hAe hsum hacc hcount
    rw [sumCents_cons] at hsum ⊢
    push_cast at hsum ⊢
    have hrest0 : (0 : ℚ) ≤ (sumCents rest : ℚ) / 100 := by positivity
    have hp0 : (0 : ℚ) ≤ (cents item.Price : ℚ) / 100 := by positivity
    have hB0 : (0 : ℚ) < 2 ^ B := by positivity
    have hplt : cents item.Price < 100 * 2 ^ B := by
      have : (cents item.Price : ℚ) < 100 * 2 ^ B := by linarith
      exact_mod_cast this
    obtain ⟨n, k, hpf, hperr⟩ := ParseFloat_amount_err ext item.Price B
      (hfmt item (List.mem_cons_self _ _)) (by omega) hplt
    -- the number of items so far keeps the accumulated error below 2 ^ B / 2
    have hm3 : ((m : ℚ) + 1) * 3 ≤ 2 ^ 53 := by
      have : (m + 1) * 3 ≤ 2 ^ 53 := by
        simp only [List.length_cons] at hcount
        omega
      exact_mod_cast this
    have hu : (2 : ℚ) ^ B / 2 ^ 54 * 2 ^ 53 = 2 ^ B / 2 := by
      field_simp
      ring
    have hupos : (0 : ℚ) < 2 ^ B / 2 ^ 54 := by positivity
    have hmu : ((m : ℚ) + 1) * (3 * (2 ^ B / 2 ^ 54)) ≤ 2 ^ B / 2 := by
      calc ((m : ℚ) + 1) * (3 * (2 ^ B / 2 ^ 54))
          = (2 ^ B / 2 ^ 54) * (((m : ℚ) + 1) * 3) := by ring
        _ ≤ (2 ^ B / 2 ^ 54) * 2 ^ 53 := by
          apply mul_le_mul_of_nonneg_left hm3 (le_of_lt hupos)
        _ = 2 ^ B / 2 := hu
    have hal := (abs_le.mp hacc).1
    have hau := (abs_le.mp hacc).2
    have hpl := (abs_le.mp hperr).1
    have hpu := (abs_le.mp hperr).2
    have hm0 : (0 : ℚ) ≤ (m : ℚ) * (3 * (2 ^ B / 2 ^ 54)) := by positivity
    have hbound : |(a : ℚ) / 2 ^ j + (n : ℚ) / 2 ^ k| < 2 ^ (B + 1) := by
      rw [pow_succ, abs_lt]
      constructor <;> nlinarith
    obtain ⟨wn, wl, hadd, hadderr⟩ := add_err a j n k (B + 1) hB hbound
    have hal2 := (abs_le.mp hadderr).1
    have hau2 := (abs_le.mp hadderr).2
    have h2u : (2 : ℚ) ^ (B + 1) / 2 ^ 54 = 2 * (2 ^ B / 2 ^ 54) := by
      rw [pow_succ]; ring
    rw [h2u] at hal2 hau2
    have hnew : |(wn : ℚ) / 2 ^ wl - (Ae + (cents item.Price : ℚ) / 100)|
        ≤ ((m + 1 : Nat) : ℚ) * (3 * (2 ^ B / 2 ^ 54)) := by
      push_cast
      rw [abs_le]
      constructor <;> linarith
    obtain ⟨c, l, hres, herr⟩ := ih wn wl (Ae + (cents item.Price : ℚ) / 100) (m + 1)
      (fun it hit => hfmt it (List.mem_cons_of_mem _ hit)) (by linarith) (by linarith) hnew
      (by simp only [List.length_cons] at hcount; omega)
    refine ⟨c, l, ?_, ?_⟩
    · rw [sumPrices, hpf]
      simp only []
      rw [hadd]
      exact hres
    · have e1 : ((m + 1 + rest.length : Nat) : ℚ) = (m : ℚ) + ((item :: rest).length : ℚ) := by
        simp only [List.length_cons]
        push_cast
        ring
      rw [e1] at herr
      have e2 : Ae + ((cents item.Price : ℚ) + (sumCents rest : ℚ)) / 100
          = Ae + (cents item.Price : ℚ) / 100 + (sumCents rest : ℚ) / 100 := by ring
      rw [e2]
      exact herr

theorem c0_0001_eq : c0_0001 = .fin 7378697629483821 66 := by decide

theorem gt_abs_iff (wn : Int) (wl : Nat) :
    F64.gt (F64.abs (.fin wn wl)) c0_0001 = true ↔
      (7378697629483821 : ℚ) / 2 ^ 66 < |(wn : ℚ) / 2 ^ wl| := by
  rw [c0_0001_eq]
  simp only [F64.abs, F64.gt, decide_eq_true_eq]
  have h2 : (0 : ℚ) < 2 ^ wl := by positivity
  rw [abs_div, abs_of_pos h2, div_lt_div_iff₀ (by positivity) h2]
  have hcast : ((|wn| : Int) : ℚ) = |(wn : ℚ)| := by push_cast; rfl
  rw [← hcast]
  have hnat : (Int.ofNat wn.natAbs) = |wn| := Int.natCast_natAbs wn
  rw [hnat]
  constructor
  · intro h
    exact_mod_cast h
  · intro h
    exact_mod_cast h

/-- The comparison of `ValidateReceipt` on small amounts: the `float64` difference exceeds
the `float64` 0.0001 exactly when the exact sum of the prices differs from the total. -/
theorem mismatch_iff_small (ext : Ext) (r : Receipt) (B : Nat)
    (hfmt : ∀ item ∈ r.Items, matchAmount item.Price.data = true)
    (hfmtT : matchAmount r.Total.data = true)
    (hS : sumCents r.Items < 100 * 2 ^ B) (hT : cents r.Total < 100 * 2 ^ B)
    (hn : (r.Items.length + 1) * 2 ^ B ≤ 2 ^ 39) :
    (∀ item ∈ r.Items, (ParseFloat ext item.Price.data).isSome = true) ∧
    (ParseFloat ext r.Total.data).isSome = true ∧
    (F64.gt (F64.abs (F64.sub (sumPrices ext r.Items (.fin 0 0)) (parseTotal ext r.Total)))
      c0_0001 = true ↔ sumCents r.Items ≠ cents r.Total) := by
  have hB39 : B ≤ 39 := by
    by_contra hc
    have h40 : 2 ^ 40 ≤ 2 ^ B := Nat.pow_le_pow_right (by norm_num) (by omega)
    have : 1 * 2 ^ B ≤ (r.Items.length + 1) * 2 ^ B := Nat.mul_le_mul_right _ (by omega)
    omega
  have hlen : r.Items.length + 1 ≤ 2 ^ 39 := by
    have h1 : 1 ≤ 2 ^ B := Nat.one_le_two_pow
    calc r.Items.length + 1 = (r.Items.length + 1) * 1 := by ring
      _ ≤ (r.Items.length + 1) * 2 ^ B := Nat.mul_le_mul_left _ h1
      _ ≤ 2 ^ 39 := hn
  have hparse : ∀ item ∈ r.Items, (ParseFloat ext item.Price.data).isSome = true := by
    intro item hitem
    rcases ParseFloat_amount_small ext item.Price 52 (hfmt item hitem) le_rfl (by
      have hle : cents item.Price ≤ sumCents r.Items := by
        unfold sumCents
        exact List.single_le_sum (by intro x _; exact Nat.zero_le x) _
          (List.mem_map_of_mem (fun item => cents item.Price) hitem)
      have : (2 : Nat) ^ B ≤ 2 ^ 52 := Nat.pow_le_pow_right (by norm_num) (by omega)
      omega) with ⟨-, hp⟩ | ⟨-, k, -, -, hp⟩
    · rw [hp]; rfl
    · rw [hp]; rfl
  obtain ⟨tn, tk, htp, hterr⟩ := ParseFloat_amount_err ext r.Total B hfmtT (by omega) hT
  refine ⟨hparse, by rw [htp]; rfl, ?_⟩
  have hSq : (0 : ℚ) + (sumCents r.Items : ℚ) / 100 < 2 ^ B := by
    have : (sumCents r.Items : ℚ) < 100 * 2 ^ B := by exact_mod_cast hS
    linarith
  have hTq : (cents r.Total : ℚ) / 100 < 2 ^ B := by
    have : (cents r.Total : ℚ) < 100 * 2 ^ B := by exact_mod_cast hT
    linarith
  obtain ⟨c, l, hsum, hserr⟩ := sumPrices_err ext B (by omega) r.Items 0 0 0 0 hfmt le_rfl hSq
    (by simp) (by omega)
  simp only [zero_add] at hserr
  have hpt : parseTotal ext r.Total = .fin tn tk := by
    unfold parseTotal
    rw [htp]
  rw [hsum, hpt]
  -- the size of the rounding errors
  have hB0 : (0 : ℚ) < 2 ^ B := by positivity
  have hupos : (0 : ℚ) < 2 ^ B / 2 ^ 54 := by positivity
  have hnq : ((r.Items.length : ℚ) + 1) * 2 ^ B ≤ 2 ^ 39 := by exact_mod_cast hn
  have hnu : ((r.Items.length : ℚ) + 1) * (3 * (2 ^ B / 2 ^ 54)) ≤ 3 / 2 ^ 15 := by
    have : ((r.Items.length : ℚ) + 1) * (3 * (2 ^ B / 2 ^ 54))
        = (((r.Items.length : ℚ) + 1) * 2 ^ B) * (3 / 2 ^ 54) := by ring
    rw [this]
    calc (((r.Items.length : ℚ) + 1) * 2 ^ B) * (3 / 2 ^ 54) ≤ 2 ^ 39 * (3 / 2 ^ 54) := by
          apply mul_le_mul_of_nonneg_right hnq (by positivity)
      _ = 3 / 2 ^ 15 := by norm_num
  have hL : (r.Items.length : ℚ) * (3 * (2 ^ B / 2 ^ 54)) + 3 * (2 ^ B / 2 ^ 54) ≤ 3 / 2 ^ 15 := by
    have : ((r.Items.length : ℚ) + 1) * (3 * (2 ^ B / 2 ^ 54))
        = (r.Items.length : ℚ) * (3 * (2 ^ B / 2 ^ 54)) + 3 * (2 ^ B / 2 ^ 54) := by ring
    rw [← this]
    exact hnu
  have hL0 : (0 : ℚ) ≤ (r.Items.length : ℚ) * (3 * (2 ^ B / 2 ^ 54)) := by positivity
  have hsl := (abs_le.mp hserr).1
  have hsu := (abs_le.mp hserr).2
  have htl := (abs_le.mp hterr).1
  have htu := (abs_le.mp hterr).2
  have hS0 : (0 : ℚ) ≤ (sumCents r.Items : ℚ) / 100 := by positivity
  have hT0 : (0 : ℚ) ≤ (cents r.Total : ℚ) / 100 := by positivity
  have hsmall3 : (3 : ℚ) / 2 ^ 15 ≤ 2 ^ B / 2 := by
    have : (1 : ℚ) ≤ 2 ^ B := one_le_pow₀ (by norm_num)
    norm_num
    linarith
  have hSq2 : (sumCents r.Items : ℚ) / 100 < 2 ^ B := by linarith
  have hbound : |(c : ℚ) / 2 ^ l + ((-tn : Int) : ℚ) / 2 ^ tk| < 2 ^ (B + 1) := by
    rw [pow_succ, abs_lt]
    push_cast
    rw [neg_div]
    generalize (c : ℚ) / 2 ^ l = X at *
    generalize (tn : ℚ) / 2 ^ tk = Y at *
    generalize (r.Items.length : ℚ) * (3 * (2 ^ B / 2 ^ 54)) = L at *
    generalize (2 : ℚ) ^ B / 2 ^ 54 = u at *
    constructor <;> linarith
  obtain ⟨wn, wl, hsub, hsuberr⟩ := add_err c l (-tn) tk (B + 1) (by omega) hbound
  have hsub2 : F64.sub (.fin c l) (.fin tn tk) = .fin wn wl := hsub
  rw [hsub2, gt_abs_iff]
  have h2u : (2 : ℚ) ^ (B + 1) / 2 ^ 54 = 2 * (2 ^ B / 2 ^ 54) := by
    rw [pow_succ]; ring
  rw [h2u] at hsuberr
  push_cast at hsuberr
  rw [neg_div] at hsuberr
  have hwl := (abs_le.mp hsuberr).1
  have hwu := (abs_le.mp hsuberr).2
  have hconst1 : (3 : ℚ) / 2 ^ 15 < 7378697629483821 / 2 ^ 66 := by norm_num
  have hconst2 : (7378697629483821 : ℚ) / 2 ^ 66 < 1 / 100 - 3 / 2 ^ 15 := by norm_num
  constructor
  · intro hgt heq
    rw [heq] at hsl hsu
    have habs : |(wn : ℚ) / 2 ^ wl| ≤ 3 / 2 ^ 15 := by
      rw [abs_le]
      generalize (wn : ℚ) / 2 ^ wl = W at *
      generalize (c : ℚ) / 2 ^ l = X at *
      generalize (tn : ℚ) / 2 ^ tk = Y at *
      generalize (r.Items.length : ℚ) * (3 * (2 ^ B / 2 ^ 54)) = L at *
      generalize (2 : ℚ) ^ B / 2 ^ 54 = u at *
      constructor <;> linarith
    linarith
  · intro hne
    have hdiff : (1 : ℚ) ≤ |(sumCents r.Items : ℚ) - (cents r.Total : ℚ)| := by
      have hz : ((sumCents r.Items : Int) - (cents r.Total : Int)) ≠ 0 := by omega
      have h1 : (1 : Int) ≤ |((sumCents r.Items : Int) - (cents r.Total : Int))| :=
        Int.one_le_abs hz
      have h2 : ((1 : Int) : ℚ)
          ≤ ((|((sumCents r.Items : Int) - (cents r.Total : Int))| : Int) : ℚ) :=
        Int.cast_le.mpr h1
      push_cast at h2
      exact h2
    rcases le_abs'.mp hdiff with hneg | hpos
    · rw [lt_abs]
      right
      generalize (wn : ℚ) / 2 ^ wl = W at *
      generalize (c : ℚ) / 2 ^ l = X at *
      generalize (tn : ℚ) / 2 ^ tk = Y at *
      generalize (r.Items.length : ℚ) * (3 * (2 ^ B / 2 ^ 54)) = L at *
      generalize (2 : ℚ) ^ B / 2 ^ 54 = u at *
      linarith
    · rw [lt_abs]
      left
      generalize (wn : ℚ) / 2 ^ wl = W at *
      generalize (c : ℚ) / 2 ^ l = X at *
      generalize (tn : ℚ) / 2 ^ tk = Y at *
      generalize (r.Items.length : ℚ) * (3 * (2 ^ B / 2 ^ 54)) = L at *
      generalize (2 : ℚ) ^ B / 2 ^ 54 = u at *
      linarith

/-- On a receipt that passes checks 1 to 6 and whose amounts convert to `float64`, the
result of `ValidateReceipt` is decided by the comparison of the sum with the total. -/
theorem ValidateReceipt_of_checks (ext : Ext) (r : Receipt) (h16 : checks1to6 r)
    (hitems : ∀ item ∈ r.Items, (ParseFloat ext item.Price.data).isSome = true)
    (htotal : (ParseFloat ext r.Total.data).isSome = true) :
    ValidateReceipt ext r =
      if F64.gt (F64.abs (F64.sub (sumPrices ext r.Items (.fin 0 0)) (parseTotal ext r.Total)))
        c0_0001 = true then some .totalMismatch else none := by
  by_cases hgt : F64.gt (F64.abs (F64.sub (sumPrices ext r.Items (.fin 0 0))
      (parseTotal ext r.Total))) c0_0001 = true
  · rw [if_pos hgt]
    -- every check before the last one passes
    rw [ValidateReceipt_eq]
    unfold allChecks
    rw [firstViolation_append]
    have hfront : firstViolation (receiptChecks r ++ (r.Items.map (itemChecks ext)).flatten)
        = none := by
      rw [firstViolation_eq_none]
      obtain ⟨⟨r1, r2, r3, r4, r5⟩, r6, r7, r8, r9, hi⟩ := h16
      intro c hc
      simp only [List.mem_append, List.mem_flatten, List.mem_map, receiptChecks,
        List.mem_cons, List.mem_singleton, List.not_mem_nil, or_false] at hc
      rcases hc with hc | ⟨l, ⟨item, hitem, rfl⟩, hc⟩
      · rcases hc with rfl | rfl | rfl | rfl | rfl | rfl | rfl | rfl | rfl
        all_goals simp_all [Option.isSome_iff_ne_none]
      · obtain ⟨i1, i3, i2, i4⟩ := hi item hitem
        have i5 := hitems item hitem
        simp only [itemChecks, List.mem_cons, List.mem_singleton, List.not_mem_nil,
          or_false] at hc
        rcases hc with rfl | rfl | rfl | rfl | rfl
        all_goals simp_all [Option.isSome_iff_ne_none]
    rw [hfront]
    simp only [sumChecks, firstViolation_cons, Option.orElse]
    have hnone : (ParseFloat ext r.Total.data).isNone = false := by
      cases hpf : ParseFloat ext r.Total.data with
      | none => rw [hpf] at htotal; simp at htotal
      | some v => rfl
    rw [hnone, hgt]
    rfl
  · rw [if_neg hgt]
    rw [ValidateReceipt_eq_none]
    refine ⟨h16, hitems, htotal, ?_⟩
    simpa using hgt

/-! ### Identifiers and handlers -/

theorem hexDigit_mem (n : Nat) : hexDigit n ∈ hexDigits := by
  unfold hexDigit
  have h : n % 16 < 16 := Nat.mod_lt _ (by norm_num)
  generalize n % 16 = m at h
  interval_cases m <;> decide

theorem hexString_mem (count u : Nat) : ∀ c ∈ hexString u count, c ∈ hexDigits := by
  induction count generalizing u with
  | zero => intro c hc; simp [hexString] at hc
  | succ count ih =>
    intro c hc
    rw [hexString, List.mem_append, List.mem_singleton] at hc
    rcases hc with hc | rfl
    · exact ih _ c hc
    · exact hexDigit_mem u

theorem uuidFormat_chars (ds : List Char) (hm : ∀ c ∈ ds, c ∈ hexDigits) :
    ∀ c ∈ uuidFormat ds, c ∈ hexDigits ∨ c = '-' := by
  intro c hc
  unfold uuidFormat at hc
  simp only [List.mem_append, List.mem_cons, or_assoc] at hc
  rcases hc with hc | rfl | hc | rfl | hc | rfl | hc | rfl | hc
  · exact Or.inl (hm c (List.mem_of_mem_take hc))
  · exact Or.inr rfl
  · exact Or.inl (hm c (List.mem_of_mem_drop (List.mem_of_mem_take hc)))
  · exact Or.inr rfl
  · exact Or.inl (hm c (List.mem_of_mem_drop (List.mem_of_mem_take hc)))
  · exact Or.inr rfl
  · exact Or.inl (hm c (List.mem_of_mem_drop (List.mem_of_mem_take hc)))
  · exact Or.inr rfl
  · exact Or.inl (hm c (List.mem_of_mem_drop hc))

theorem uuidFormat_dash (ds : List Char) : '-' ∈ uuidFormat ds := by
  unfold uuidFormat
  simp

theorem uuidString_chars (u : Nat) :
    ∀ c ∈ (uuidString u).data, c ∈ hexDigits ∨ c = '-' :=
  uuidFormat_chars _ (hexString_mem 32 u)

theorem uuidString_dash (u : Nat) : '-' ∈ (uuidString u).data :=
  uuidFormat_dash _

/-- Every identifier in canonical form passes `ValidateID`. -/
theorem ValidateID_uuidString (u : Nat) : ValidateID (uuidString u) = none := by
  unfold ValidateID matchID
  have hall : ((uuidString u).data.all fun c => !isReSpace c) = true := by
    rw [List.all_eq_true]
    intro c hc
    rcases uuidString_chars u c hc with h | rfl
    · have : ∀ d ∈ hexDigits, (!isReSpace d) = true := by decide
      exact this c h
    · decide
  have hne : (uuidString u).data.isEmpty = false := by
    have : '-' ∈ (uuidString u).data := uuidString_dash u
    cases hd : (uuidString u).data with
    | nil => rw [hd] at this; simp at this
    | cons a l => rfl
  simp [hall, hne]

theorem uuidString_ne_empty (u : Nat) : (uuidString u == "") = false := by
  have : '-' ∈ (uuidString u).data := uuidString_dash u
  rw [beq_eq_false_iff_ne]
  intro h
  rw [h] at this
  simp at this

/-- The result of `GenerateReceiptID` is the first candidate, from the index where the loop
starts, that is not a key of the cache. -/
theorem GenerateReceiptID_some (c : Store Receipt) (candidates : Nat → Nat) (fuel i : Nat)
    (id : String) (h : GenerateReceiptID c candidates fuel i = some id) :
    ∃ k, k < fuel ∧ id = uuidString (candidates (i + k)) ∧ c id = none ∧
      ∀ j < k, c (uuidString (candidates (i + j))) ≠ none := by
  induction fuel generalizing i with
  | zero => simp [GenerateReceiptID] at h
  | succ fuel ih =>
    rw [GenerateReceiptID] at h
    by_cases hfree : (c (uuidString (candidates i))).isNone = true
    · rw [if_pos hfree] at h
      have hid : id = uuidString (candidates i) := by
        simpa using h.symm
      refine ⟨0, by omega, by simpa using hid, ?_, by intro j hj; omega⟩
      rw [hid]
      simpa using hfree
    · rw [if_neg hfree] at h
      obtain ⟨k, hk, hid, hc, hbefore⟩ := ih (i + 1) h
      refine ⟨k + 1, by omega, ?_, hc, ?_⟩
      · rw [hid]; congr 2; omega
      · intro j hj
        rcases Nat.eq_zero_or_pos j with rfl | hpos
        · simpa using hfree
        · obtain ⟨j', rfl⟩ : ∃ j', j = j' + 1 := ⟨j - 1, by omega⟩
          have := hbefore j' (by omega)
          have e : i + 1 + j' = i + (j' + 1) := by omega
          rw [e] at this
          exact this

/-- The loop of `GenerateReceiptID` ends as soon as a candidate is not a key of the cache. -/
theorem GenerateReceiptID_ends (c : Store Receipt) (candidates : Nat → Nat) (k fuel i : Nat)
    (hfree : c (uuidString (candidates (i + k))) = none) (hk : k < fuel) :
    ∃ id, GenerateReceiptID c candidates fuel i = some id := by
  induction k generalizing i fuel with
  | zero =>
    obtain ⟨fuel', rfl⟩ : ∃ f, fuel = f + 1 := ⟨fuel - 1, by omega⟩
    rw [GenerateReceiptID]
    have hfree2 : c (uuidString (candidates i)) = none := hfree
    simp [hfree2]
  | succ k ih =>
    obtain ⟨fuel', rfl⟩ : ∃ f, fuel = f + 1 := ⟨fuel - 1, by omega⟩
    rw [GenerateReceiptID]
    by_cases h0 : (c (uuidString (candidates i))).isNone = true
    · rw [if_pos h0]
      exact ⟨_, rfl⟩
    · rw [if_neg h0]
      apply ih fuel' (i + 1) _ (by omega)
      have e : i + 1 + k = i + (k + 1) := by omega
      rw [e]
      exact hfree

/-- On a receipt that `ValidateReceipt` accepts, `CalculatePoints` returns no error. -/
theorem CalculatePoints_of_valid (ext : Ext) (r : Receipt) (h : ValidateReceipt ext r = none) :
    ∃ (d : Date) (hour min : Nat), parseDate r.PurchaseDate.data = some d ∧
      parseTime r.PurchaseTime.data = some (hour, min) ∧ pricesParse ext r = true ∧
      CalculatePoints ext r = (wrap64 (baseSum ext r + (if d.day % 2 == 1 then 6 else 0)
        + (if inWindow hour min then 10 else 0)), none) := by
  obtain ⟨⟨-, -, hd, ht, -, -⟩, hparse, -, -⟩ := (ValidateReceipt_eq_none ext r).mp h
  obtain ⟨d, hd⟩ := Option.isSome_iff_exists.mp hd
  obtain ⟨⟨hour, min⟩, ht⟩ := Option.isSome_iff_exists.mp ht
  have hpp : pricesParse ext r = true := by
    unfold pricesParse
    rw [List.all_eq_true]
    intro item hitem
    simp [hparse item hitem]
  refine ⟨d, hour, min, hd, ht, hpp, ?_⟩
  rw [CalculatePoints_eq, if_pos hpp, hd, ht]

/-- The response of `ProcessReceipts` to a receipt that `ValidateReceipt` accepts, when the
loop of `GenerateReceiptID` ends. -/
theorem ProcessReceipts_of_valid (ext : Ext) (candidates : Nat → Nat) (fuel : Nat) (r : Receipt)
    (c : Store Receipt) (p : Store Bool) (h : ValidateReceipt ext r = none)
    (id : String) (hgen : GenerateReceiptID c candidates fuel 0 = some id) :
    ProcessReceipts ext candidates fuel (some r) c p = some (⟨200, .id id⟩, c.set id r, p) := by
  obtain ⟨k, -, hid, -, -⟩ := GenerateReceiptID_some c candidates fuel 0 id hgen
  unfold ProcessReceipts
  simp only [h, hgen]
  rw [hid, ValidateID_uuidString]
  simp only [uuidString_ne_empty]
  rfl

theorem sum_map_bounds {α : Type} (f : α → Int) (M : Int) (l : List α)
    (h : ∀ x ∈ l, 0 ≤ f x ∧ f x ≤ M) :
    0 ≤ (l.map f).sum ∧ (l.map f).sum ≤ (l.length : Int) * M := by
  induction l with
  | nil => simp
  | cons a l ih =>
    obtain ⟨h1, h2⟩ := h a (List.mem_cons_self _ _)
    obtain ⟨h3, h4⟩ := ih (fun x hx => h x (List.mem_cons_of_mem _ hx))
    simp only [List.map_cons, List.sum_cons, List.length_cons]
    push_cast
    constructor
    · linarith
    · linarith

/-! ### Totals that end in `.00` -/

theorem hasSuffix_00 (cs : List Char) (h : hasSuffix cs ".00".data = true) :
    ∃ pre : List Char, cs.reverse = '0' :: '0' :: '.' :: pre := by
  unfold hasSuffix at h
  have hrev : (".00".data).reverse = ['0', '0', '.'] := by decide
  rw [hrev] at h
  generalize cs.reverse = l at h
  match l, h with
  | a :: b :: c :: rest, h =>
    simp only [List.isPrefixOf, Bool.and_eq_true, beq_iff_eq, Bool.and_true] at h
    obtain ⟨ha, hb, hc⟩ := h
    exact ⟨rest, by rw [← ha, ← hb, ← hc]⟩
  | [], h => simp [List.isPrefixOf] at h
  | [a], h => simp [List.isPrefixOf] at h
  | [a, b], h => simp [List.isPrefixOf] at h

theorem digitsVal_append (xs ys : List Char) :
    digitsVal (xs ++ ys) = ys.foldl (fun acc c => acc * 10 + digitVal c) (digitsVal xs) := by
  unfold digitsVal
  rw [List.foldl_append]

theorem digitsVal_append_00 (xs : List Char) :
    digitsVal (xs ++ ['0', '0']) = digitsVal xs * 100 := by
  rw [digitsVal_append]
  simp only [List.foldl_cons, List.foldl_nil]
  have h0 : digitVal '0' = 0 := by decide
  rw [h0]
  ring

/-- The `float64` nearest to a positive integer passes the test `math.Mod(x, 0.25) == 0`. -/
theorem roundPos_int_quarter (N b : Nat) (hb : 0 < b) :
    match roundPos (N * b) b with
    | .fin n k => F64.modQuarterIsZero (.fin n k) = true
    | _ => True := by
  unfold roundPos
  simp only []
  by_cases he : 0 ≤ ulpExp (N * b) b
  · rw [if_pos he]
    split_ifs
    · trivial
    · simp [F64.modQuarterIsZero]
  · rw [if_neg he]
    have hexact : N * b * 2 ^ (-ulpExp (N * b) b).toNat
        = (N * 2 ^ (-ulpExp (N * b) b).toNat) * b := by ring
    rw [hexact, roundHalfEven_mul _ _ hb]
    simp only [F64.modQuarterIsZero, beq_iff_eq]
    push_cast
    have : ((N : Int) * 2 ^ (-ulpExp (N * b) b).toNat * 4)
        = 2 ^ (-ulpExp (N * b) b).toNat * (N * 4) := by ring
    rw [this]
    exact Int.mul_emod_right _ _

/-- The `float64` nearest to an integer passes the test `math.Mod(x, 0.25) == 0`. -/
theorem roundRat_int_quarter (z : Int) (b : Nat) (hb : 0 < b) :
    ∀ v, (match roundRat (z * b) b with
      | .fin n k => some (F64.fin n k)
      | _ => none) = some v → F64.modQuarterIsZero v = true := by
  intro v hv
  unfold roundRat at hv
  have hbz : (b : Int) ≠ 0 := by omega
  by_cases h0 : z = 0
  · rw [h0] at hv
    simp only [zero_mul, if_true, Option.some.injEq] at hv
    rw [← hv]
    rfl
  have hne : ¬ z * (b : Int) = 0 := by
    intro hc
    rcases mul_eq_zero.mp hc with h | h
    · exact h0 h
    · exact hbz h
  rw [if_neg hne] at hv
  by_cases hpos : 0 < z
  · have hp : (0 : Int) < z * b := by positivity
    rw [if_pos hp] at hv
    obtain ⟨N, rfl⟩ : ∃ N : Nat, z = N := ⟨z.toNat, by omega⟩
    have e : ((N : Int) * (b : Int)).toNat = N * b := by
      have : ((N : Int) * (b : Int)) = ((N * b : Nat) : Int) := by push_cast; rfl
      rw [this]
      rfl
    rw [e] at hv
    have hq := roundPos_int_quarter N b hb
    cases hr : roundPos (N * b) b with
    | nan => rw [hr] at hv; simp at hv
    | inf s => rw [hr] at hv; simp at hv
    | fin n k =>
      rw [hr] at hv hq
      simp only [Option.some.injEq] at hv
      rw [← hv]
      exact hq
  · have hn : ¬ (0 : Int) < z * b := by
      intro hc
      have hz : z < 0 := by omega
      have hbp : (0 : Int) < b := by omega
      nlinarith
    rw [if_neg hn] at hv
    obtain ⟨N, rfl⟩ : ∃ N : Nat, z = -(N : Int) := ⟨(-z).toNat, by omega⟩
    have e : (-(-(N : Int) * (b : Int))).toNat = N * b := by
      have : (-(-(N : Int) * (b : Int))) = ((N * b : Nat) : Int) := by push_cast; ring
      rw [this]
      rfl
    rw [e] at hv
    have hq := roundPos_int_quarter N b hb
    cases hr : roundPos (N * b) b with
    | nan => rw [hr] at hv; simp at hv
    | inf s => rw [hr] at hv; simp at hv
    | fin n k =>
      rw [hr] at hv hq
      simp only [Option.some.injEq] at hv
      rw [← hv]
      simp only [F64.modQuarterIsZero, beq_iff_eq] at hq ⊢
      have hd : ((2 : Int) ^ k) ∣ n * 4 := Int.dvd_of_emod_eq_zero hq
      have hd2 : ((2 : Int) ^ k) ∣ -n * 4 := by
        rw [neg_mul]
        exact (dvd_neg).mpr hd
      exact Int.emod_eq_zero_of_dvd hd2

theorem splitDecimal_some (cs ip fp : List Char) (h : splitDecimal cs = some (ip, fp)) :
    cs = ip ++ '.' :: fp ∧ ∀ c ∈ fp, isDigit c = true := by
  unfold splitDecimal at h
  simp only [] at h
  split at h
  · rename_i fp' hdrop
    split_ifs at h with hc
    simp only [Option.some.injEq, Prod.mk.injEq] at h
    obtain ⟨hip, hfp⟩ := h
    simp only [Bool.and_eq_true, List.all_eq_true] at hc
    constructor
    · rw [← hip, ← hfp, ← hdrop]
      exact (List.takeWhile_append_dropWhile isDigit cs).symm
    · rw [← hfp]
      exact hc.2
  · simp at h

/-- The value `strconv.ParseFloat` gives to a string that ends in `.00`, if any, passes the
test `math.Mod(x, 0.25) == 0`. -/
theorem ParseFloat_suffix_00 (ext : Ext) (cs : List Char)
    (h : hasSuffix cs ".00".data = true) :
    ∀ v, ParseFloat ext cs = some v → F64.modQuarterIsZero v = true := by
  obtain ⟨preRev, hrev⟩ := hasSuffix_00 cs h
  have hd0 : isDigit '0' = true := by decide
  have hdot : isDigit '.' = false := by decide
  intro v hv
  unfold ParseFloat at hv
  cases hs : splitDecimal cs with
  | some pair =>
    obtain ⟨ip, fp⟩ := pair
    rw [hs] at hv
    simp only [] at hv
    obtain ⟨hcs, hfp⟩ := splitDecimal_some cs ip fp hs
    have hfprev : fp.reverse ++ '.' :: ip.reverse = '0' :: '0' :: '.' :: preRev := by
      rw [← hrev, hcs]
      simp
    have hfp2 : fp = ['0', '0'] := by
      have hall : ∀ c ∈ fp.reverse, isDigit c = true :=
        fun c hc => hfp c (List.mem_reverse.mp hc)
      have hr2 : fp.reverse = ['0', '0'] := by
        generalize fp.reverse = l at hfprev hall
        match l, hfprev, hall with
        | [], hfprev, _ =>
          simp only [List.nil_append, List.cons.injEq] at hfprev
          exact absurd hfprev.1 (by decide)
        | [a], hfprev, _ =>
          simp only [List.singleton_append, List.cons.injEq] at hfprev
          exact absurd hfprev.2.1 (by decide)
        | [a, b], hfprev, _ =>
          simp only [List.cons_append, List.nil_append, List.cons.injEq] at hfprev
          rw [hfprev.1, hfprev.2.1]
        | a :: b :: c :: rest, hfprev, hall =>
          simp only [List.cons_append, List.cons.injEq] at hfprev
          have hc := hall c (by simp)
          rw [hfprev.2.2.1] at hc
          rw [hdot] at hc
          exact absurd hc (by decide)
      have := congrArg List.reverse hr2
      simpa using this
    rw [hfp2, digitsVal_append_00] at hv
    have hlen : (10 : Nat) ^ (['0', '0'] : List Char).length = 100 := by norm_num
    rw [hlen] at hv
    have hcast : ((digitsVal ip * 100 : Nat) : Int) = (digitsVal ip : Int) * ((100 : Nat) : Int) := by
      push_cast; rfl
    rw [hcast] at hv
    exact roundRat_int_quarter (digitsVal ip) 100 (by norm_num) v hv
  | none =>
    rw [hs] at hv
    simp only [] at hv
    have hsplit : splitAtDot cs = some (preRev.reverse, ['0', '0']) := by
      unfold splitAtDot
      rw [hrev]
      simp [List.dropWhile, List.takeWhile, hd0, hdot]
    rw [hsplit] at hv
    simp only [] at hv
    cases hi : integerDigits (splitSign preRev.reverse).2 '^' with
    | none => rw [hi] at hv; simp at hv
    | some ip =>
      rw [hi] at hv
      simp only [List.isEmpty_cons, Bool.and_false, Bool.false_eq_true, if_false] at hv
      rw [digitsVal_append_00] at hv
      have hlen : (10 : Nat) ^ (['0', '0'] : List Char).length = 100 := by norm_num
      rw [hlen] at hv
      by_cases hneg : (splitSign preRev.reverse).1 = true
      · rw [if_pos hneg] at hv
        have hcast : -((digitsVal ip * 100 : Nat) : Int)
            = (-(digitsVal ip : Int)) * ((100 : Nat) : Int) := by
          push_cast; ring
        rw [hcast] at hv
        exact roundRat_int_quarter (-(digitsVal ip : Int)) 100 (by norm_num) v hv
      · rw [if_neg hneg] at hv
        have hcast : ((digitsVal ip * 100 : Nat) : Int)
            = (digitsVal ip : Int) * ((100 : Nat) : Int) := by
          push_cast; rfl
        rw [hcast] at hv
        exact roundRat_int_quarter (digitsVal ip) 100 (by norm_num) v hv

/-! ## The time rule -/

/-- C4, as stated, fails when the 10 points leave the range of the Go `int`: on a receipt
that `ValidateReceipt` accepts, whose two items add 9223372036854774784 and 938 points, the
time 14:00 scores 9223372036854775803 = 2^63 - 5 and the time 14:01 scores
-9223372036854775803, which is not 10 more. -/
theorem time_bonus_exactly_ten_counterexample :
    ValidateReceipt ext0 ⟨"A", "2022-02-02", "14:00",
      [⟨"abc", "46116860184273870848.00"⟩, ⟨"abc", "4690.00"⟩],
      "46116860184273879040.00"⟩ = none ∧
    CalculatePoints ext0 ⟨"A", "2022-02-02", "14:00",
      [⟨"abc", "46116860184273870848.00"⟩, ⟨"abc", "4690.00"⟩],
      "46116860184273879040.00"⟩ = (9223372036854775803, none) ∧
    ValidateReceipt ext0 ⟨"A", "2022-02-02", "14:01",
      [⟨"abc", "46116860184273870848.00"⟩, ⟨"abc", "4690.00"⟩],
      "46116860184273879040.00"⟩ = none ∧
    CalculatePoints ext0 ⟨"A", "2022-02-02", "14:01",
      [⟨"abc", "46116860184273870848.00"⟩, ⟨"abc", "4690.00"⟩],
      "46116860184273879040.00"⟩ = (-9223372036854775803, none) ∧
    (-9223372036854775803 : Int) ≠ 9223372036854775803 + 10 := by
  decide

/-- C4, amended: on a receipt on which `CalculatePoints` succeeds, the 10 points of the time
rule are added, in Go `int` arithmetic, exactly when the purchase time is strictly after
14:00 and strictly before 16:00.  With `base` the score of the receipt at 14:00, a value of
the Go `int`: changing only the purchase time, every time that parses scores `base` outside
the window and `base + 10` wrapped to 64 bits inside it; the two scores differ, and the
second is exactly `base + 10` if and only if `base + 10 < 2^63`.  The receipt itself has a
time that parses and scores the second value if and only if its time is in the window, the
first one if and only if it is not.  The times 14:00 and 16:00 score `base`, the times 14:01
and 15:59 score `base + 10` wrapped to 64 bits. -/
theorem time_bonus_iff_strictly_between (ext : Ext) (r : Receipt) (p : Int)
    (h : CalculatePoints ext r = (p, none)) :
    ∃ base : Int,
      CalculatePoints ext { r with PurchaseTime := "14:00" } = (base, none) ∧
      -(2 ^ 63) ≤ base ∧ base < 2 ^ 63 ∧
      (∀ (t : String) (hour min : Nat), parseTime t.data = some (hour, min) →
        CalculatePoints ext { r with PurchaseTime := t } =
          (if 14 * 60 < hour * 60 + min ∧ hour * 60 + min < 16 * 60
            then wrap64 (base + 10) else base, none)) ∧
      wrap64 (base + 10) ≠ base ∧
      (wrap64 (base + 10) = base + 10 ↔ base + 10 < 2 ^ 63) ∧
      (∃ hour min : Nat, parseTime r.PurchaseTime.data = some (hour, min) ∧
        (p = wrap64 (base + 10) ↔ 14 * 60 < hour * 60 + min ∧ hour * 60 + min < 16 * 60) ∧
        (p = base ↔ ¬ (14 * 60 < hour * 60 + min ∧ hour * 60 + min < 16 * 60))) ∧
      CalculatePoints ext { r with PurchaseTime := "16:00" } = (base, none) ∧
      CalculatePoints ext { r with PurchaseTime := "14:01" } = (wrap64 (base + 10), none) ∧
      CalculatePoints ext { r with PurchaseTime := "15:59" } = (wrap64 (base + 10), none) := by
  rw [CalculatePoints_eq] at h
  by_cases hp : pricesParse ext r = true
  · rw [if_pos hp] at h
    cases hd : parseDate r.PurchaseDate.data with
    | none => rw [hd] at h; simp at h
    | some d =>
      have key : ∀ (t : String) (hour min : Nat), parseTime t.data = some (hour, min) →
          CalculatePoints ext { r with PurchaseTime := t } =
            (if 14 * 60 < hour * 60 + min ∧ hour * 60 + min < 16 * 60
              then wrap64 (wrap64 (baseSum ext r + (if d.day % 2 == 1 then 6 else 0)) + 10)
              else wrap64 (baseSum ext r + (if d.day % 2 == 1 then 6 else 0)), none) := by
        intro t hour min ht
        rw [CalculatePoints_eq]
        have hp2 : pricesParse ext { r with PurchaseTime := t } = true := hp
        rw [if_pos hp2]
        simp only [hd, ht, inWindow, Bool.and_eq_true, decide_eq_true_eq]
        have hb : baseSum ext { r with PurchaseTime := t } = baseSum ext r := rfl
        rw [hb]
        split_ifs <;> simp only [wrap64_add_left, add_zero]
      have hrange := wrap64_range (baseSum ext r + (if d.day % 2 == 1 then 6 else 0))
      have hne : wrap64 (wrap64 (baseSum ext r + (if d.day % 2 == 1 then 6 else 0)) + 10)
          ≠ wrap64 (baseSum ext r + (if d.day % 2 == 1 then 6 else 0)) := by
        unfold wrap64 at *
        omega
      refine ⟨wrap64 (baseSum ext r + (if d.day % 2 == 1 then 6 else 0)), ?_, hrange.1,
        hrange.2, key, hne, ?_, ?_, ?_, ?_, ?_⟩
      · rw [key "14:00" 14 0 (by decide)]; simp
      · constructor
        · intro heq
          have := wrap64_range
            (wrap64 (baseSum ext r + (if d.day % 2 == 1 then 6 else 0)) + 10)
          omega
        · intro hlt
          exact wrap64_of_range _ (by omega) hlt
      · cases ht : parseTime r.PurchaseTime.data with
        | none => rw [hd, ht] at h; simp at h
        | some hm =>
          obtain ⟨hour, min⟩ := hm
          have hself := key r.PurchaseTime hour min ht
          have hr : ({ r with PurchaseTime := r.PurchaseTime } : Receipt) = r := rfl
          rw [hr, CalculatePoints_eq, if_pos hp, hd, ht] at hself
          rw [hd, ht] at h
          have hpe := (Prod.mk.inj (h.symm.trans hself)).1
          refine ⟨hour, min, rfl, ?_, ?_⟩
          · by_cases hw : 14 * 60 < hour * 60 + min ∧ hour * 60 + min < 16 * 60
            · rw [if_pos hw] at hpe
              exact ⟨fun _ => hw, fun _ => hpe⟩
            · rw [if_neg hw] at hpe
              exact ⟨fun heq => absurd (heq.symm.trans hpe) hne, fun hw2 => absurd hw2 hw⟩
          · by_cases hw : 14 * 60 < hour * 60 + min ∧ hour * 60 + min < 16 * 60
            · rw [if_pos hw] at hpe
              exact ⟨fun heq => absurd (hpe.symm.trans heq) hne, fun hw2 => absurd hw hw2⟩
            · rw [if_neg hw] at hpe
              exact ⟨fun _ => hw, fun _ => hpe⟩
      · rw [key "16:00" 16 0 (by decide)]; simp
      · rw [key "14:01" 14 1 (by decide)]; simp
      · rw [key "15:59" 15 59 (by decide)]; simp
  · rw [if_neg hp] at h
    simp at h

/-- Witness for C4 (amended): the receipt of `TestCalculatePoints_SuccessCase`, which scores
113 at 15:30 and 103 at 14:00. -/
theorem time_bonus_iff_strictly_between_witness :
    CalculatePoints ext0 fixtureSuccess = (113, none) ∧
    CalculatePoints ext0 { fixtureSuccess with PurchaseTime := "14:00" } = (103, none) ∧
    ∃ base : Int,
      CalculatePoints ext0 { fixtureSuccess with PurchaseTime := "14:00" } = (base, none) ∧
      -(2 ^ 63) ≤ base ∧ base < 2 ^ 63 ∧
      (∀ (t : String) (hour min : Nat), parseTime t.data = some (hour, min) →
        CalculatePoints ext0 { fixtureSuccess with PurchaseTime := t } =
          (if 14 * 60 < hour * 60 + min ∧ hour * 60 + min < 16 * 60
            then wrap64 (base + 10) else base, none)) ∧
      wrap64 (base + 10) ≠ base ∧
      (wrap64 (base + 10) = base + 10 ↔ base + 10 < 2 ^ 63) ∧
      (∃ hour min : Nat, parseTime fixtureSuccess.PurchaseTime.data = some (hour, min) ∧
        ((113 : Int) = wrap64 (base + 10) ↔
          14 * 60 < hour * 60 + min ∧ hour * 60 + min < 16 * 60) ∧
        ((113 : Int) = base ↔ ¬ (14 * 60 < hour * 60 + min ∧ hour * 60 + min < 16 * 60))) ∧
      CalculatePoints ext0 { fixtureSuccess with PurchaseTime := "16:00" } = (base, none) ∧
      CalculatePoints ext0 { fixtureSuccess with PurchaseTime := "14:01" } =
        (wrap64 (base + 10), none) ∧
      CalculatePoints ext0 { fixtureSuccess with PurchaseTime := "15:59" } =
        (wrap64 (base + 10), none) :=
  ⟨by decide, by decide,
    time_bonus_iff_strictly_between ext0 fixtureSuccess 113 (by decide)⟩

/-! ## The retailer rule -/

/-- C5, as stated, fails on a retailer with a character outside ASCII: the retailer `é`, one
character, adds 2 points to the score of the same receipt with an empty retailer. -/
theorem retailer_points_per_character_counterexample :
    CalculatePoints ext0 ⟨"é", "2022-02-02", "13:00", [], "1.10"⟩ = (2, none) ∧
    CalculatePoints ext0 ⟨"", "2022-02-02", "13:00", [], "1.10"⟩ = (0, none) ∧
    (removeSpaces "é".data).length = 1 := by
  decide

/-- C5, amended: on a receipt on which `CalculatePoints` succeeds, the retailer rule adds (in
Go `int` arithmetic) one point per byte of the UTF-8 encoding of the retailer name that
remains after removing its spaces (U+0020) to the score of the same receipt with an empty
retailer; when the name has ASCII characters only, that is one point per remaining
character, whatever the character. -/
theorem retailer_points_per_byte (ext : Ext) (r : Receipt) (p : Int)
    (h : CalculatePoints ext r = (p, none)) :
    ∃ p0 : Int, CalculatePoints ext { r with Retailer := "" } = (p0, none) ∧
      p = wrap64 (p0 + (goLen (removeSpaces r.Retailer.data) : Int)) ∧
      ((∀ c ∈ r.Retailer.data, c.toNat < 128) →
        goLen (removeSpaces r.Retailer.data) = (removeSpaces r.Retailer.data).length) := by
  rw [CalculatePoints_eq] at h
  by_cases hp : pricesParse ext r = true
  · rw [if_pos hp] at h
    have hp2 : pricesParse ext { r with Retailer := "" } = true := hp
    rw [CalculatePoints_eq, if_pos hp2]
    cases hd : parseDate r.PurchaseDate.data with
    | none => rw [hd] at h; simp at h
    | some d =>
      cases ht : parseTime r.PurchaseTime.data with
      | none => rw [hd, ht] at h; simp at h
      | some hm =>
        obtain ⟨hour, min⟩ := hm
        rw [hd, ht] at h
        simp only [Prod.mk.injEq, and_true] at h
        simp only [hd, ht]
        refine ⟨_, rfl, ?_, ?_⟩
        · rw [← h, wrap64_add_left]
          congr 1
          simp only [baseSum, goLen, removeSpaces]
          have : ("" : String).data = [] := rfl
          simp only [this, List.filter_nil, List.map_nil, List.sum_nil]
          push_cast
          ring
        · intro hascii
          unfold goLen
          have hall : ∀ c ∈ removeSpaces r.Retailer.data, Char.utf8Size c = 1 := by
            intro c hc
            have hc2 : c ∈ r.Retailer.data := List.mem_of_mem_filter hc
            have := hascii c hc2
            unfold Char.utf8Size
            have h127 : c.val ≤ 127 := by
              show c.val.toNat ≤ 127
              have : c.toNat = c.val.toNat := rfl
              omega
            exact if_pos h127
          generalize removeSpaces r.Retailer.data = l at hall
          induction l with
          | nil => rfl
          | cons a l ih =>
            simp only [List.map_cons, List.sum_cons, List.length_cons]
            rw [hall a (List.mem_cons_self _ _), ih (fun c hc => hall c (List.mem_cons_of_mem _ hc))]
            omega
  · rw [if_neg hp] at h
    simp at h

/-- Witness for C5 (amended): the receipt of `TestCalculatePoints_SuccessCase`. -/
theorem retailer_points_per_byte_witness :
    CalculatePoints ext0 fixtureSuccess = (113, none) ∧
    ∃ p0 : Int, CalculatePoints ext0 { fixtureSuccess with Retailer := "" } = (p0, none) ∧
      (113 : Int) = wrap64 (p0 + (goLen (removeSpaces fixtureSuccess.Retailer.data) : Int)) ∧
      ((∀ c ∈ fixtureSuccess.Retailer.data, c.toNat < 128) →
        goLen (removeSpaces fixtureSuccess.Retailer.data)
          = (removeSpaces fixtureSuccess.Retailer.data).length) :=
  ⟨by decide, retailer_points_per_byte ext0 fixtureSuccess 113 (by decide)⟩

/-- C6: the code at a retailer with a character that is neither a letter nor a digit.  The
receipt is accepted by `ValidateReceipt`, no rule other than the retailer rule adds points,
and the score is 8, one point for each of the 8 characters of `7-Eleven`, of which only 7
are alphanumeric. -/
theorem retailer_points_alphanumeric_failing_input :
    ValidateReceipt ext0 ⟨"7-Eleven", "2022-02-02", "13:00", [⟨"Milk", "1.10"⟩], "1.10"⟩ = none ∧
    CalculatePoints ext0 ⟨"7-Eleven", "2022-02-02", "13:00", [⟨"Milk", "1.10"⟩], "1.10"⟩
      = (8, none) ∧
    CalculatePoints ext0 ⟨"", "2022-02-02", "13:00", [⟨"Milk", "1.10"⟩], "1.10"⟩ = (0, none) ∧
    ("7-Eleven".data.filter isAlphanumeric).length = 7 := by
  decide

/-! ## Prices that do not parse -/

/-- C10, as stated, fails when the item with the unparsable price has a description whose
trimmed length is not a multiple of 3: the price of the only item does not parse, and
`CalculatePoints` returns 1 point and no error. -/
theorem unparsable_price_aborts_counterexample :
    ParseFloat ext0 "xyz".data = none ∧
    CalculatePoints ext0 ⟨"A", "2022-02-02", "13:00", [⟨"ab", "xyz"⟩], "1.10"⟩ = (1, none) := by
  decide

/-- C10, amended: for every receipt that contains an item whose trimmed description has a
length divisible by 3 and whose price does not parse, `CalculatePoints` returns 0 points and
the price-parse error, whatever the other fields of the receipt. -/
theorem unparsable_relevant_price_aborts (ext : Ext) (r : Receipt)
    (h : ∃ item ∈ r.Items, goLen (trimSpace item.ShortDescription.data) % 3 = 0 ∧
      ParseFloat ext item.Price.data = none) :
    CalculatePoints ext r = (0, some CalcError.price) := by
  obtain ⟨item, hmem, hlen, hpf⟩ := h
  rw [CalculatePoints_eq]
  have hp : ¬ pricesParse ext r = true := by
    unfold pricesParse
    rw [List.all_eq_true]
    intro hall
    have := hall item hmem
    simp [relevant, hlen, hpf] at this
  rw [if_neg hp]

/-- Witness for C10 (amended): a receipt with no valid field whose second item has a
description of 3 bytes and a price that is not a number. -/
theorem unparsable_relevant_price_aborts_witness :
    (∃ item ∈ [(⟨"Item 1", "1.00"⟩ : Item), ⟨"abc", "xyz"⟩],
      goLen (trimSpace item.ShortDescription.data) % 3 = 0 ∧
        ParseFloat ext0 item.Price.data = none) ∧
    CalculatePoints ext0 ⟨"", "", "", [⟨"Item 1", "1.00"⟩, ⟨"abc", "xyz"⟩], ""⟩
      = (0, some CalcError.price) :=
  ⟨⟨⟨"abc", "xyz"⟩, by decide, by decide, by decide⟩,
    unparsable_relevant_price_aborts ext0 ⟨"", "", "", [⟨"Item 1", "1.00"⟩, ⟨"abc", "xyz"⟩], ""⟩
      ⟨⟨"abc", "xyz"⟩, by decide, by decide, by decide⟩⟩

/-! ## The validator -/

/-- C3: `ValidateReceipt` reports the first violated check in the fixed order (the five
required fields, the retailer pattern, the date, the time, the total format, the checks of
each item in sequence order, the comparison of the sum with the total): its result is the
error of the first violated check of `allChecks`; a check that is violated while all checks
before it hold is the one reported, whatever the checks after it do; the messages of
different errors differ; and the empty receipt is rejected with `Retailer is required`. -/
theorem first_violated_check_is_reported :
    (∀ (ext : Ext) (r : Receipt), ValidateReceipt ext r = firstViolation (allChecks ext r)) ∧
    (∀ (ext : Ext) (r : Receipt) (before after : List Check) (c : Check),
      allChecks ext r = before ++ c :: after → (∀ x ∈ before, x.1 = false) → c.1 = true →
        ValidateReceipt ext r = some c.2) ∧
    Function.Injective ValidationError.message ∧
    (ValidateReceipt ext0 emptyReceipt).map ValidationError.message
      = some "Retailer is required" := by
  refine ⟨ValidateReceipt_eq, ?_, ?_, by decide⟩
  · intro ext r before after c hsplit hbefore hc
    rw [ValidateReceipt_eq, hsplit, firstViolation_append]
    have hnone : firstViolation before = none := by
      unfold firstViolation
      rw [Option.map_eq_none', List.find?_eq_none]
      intro x hx
      simp [hbefore x hx]
    rw [hnone, firstViolation_cons, if_pos hc]
    rfl
  · intro a b h
    cases a <;> cases b <;> first | rfl | (exact absurd h (by decide))

/-- C2, as stated, fails: a receipt that passes checks 1 to 6 and whose only price,
9007199254740993.00, differs from its total, 9007199254740992.00, by a whole unit, is
accepted: both amounts convert to the same `float64`. -/
theorem validate_iff_seven_checks_counterexample :
    ValidateReceipt ext0 ⟨"Test Retailer", "2022-02-28", "15:30",
      [⟨"Item 1", "9007199254740993.00"⟩], "9007199254740992.00"⟩ = none ∧
    ¬ check7Exact ⟨"Test Retailer", "2022-02-28", "15:30",
      [⟨"Item 1", "9007199254740993.00"⟩], "9007199254740992.00"⟩ := by
  refine ⟨by decide, ?_⟩
  unfold check7Exact
  decide

/-- C2, amended: `ValidateReceipt` returns success if and only if checks 1 to 6 hold and,
for check 7, every price and the total convert to a `float64` and the `float64` sum of the
prices, accumulated in sequence order, is within the `float64` 0.0001 of the `float64`
total.  The valid receipt of the test suite is accepted. -/
theorem validate_iff_seven_checks_float :
    (∀ (ext : Ext) (r : Receipt),
      ValidateReceipt ext r = none ↔ checks1to6 r ∧ check7Float ext r) ∧
    ValidateReceipt ext0 fixtureValidate = none :=
  ⟨ValidateReceipt_eq_none, by decide⟩

/-! ## The rules on the total -/

/-- C8, as stated, fails on a large total: 140737488355328.26 is not a multiple of 0.25, its
last two digits are 26, and `isMultipleOfQuarter` holds, because the nearest `float64` is
140737488355328.25; a receipt with this total gets the 25 points. -/
theorem quarter_bonus_iff_cents_counterexample :
    matchAmount "140737488355328.26".data = true ∧
    cents "140737488355328.26" % 25 = 1 ∧
    isMultipleOfQuarter ext0 "140737488355328.26" = true ∧
    CalculatePoints ext0 ⟨"", "2022-02-02", "13:00", [], "140737488355328.26"⟩ = (25, none) ∧
    CalculatePoints ext0 ⟨"", "2022-02-02", "13:00", [], "0.01"⟩ = (0, none) := by
  decide

/-- C8, amended: for every receipt whose total is in the validated format (digits, `.`, two
digits) and below 2^47 = 140737488355328, `CalculatePoints` adds the 25 points if and only if
the value of the total in cents is divisible by 25, that is, its last two digits are 00, 25,
50 or 75.  The receipt is compared with the same receipt under the total 0.01, to which
neither rule on the total applies: when that one scores `base` without error, the receipt
scores, without error and in Go `int` arithmetic, `base` plus 50 if its total ends in `.00`
plus 25 if the cents of its total are divisible by 25, and adding the 25 points changes the
score; when that one fails, the receipt fails with the same error and 0 points. -/
theorem quarter_bonus_iff_cents_small (ext : Ext) (r : Receipt)
    (hfmt : matchAmount r.Total.data = true) (hsmall : cents r.Total < 100 * 2 ^ 47) :
    (isMultipleOfQuarter ext r.Total = true ↔ cents r.Total % 25 = 0) ∧
    (cents r.Total % 25 = 0 ↔ cents r.Total % 100 ∈ [0, 25, 50, 75]) ∧
    isRoundDollarAmount "0.01" = false ∧ isMultipleOfQuarter ext "0.01" = false ∧
    (∀ (base : Int), CalculatePoints ext { r with Total := "0.01" } = (base, none) →
      CalculatePoints ext r =
        (wrap64 (base + (if isRoundDollarAmount r.Total then 50 else 0)
          + (if cents r.Total % 25 = 0 then 25 else 0)), none) ∧
      wrap64 (base + (if isRoundDollarAmount r.Total then 50 else 0) + 25)
        ≠ wrap64 (base + (if isRoundDollarAmount r.Total then 50 else 0))) ∧
    (∀ (base : Int) (e : CalcError),
      CalculatePoints ext { r with Total := "0.01" } = (base, some e) →
      base = 0 ∧ CalculatePoints ext r = (0, some e)) := by
  have hq := isMultipleOfQuarter_iff ext r.Total hfmt hsmall
  have hq0 : isMultipleOfQuarter ext "0.01" = false := by
    have h0 := isMultipleOfQuarter_iff ext "0.01" (by decide) (by decide)
    cases hb : isMultipleOfQuarter ext "0.01" with
    | false => rfl
    | true => exact absurd (h0.mp hb) (by decide)
  have hpp : pricesParse ext { r with Total := "0.01" } = pricesParse ext r := rfl
  have hbase : baseSum ext r = baseSum ext { r with Total := "0.01" }
      + (if isRoundDollarAmount r.Total then 50 else 0)
      + (if cents r.Total % 25 = 0 then 25 else 0) := by
    unfold baseSum
    have hr0 : isRoundDollarAmount ({ r with Total := "0.01" } : Receipt).Total = false :=
      rfl
    have hq0b : isMultipleOfQuarter ext ({ r with Total := "0.01" } : Receipt).Total = false :=
      hq0
    rw [hr0, hq0b]
    have hitems : ({ r with Total := "0.01" } : Receipt).Items = r.Items := rfl
    have hret : ({ r with Total := "0.01" } : Receipt).Retailer = r.Retailer := rfl
    rw [hitems, hret]
    by_cases hc : cents r.Total % 25 = 0
    · rw [if_pos (hq.mpr hc), if_pos hc]
      simp only [Bool.false_eq_true, if_false]
      ring
    · have hqf : ¬ (isMultipleOfQuarter ext r.Total = true) := fun hh => hc (hq.mp hh)
      rw [if_neg hqf, if_neg hc]
      simp only [Bool.false_eq_true, if_false]
      ring
  refine ⟨hq, ?_, by decide, hq0, ?_, ?_⟩
  · simp only [List.mem_cons, List.mem_singleton, List.not_mem_nil, or_false]
    omega
  · intro base h0
    rw [CalculatePoints_eq, hpp] at h0
    rw [CalculatePoints_eq]
    by_cases hp : pricesParse ext r = true
    · rw [if_pos hp] at h0 ⊢
      have hd0 : ({ r with Total := "0.01" } : Receipt).PurchaseDate = r.PurchaseDate := rfl
      have ht0 : ({ r with Total := "0.01" } : Receipt).PurchaseTime = r.PurchaseTime := rfl
      rw [hd0, ht0] at h0
      cases hd : parseDate r.PurchaseDate.data with
      | none => rw [hd] at h0; simp at h0
      | some d =>
        cases ht : parseTime r.PurchaseTime.data with
        | none => rw [hd, ht] at h0; simp at h0
        | some hm =>
          obtain ⟨hour, min⟩ := hm
          rw [hd, ht] at h0
          have hb := (Prod.mk.inj h0).1
          constructor
          · rw [← hb, hbase, add_assoc (wrap64 _) _ _, wrap64_add_left]
            refine congrArg (fun x => (wrap64 x, (none : Option CalcError))) ?_
            ring
          · generalize base + (if isRoundDollarAmount r.Total = true then 50 else 0) = x
            unfold wrap64
            omega
    · rw [if_neg hp] at h0
      simp at h0
  · intro base e h0
    rw [CalculatePoints_eq, hpp] at h0
    rw [CalculatePoints_eq]
    by_cases hp : pricesParse ext r = true
    · rw [if_pos hp] at h0 ⊢
      have hd0 : ({ r with Total := "0.01" } : Receipt).PurchaseDate = r.PurchaseDate := rfl
      have ht0 : ({ r with Total := "0.01" } : Receipt).PurchaseTime = r.PurchaseTime := rfl
      rw [hd0, ht0] at h0
      cases hd : parseDate r.PurchaseDate.data with
      | none =>
        rw [hd] at h0
        simp only [Prod.mk.injEq, Option.some.injEq] at h0
        exact ⟨h0.1.symm, by rw [h0.2]⟩
      | some d =>
        cases ht : parseTime r.PurchaseTime.data with
        | none =>
          rw [hd, ht] at h0
          simp only [Prod.mk.injEq, Option.some.injEq] at h0
          exact ⟨h0.1.symm, by rw [h0.2]⟩
        | some hm =>
          obtain ⟨hour, min⟩ := hm
          rw [hd, ht] at h0
          simp at h0
    · rw [if_neg hp] at h0 ⊢
      simp only [Prod.mk.injEq, Option.some.injEq] at h0
      exact ⟨h0.1.symm, by rw [h0.2]⟩

/-- Witness for C8 (amended): the receipt of `TestCalculatePoints_SuccessCase` under the
total 35.75 scores 38 + 25, under the total 35.74 it scores 38, as under the total 0.01. -/
theorem quarter_bonus_iff_cents_small_witness :
    matchAmount "35.75".data = true ∧ cents "35.75" < 100 * 2 ^ 47 ∧
    CalculatePoints ext0 { fixtureSuccess with Total := "0.01" } = (38, none) ∧
    CalculatePoints ext0 { fixtureSuccess with Total := "35.75" } = (63, none) ∧
    CalculatePoints ext0 { fixtureSuccess with Total := "35.74" } = (38, none) ∧
    ((isMultipleOfQuarter ext0 "35.75" = true ↔ cents "35.75" % 25 = 0) ∧
    (cents "35.75" % 25 = 0 ↔ cents "35.75" % 100 ∈ [0, 25, 50, 75]) ∧
    isRoundDollarAmount "0.01" = false ∧ isMultipleOfQuarter ext0 "0.01" = false ∧
    (∀ (base : Int),
      CalculatePoints ext0 { fixtureSuccess with Total := "0.01" } = (base, none) →
      CalculatePoints ext0 { fixtureSuccess with Total := "35.75" } =
        (wrap64 (base + (if isRoundDollarAmount "35.75" then 50 else 0)
          + (if cents "35.75" % 25 = 0 then 25 else 0)), none) ∧
      wrap64 (base + (if isRoundDollarAmount "35.75" then 50 else 0) + 25)
        ≠ wrap64 (base + (if isRoundDollarAmount "35.75" then 50 else 0))) ∧
    (∀ (base : Int) (e : CalcError),
      CalculatePoints ext0 { fixtureSuccess with Total := "0.01" } = (base, some e) →
      base = 0 ∧ CalculatePoints ext0 { fixtureSuccess with Total := "35.75" }
        = (0, some e))) :=
  ⟨by decide, by decide, by decide, by decide, by decide,
    quarter_bonus_iff_cents_small ext0 { fixtureSuccess with Total := "35.75" }
      (by decide) (by decide)⟩

/-! ## The price rule -/

/-- C7, as stated, fails on a large price: the only item of the receipt has a description of
6 bytes and the price 140737488355330.01, one fifth of which is 28147497671066.002, and the
rule adds 28147497671066 points, not the ceiling 28147497671067. -/
theorem item_points_ceil_counterexample :
    CalculatePoints ext0
      ⟨"", "2022-02-02", "13:00", [⟨"Item 1", "140737488355330.01"⟩], "0.01"⟩
      = (28147497671066, none) ∧
    CalculatePoints ext0 ⟨"", "2022-02-02", "13:00", [⟨"Item 1", "0.00"⟩], "0.01"⟩ = (0, none) ∧
    (cents "140737488355330.01" + 499) / 500 = 28147497671067 := by
  decide

/-- C7, amended: for every item, with a price in the validated format (digits, `.`, two
digits) below 2^45 = 35184372088832, of a receipt on which `CalculatePoints` succeeds, the
item adds (in Go `int` arithmetic) to the score of the receipt in which its price is
replaced by 0.00 the ceiling of one fifth of its exact decimal price,
`(cents + 499) div 500`, when the length in bytes of its description after trimming leading
and trailing white space is divisible by 3 (a trimmed length of 0 included), and 0
otherwise. -/
theorem item_points_ceil_small (ext : Ext) (r : Receipt) (p : Int) (pre post : List Item)
    (item : Item) (h : CalculatePoints ext r = (p, none))
    (hitems : r.Items = pre ++ item :: post)
    (hfmt : matchAmount item.Price.data = true) (hsmall : cents item.Price < 100 * 2 ^ 45) :
    ∃ p0 : Int,
      CalculatePoints ext { r with Items := pre ++ { item with Price := "0.00" } :: post }
        = (p0, none) ∧
      p = wrap64 (p0 +
        (if goLen (trimSpace item.ShortDescription.data) % 3 = 0
          then (((cents item.Price + 499) / 500 : Nat) : Int) else 0)) := by
  rw [CalculatePoints_eq] at h
  by_cases hp : pricesParse ext r = true
  · rw [if_pos hp] at h
    have hp2 := pricesParse_replace ext r pre post item hitems hp
    rw [CalculatePoints_eq, if_pos hp2]
    cases hd : parseDate r.PurchaseDate.data with
    | none => rw [hd] at h; simp at h
    | some d =>
      cases ht : parseTime r.PurchaseTime.data with
      | none => rw [hd, ht] at h; simp at h
      | some hm =>
        obtain ⟨hour, min⟩ := hm
        rw [hd, ht] at h
        simp only [Prod.mk.injEq, and_true] at h
        simp only [hd, ht]
        refine ⟨_, rfl, ?_⟩
        rw [← h, wrap64_add_left]
        congr 1
        simp only [baseSum, hitems, List.map_append, List.map_cons, List.sum_append,
          List.sum_cons, List.length_append, List.length_cons, itemTerm_zero,
          itemTerm_small ext item hfmt hsmall]
        ring
  · rw [if_neg hp] at h
    simp at h

/-- Witness for C7 (amended): the items of the test suite.  In the receipt of
`TestProcessReceiptsAndRetrievePoints`, which scores 23, the item `Item 1` at 10.99 adds 3
points; an item `Item 1` adds 2 points at 10.00 and 3 points at 15.00. -/
theorem item_points_ceil_small_witness :
    CalculatePoints ext0 fixtureProcess = (23, none) ∧
    (∃ p0 : Int,
      CalculatePoints ext0 { fixtureProcess with
        Items := [] ++ { (⟨"Item 1", "10.99"⟩ : Item) with Price := "0.00" }
          :: [⟨"Item 2", "15.00"⟩] } = (p0, none) ∧
      (23 : Int) = wrap64 (p0 +
        (if goLen (trimSpace (⟨"Item 1", "10.99"⟩ : Item).ShortDescription.data) % 3 = 0
          then (((cents (⟨"Item 1", "10.99"⟩ : Item).Price + 499) / 500 : Nat) : Int)
          else 0))) ∧
    goLen (trimSpace "Item 1".data) % 3 = 0 ∧
    (cents "10.99" + 499) / 500 = 3 ∧
    itemTerm ext0 ⟨"Item 1", "10.00"⟩ = 2 ∧
    itemTerm ext0 ⟨"Item 1", "10.99"⟩ = 3 ∧
    itemTerm ext0 ⟨"Item 1", "15.00"⟩ = 3 :=
  ⟨by decide,
    item_points_ceil_small ext0 fixtureProcess 23 [] [⟨"Item 2", "15.00"⟩] ⟨"Item 1", "10.99"⟩
      (by decide) (by decide) (by decide) (by decide),
    by decide, by decide, by decide, by decide, by decide⟩

/-! ## The comparison of the sum of the prices with the total -/

/-- C9, as stated, fails on large amounts: the prices 300000000000.00 and 300000000000.07
sum to the total 600000000000.07 to the cent, and the receipt, which passes checks 1 to 6,
is rejected with `Total amount does not match the sum of item prices`: the `float64` sum is
600000000000.0701. -/
theorem mismatch_iff_cents_differ_counterexample :
    ValidateReceipt ext0 ⟨"Test Retailer", "2022-02-28", "15:30",
      [⟨"Item 1", "300000000000.00"⟩, ⟨"Item 2", "300000000000.07"⟩], "600000000000.07"⟩
      = some ValidationError.totalMismatch ∧
    sumCents [⟨"Item 1", "300000000000.00"⟩, ⟨"Item 2", "300000000000.07"⟩]
      = cents "600000000000.07" := by
  decide

/-- C9, amended: for every receipt that passes checks 1 to 6 and whose amounts are small
enough (for some `B`, the exact sum of the item prices and the total are below `2 ^ B` and
the number of items plus one, times `2 ^ B`, is at most `2 ^ 39`: for instance up to 1023
items and amounts below 2^29 = 536870912), validation fails with the reason
`Total amount does not match the sum of item prices` if and only if the absolute difference
between the exact sum of the item prices and the total exceeds 0.0001, which is when they
differ by a cent or more, and the receipt is accepted exactly when the item prices sum to
the total to the cent. -/
theorem mismatch_iff_cents_differ_small (ext : Ext) (r : Receipt) (B : Nat)
    (h16 : checks1to6 r)
    (hS : sumCents r.Items < 100 * 2 ^ B) (hT : cents r.Total < 100 * 2 ^ B)
    (hn : (r.Items.length + 1) * 2 ^ B ≤ 2 ^ 39) :
    (ValidateReceipt ext r = some ValidationError.totalMismatch ↔ ¬ check7Exact r) ∧
    (¬ check7Exact r ↔ sumCents r.Items ≠ cents r.Total) ∧
    (ValidateReceipt ext r = none ↔ sumCents r.Items = cents r.Total) := by
  obtain ⟨hitems, htotal, hiff⟩ := mismatch_iff_small ext r B
    (fun item hitem => (h16.2.2.2.2.2 item hitem).2.2.2) h16.2.2.2.2.1 hS hT hn
  have hval := ValidateReceipt_of_checks ext r h16 hitems htotal
  have hexact : ¬ check7Exact r ↔ sumCents r.Items ≠ cents r.Total := by
    unfold check7Exact
    omega
  refine ⟨?_, hexact, ?_⟩
  · rw [hexact, ← hiff, hval]
    split_ifs with hgt
    · simp [hgt]
    · simp [hgt]
  · rw [hval]
    by_cases hgt : F64.gt (F64.abs (F64.sub (sumPrices ext r.Items (.fin 0 0))
        (parseTotal ext r.Total))) c0_0001 = true
    · rw [if_pos hgt]
      have := hiff.mp hgt
      simp [this]
    · rw [if_neg hgt]
      have : ¬ sumCents r.Items ≠ cents r.Total := fun hne => hgt (hiff.mpr hne)
      simp only [ne_eq, not_not] at this
      simp [this]

/-- Witness for C9 (amended): the valid receipt of `TestValidateReceipt` (two items, amounts
below 2^7 = 128). -/
theorem mismatch_iff_cents_differ_small_witness :
    checks1to6 fixtureValidate ∧
    sumCents fixtureValidate.Items < 100 * 2 ^ 7 ∧ cents fixtureValidate.Total < 100 * 2 ^ 7 ∧
    (fixtureValidate.Items.length + 1) * 2 ^ 7 ≤ 2 ^ 39 ∧
    (ValidateReceipt ext0 fixtureValidate = some ValidationError.totalMismatch
      ↔ ¬ check7Exact fixtureValidate) ∧
    (¬ check7Exact fixtureValidate
      ↔ sumCents fixtureValidate.Items ≠ cents fixtureValidate.Total) ∧
    (ValidateReceipt ext0 fixtureValidate = none
      ↔ sumCents fixtureValidate.Items = cents fixtureValidate.Total) :=
  ⟨by unfold checks1to6; decide, by decide, by decide, by decide,
    mismatch_iff_cents_differ_small ext0 fixtureValidate 7
      (by unfold checks1to6; decide) (by decide) (by decide) (by decide)⟩

/-! ## The points as a sum -/

/-- C1, as stated, fails: on a receipt that `ValidateReceipt` accepts, with the date
2022-01-02, the time 13:13, one item that the price rule skips and the total
140737488355328.26, which is not a multiple of 0.25, the contributions listed sum to 6 (the
characters of `Target`), and `CalculatePoints` returns 31: it adds the 25 points of the
quarter rule. -/
theorem points_sum_of_rules_counterexample :
    ValidateReceipt ext0 ⟨"Target", "2022-01-02", "13:13",
      [⟨"Milk", "140737488355328.26"⟩], "140737488355328.26"⟩ = none ∧
    parseDate "2022-01-02".data = some ⟨2022, 1, 2⟩ ∧
    parseTime "13:13".data = some (13, 13) ∧
    claimedPoints ⟨"Target", "2022-01-02", "13:13",
      [⟨"Milk", "140737488355328.26"⟩], "140737488355328.26"⟩ ⟨2022, 1, 2⟩ 13 13 = 6 ∧
    CalculatePoints ext0 ⟨"Target", "2022-01-02", "13:13",
      [⟨"Milk", "140737488355328.26"⟩], "140737488355328.26"⟩ = (31, none) := by
  decide

/-- C1, amended: for every receipt whose purchaseDate and purchaseTime parse, whose total is
in the validated format (digits, `.`, two digits) and below 2^47, and whose items with a
trimmed description of length divisible by 3 have a price in the validated format below
2^45, `CalculatePoints` returns without error the sum, in Go `int` arithmetic (the sum
itself when it is below 2^63), of: the number of bytes of the retailer with spaces removed
(its number of characters when the retailer is ASCII); 50 if the total ends in `.00`; 25 if
the total in cents is divisible by 25; 5 times (number of items div 2); for each item whose
trimmed description length is divisible by 3, the ceiling of one fifth of its price; 6 if
the day of the month is odd; 10 if the time is strictly between 14:00 and 16:00. -/
theorem points_sum_of_rules_small (ext : Ext) (r : Receipt) (d : Date) (hour min : Nat)
    (hd : parseDate r.PurchaseDate.data = some d)
    (ht : parseTime r.PurchaseTime.data = some (hour, min))
    (hfmtT : matchAmount r.Total.data = true) (hsmallT : cents r.Total < 100 * 2 ^ 47)
    (hitems : ∀ item ∈ r.Items, goLen (trimSpace item.ShortDescription.data) % 3 = 0 →
      matchAmount item.Price.data = true ∧ cents item.Price < 100 * 2 ^ 45) :
    CalculatePoints ext r = (wrap64 (exactPoints r d hour min), none) ∧
    (exactPoints r d hour min < 2 ^ 63 →
      CalculatePoints ext r = (exactPoints r d hour min, none)) ∧
    ((∀ c ∈ r.Retailer.data, c.toNat < 128) →
      exactPoints r d hour min = claimedPoints r d hour min) := by
  have hterm : ∀ item ∈ r.Items, itemTerm ext item = exactItemPoints item := by
    intro item hitem
    unfold exactItemPoints
    by_cases hrel : goLen (trimSpace item.ShortDescription.data) % 3 = 0
    · obtain ⟨hf, hs⟩ := hitems item hitem hrel
      exact itemTerm_small ext item hf hs
    · rw [if_neg hrel]
      unfold itemTerm relevant
      have : (goLen (trimSpace item.ShortDescription.data) % 3 == 0) = false := by
        simpa using hrel
      simp [this]
  have hpp : pricesParse ext r = true := by
    unfold pricesParse
    rw [List.all_eq_true]
    intro item hitem
    by_cases hrel : goLen (trimSpace item.ShortDescription.data) % 3 = 0
    · obtain ⟨hf, hs⟩ := hitems item hitem hrel
      obtain ⟨v, hv, -⟩ := itemPoints_small ext item.Price hf hs
      simp [hv]
    · have : relevant item = false := by
        unfold relevant
        simpa using hrel
      simp [this]
  have hsum : (r.Items.map (itemTerm ext)).sum = (r.Items.map exactItemPoints).sum := by
    congr 1
    exact List.map_congr_left hterm
  have hq := isMultipleOfQuarter_iff ext r.Total hfmtT hsmallT
  have hbase : baseSum ext r + (if d.day % 2 == 1 then 6 else 0)
      + (if inWindow hour min then 10 else 0) = exactPoints r d hour min := by
    unfold baseSum exactPoints exactRulePoints isRoundDollarAmount inWindow
    rw [hsum]
    have e1 : (if isMultipleOfQuarter ext r.Total = true then (25 : Int) else 0)
        = (if cents r.Total % 25 = 0 then 25 else 0) := by
      by_cases hc : cents r.Total % 25 = 0
      · rw [if_pos hc, if_pos (hq.mpr hc)]
      · rw [if_neg hc, if_neg (fun h => hc (hq.mp h))]
    have e2 : (if (d.day % 2 == 1) = true then (6 : Int) else 0)
        = (if d.day % 2 = 1 then 6 else 0) := by
      simp only [beq_iff_eq]
    have e3 : (if (decide (14 * 60 < hour * 60 + min) && decide (hour * 60 + min < 16 * 60))
          = true then (10 : Int) else 0)
        = (if 14 * 60 < hour * 60 + min ∧ hour * 60 + min < 16 * 60 then 10 else 0) := by
      simp only [Bool.and_eq_true, decide_eq_true_eq]
    rw [e1, e2, e3]
    ring
  have hmain : CalculatePoints ext r = (wrap64 (exactPoints r d hour min), none) := by
    rw [CalculatePoints_eq, if_pos hpp, hd, ht]
    simp only []
    rw [hbase]
  refine ⟨hmain, ?_, ?_⟩
  · intro hlt
    rw [hmain]
    have h0 : (0 : Int) ≤ exactPoints r d hour min := by
      unfold exactPoints exactRulePoints
      have hs : (0 : Int) ≤ (r.Items.map exactItemPoints).sum := by
        apply List.sum_nonneg
        intro x hx
        obtain ⟨item, -, rfl⟩ := List.mem_map.mp hx
        unfold exactItemPoints
        split_ifs <;> positivity
      have h1 : (0 : Int) ≤ (goLen (removeSpaces r.Retailer.data) : Int) := by positivity
      have h2 : (0 : Int) ≤ 5 * ((r.Items.length / 2 : Nat) : Int) := by positivity
      split_ifs <;> linarith
    rw [wrap64_of_range _ (by linarith) hlt]
  · intro hascii
    unfold exactPoints claimedPoints
    congr 2
    unfold goLen
    have hall : ∀ c ∈ removeSpaces r.Retailer.data, Char.utf8Size c = 1 := by
      intro c hc
      have hc2 : c ∈ r.Retailer.data := List.mem_of_mem_filter hc
      have := hascii c hc2
      unfold Char.utf8Size
      have h127 : c.val ≤ 127 := by
        show c.val.toNat ≤ 127
        have : c.toNat = c.val.toNat := rfl
        omega
      exact if_pos h127
    generalize removeSpaces r.Retailer.data = l at hall
    induction l with
    | nil => rfl
    | cons a l ih =>
      simp only [List.map_cons, List.sum_cons, List.length_cons]
      rw [hall a (List.mem_cons_self _ _), ih (fun c hc => hall c (List.mem_cons_of_mem _ hc))]
      omega

/-- Witness for C1 (amended): the receipts of the test suite score 113 and 117. -/
theorem points_sum_of_rules_small_witness :
    exactPoints fixtureSuccess ⟨2022, 2, 23⟩ 15 30 = 113 ∧
    (CalculatePoints ext0 fixtureSuccess
        = (wrap64 (exactPoints fixtureSuccess ⟨2022, 2, 23⟩ 15 30), none) ∧
      (exactPoints fixtureSuccess ⟨2022, 2, 23⟩ 15 30 < 2 ^ 63 →
        CalculatePoints ext0 fixtureSuccess
          = (exactPoints fixtureSuccess ⟨2022, 2, 23⟩ 15 30, none)) ∧
      ((∀ c ∈ fixtureSuccess.Retailer.data, c.toNat < 128) →
        exactPoints fixtureSuccess ⟨2022, 2, 23⟩ 15 30
          = claimedPoints fixtureSuccess ⟨2022, 2, 23⟩ 15 30)) ∧
    CalculatePoints ext0 fixtureSuccess = (113, none) ∧
    claimedPoints fixtureCalculate ⟨2022, 2, 28⟩ 15 30 = 117 ∧
    CalculatePoints ext0 fixtureCalculate = (117, none) :=
  ⟨by decide,
    points_sum_of_rules_small ext0 fixtureSuccess ⟨2022, 2, 23⟩ 15 30 (by decide) (by decide)
      (by decide) (by decide) (by decide),
    by decide, by decide, by decide⟩

/-! ## Failures of `CalculatePoints` -/

/-- C11: for every receipt whose purchaseDate does not parse or whose purchaseTime does not
parse, `CalculatePoints` returns an error together with 0 points.  When the prices of the
items it reads parse, the error is the date error if the date does not parse and the time
error otherwise; the two are distinct errors with distinct texts. -/
theorem date_or_time_error_returns_zero (ext : Ext) (r : Receipt)
    (h : parseDate r.PurchaseDate.data = none ∨ parseTime r.PurchaseTime.data = none) :
    ∃ e : CalcError, CalculatePoints ext r = (0, some e) ∧
      (pricesParse ext r = true → parseDate r.PurchaseDate.data = none →
        e = CalcError.purchaseDate) ∧
      (pricesParse ext r = true → parseDate r.PurchaseDate.data ≠ none →
        e = CalcError.purchaseTime) ∧
      CalcError.purchaseDate ≠ CalcError.purchaseTime ∧
      CalcError.purchaseDate.message ≠ CalcError.purchaseTime.message := by
  rw [CalculatePoints_eq]
  by_cases hp : pricesParse ext r = true
  · rw [if_pos hp]
    cases hd : parseDate r.PurchaseDate.data with
    | none =>
      exact ⟨.purchaseDate, rfl, fun _ _ => rfl, fun _ hne => absurd rfl hne, by decide,
        by decide⟩
    | some d =>
      rw [hd] at h
      have ht : parseTime r.PurchaseTime.data = none := by
        rcases h with h | h
        · exact absurd h (by simp)
        · exact h
      rw [ht]
      exact ⟨.purchaseTime, rfl, fun _ hc => absurd hc (by simp), fun _ _ => rfl, by decide,
        by decide⟩
  · rw [if_neg hp]
    exact ⟨.price, rfl, fun h1 => absurd h1 hp, fun h1 => absurd h1 hp, by decide, by decide⟩

/-- Witness for C11: the empty receipt of `TestCalculatePoints` yields the date error. -/
theorem date_or_time_error_returns_zero_witness :
    CalculatePoints ext0 emptyReceipt = (0, some CalcError.purchaseDate) ∧
    ∃ e : CalcError, CalculatePoints ext0 emptyReceipt = (0, some e) ∧
      (pricesParse ext0 emptyReceipt = true → parseDate emptyReceipt.PurchaseDate.data = none →
        e = CalcError.purchaseDate) ∧
      (pricesParse ext0 emptyReceipt = true → parseDate emptyReceipt.PurchaseDate.data ≠ none →
        e = CalcError.purchaseTime) ∧
      CalcError.purchaseDate ≠ CalcError.purchaseTime ∧
      CalcError.purchaseDate.message ≠ CalcError.purchaseTime.message :=
  ⟨by decide, date_or_time_error_returns_zero ext0 emptyReceipt (Or.inl (by decide))⟩

/-- C12, as stated, fails: the receipt of `TestCalculatePoints_SuccessCase` with the total
replaced by `abc`, which does not parse as a number, gets a score and no error. -/
theorem malformed_total_fails_counterexample :
    ParseFloat ext0 "abc".data = none ∧
    CalculatePoints ext0 { fixtureSuccess with Total := "abc" } = (63, none) := by
  decide

/-- C12, amended: `CalculatePoints` fails exactly for the receipts with a purchaseDate that
does not parse, a purchaseTime that does not parse, or an item whose trimmed description has
a length divisible by 3 and whose price does not parse; it then returns 0 points; and
whether it fails does not depend on the total. -/
theorem calculate_fails_iff_price_date_or_time :
    (∀ (ext : Ext) (r : Receipt), (CalculatePoints ext r).2 ≠ none ↔
      ((∃ item ∈ r.Items, goLen (trimSpace item.ShortDescription.data) % 3 = 0 ∧
          ParseFloat ext item.Price.data = none) ∨
        parseDate r.PurchaseDate.data = none ∨ parseTime r.PurchaseTime.data = none)) ∧
    (∀ (ext : Ext) (r : Receipt), (CalculatePoints ext r).2 ≠ none →
      (CalculatePoints ext r).1 = 0) ∧
    (∀ (ext : Ext) (r : Receipt) (total : String),
      (CalculatePoints ext { r with Total := total }).2 = (CalculatePoints ext r).2) := by
  have hpp : ∀ (ext : Ext) (r : Receipt), pricesParse ext r = true ↔
      ¬ ∃ item ∈ r.Items, goLen (trimSpace item.ShortDescription.data) % 3 = 0 ∧
          ParseFloat ext item.Price.data = none := by
    intro ext r
    unfold pricesParse
    rw [List.all_eq_true]
    constructor
    · rintro hall ⟨item, hmem, hlen, hpf⟩
      have := hall item hmem
      simp [relevant, hlen, hpf] at this
    · intro hne item hmem
      by_cases hrel : relevant item = true
      · cases hpf : ParseFloat ext item.Price.data with
        | none =>
          exfalso
          apply hne
          refine ⟨item, hmem, ?_, hpf⟩
          simpa [relevant] using hrel
        | some v => simp
      · simp only [Bool.not_eq_true] at hrel
        simp [hrel]
  refine ⟨?_, ?_, ?_⟩
  · intro ext r
    rw [CalculatePoints_eq]
    by_cases hp : pricesParse ext r = true
    · rw [if_pos hp]
      have hno := (hpp ext r).mp hp
      cases hd : parseDate r.PurchaseDate.data with
      | none => simp
      | some d =>
        cases ht : parseTime r.PurchaseTime.data with
        | none => simp
        | some hm =>
          obtain ⟨hour, min⟩ := hm
          simp only [ne_eq, not_true_eq_false, false_iff, not_or]
          exact ⟨hno, by simp, by simp⟩
    · rw [if_neg hp]
      have hex : ∃ item ∈ r.Items, goLen (trimSpace item.ShortDescription.data) % 3 = 0 ∧
          ParseFloat ext item.Price.data = none := by
        by_contra hc
        exact hp ((hpp ext r).mpr hc)
      simp only [ne_eq, reduceCtorEq, not_false_eq_true, true_iff]
      exact Or.inl hex
  · intro ext r
    rw [CalculatePoints_eq]
    by_cases hp : pricesParse ext r = true
    · rw [if_pos hp]
      cases hd : parseDate r.PurchaseDate.data with
      | none => simp
      | some d =>
        cases ht : parseTime r.PurchaseTime.data with
        | none => simp
        | some hm =>
          obtain ⟨hour, min⟩ := hm
          simp
    · rw [if_neg hp]
      simp
  · intro ext r total
    rw [CalculatePoints_eq, CalculatePoints_eq]
    have hsame : pricesParse ext { r with Total := total } = pricesParse ext r := rfl
    rw [hsame]
    by_cases hp : pricesParse ext r = true
    · simp only [if_pos hp]
      cases hd : parseDate r.PurchaseDate.data with
      | none => rfl
      | some d =>
        cases ht : parseTime r.PurchaseTime.data with
        | none => rfl
        | some hm => rfl
    · simp only [if_neg hp]

/-! ## `ValidateID` -/

/-- C13, as stated, fails: the identifier `abc`, vertical tab, `123` contains a white space
character and `ValidateID` accepts it. -/
theorem validate_id_iff_no_whitespace_counterexample :
    ValidateID "abc\x0b123" = none ∧ hasNoWhiteSpace "abc\x0b123" = false := by
  decide

/-- C13, amended: `ValidateID` returns success if and only if the identifier is non-empty
and contains none of the five characters space, tab, line feed, form feed and carriage
return (the class `\s` of Go regular expressions); otherwise it returns the error
`Invalid ID format`.  The identifier `abc123` is accepted and `abc 123` is rejected. -/
theorem validate_id_iff_no_regexp_space :
    (∀ id : String, ValidateID id = none ↔
      id ≠ "" ∧ ∀ c ∈ id.data, c ∉ [' ', '\t', '\n', Char.ofNat 12, '\r']) ∧
    (∀ id : String, ValidateID id ≠ none → ValidateID id = some "Invalid ID format") ∧
    ValidateID "abc123" = none ∧
    ValidateID "abc 123" = some "Invalid ID format" := by
  refine ⟨?_, ?_, by decide, by decide⟩
  · intro id
    unfold ValidateID matchID
    have hne : id ≠ "" ↔ id.data ≠ [] := by
      constructor
      · intro h hd
        apply h
        cases id
        simp_all
      · intro h hd
        apply h
        rw [hd]
    have hcls : ∀ c : Char, isReSpace c = true ↔ c ∈ [' ', '\t', '\n', Char.ofNat 12, '\r'] := by
      intro c
      unfold isReSpace
      simp only [Bool.or_eq_true, beq_iff_eq, List.mem_cons, List.mem_singleton,
        List.not_mem_nil, or_false]
      have h12 : c.toNat = 12 ↔ c = Char.ofNat 12 := by
        constructor
        · intro h
          apply Char.ext
          apply UInt32.ext
          exact h
        · intro h
          rw [h]
          rfl
      rw [h12]
      tauto
    rw [hne]
    cases hd : id.data with
    | nil => simp
    | cons a l =>
      simp only [List.isEmpty_cons, Bool.not_false, Bool.true_and, ne_eq, reduceCtorEq,
        not_false_eq_true, true_and]
      constructor
      · intro h c hc
        rw [← hcls]
        by_contra hcc
        have hall : ((a :: l).all fun c => !isReSpace c) = true := by
          by_contra hn
          simp [hn] at h
        rw [List.all_eq_true] at hall
        have := hall c hc
        simp [hcc] at this
      · intro h
        have hall : ((a :: l).all fun c => !isReSpace c) = true := by
          rw [List.all_eq_true]
          intro c hc
          have := h c hc
          rw [← hcls] at this
          simpa using this
        simp [hall]
  · intro id h
    unfold ValidateID at h ⊢
    split_ifs with hm
    · rfl
    · rw [if_neg hm] at h
      exact absurd rfl h

/-! ## The handlers -/

/-- C14, as stated, fails when the cache of processed identifiers already holds a marker for
the identifier that `GenerateReceiptID` returns (it looks for the identifier in the cache of
receipts only; in `main.go` the receipts expire after 720 minutes and the markers never do):
the receipt of `TestProcessReceiptsAndRetrievePoints`, which scores 23, is submitted, and
the first retrieval with the identifier returned, a version 4 identifier, gives 0 points. -/
theorem round_trip_points_then_zero_counterexample :
    ValidateReceipt ext0 fixtureProcess = none ∧
    CalculatePoints ext0 fixtureProcess = (23, none) ∧
    uuidString 0x123e4567e89b42d3a456426614174000 = "123e4567-e89b-42d3-a456-426614174000" ∧
    (ProcessReceipts ext0 (fun _ => 0x123e4567e89b42d3a456426614174000) 1 (some fixtureProcess)
        Store.empty (Store.empty.set "123e4567-e89b-42d3-a456-426614174000" true)).map
        (fun x => x.1)
      = some ⟨200, .id "123e4567-e89b-42d3-a456-426614174000"⟩ ∧
    (GetPoints ext0 "123e4567-e89b-42d3-a456-426614174000"
        (Store.empty.set "123e4567-e89b-42d3-a456-426614174000" fixtureProcess)
        (Store.empty.set "123e4567-e89b-42d3-a456-426614174000" true)).1
      = ⟨200, .points 0⟩ := by
  decide

/-- C14, amended: for every pair of caches and every receipt that `ValidateReceipt` accepts,
`ProcessReceipts` answers as soon as a candidate identifier is not a key of the cache of
receipts: it answers 200 with an identifier and stores the receipt under it, and
`CalculatePoints` returns no error on the receipt.  If the cache of processed identifiers
holds no marker for that identifier, a first call of `GetPoints` with it answers 200 with
the points of `CalculatePoints` on the receipt, and a second call answers 200 with 0 points;
if it holds a marker, the first call already answers 200 with 0 points. -/
theorem round_trip_points_then_zero (ext : Ext) (candidates : Nat → Nat) (fuel k : Nat)
    (r : Receipt) (c : Store Receipt) (p : Store Bool)
    (hvalid : ValidateReceipt ext r = none)
    (hfree : c (uuidString (candidates k)) = none) (hk : k < fuel) :
    ∃ (id : String) (c1 : Store Receipt),
      ProcessReceipts ext candidates fuel (some r) c p = some (⟨200, .id id⟩, c1, p) ∧
      c1 id = some r ∧
      (CalculatePoints ext r).2 = none ∧
      (p id = none → ∃ p2 : Store Bool,
        GetPoints ext id c1 p = (⟨200, .points (CalculatePoints ext r).1⟩, c1, p2) ∧
        GetPoints ext id c1 p2 = (⟨200, .points 0⟩, c1, p2)) ∧
      (p id ≠ none → GetPoints ext id c1 p = (⟨200, .points 0⟩, c1, p)) := by
  obtain ⟨id, hgen⟩ := GenerateReceiptID_ends c candidates k fuel 0
    (by simpa using hfree) hk
  obtain ⟨j, -, hid, -, -⟩ := GenerateReceiptID_some c candidates fuel 0 id hgen
  have hvid : ValidateID id = none := by rw [hid]; exact ValidateID_uuidString _
  obtain ⟨d, hour, min, -, -, -, hcalc⟩ := CalculatePoints_of_valid ext r hvalid
  have hget : (c.set id r) id = some r := by simp [Store.set]
  refine ⟨id, c.set id r, ProcessReceipts_of_valid ext candidates fuel r c p hvalid id hgen,
    hget, by rw [hcalc], ?_, ?_⟩
  · intro hmark
    refine ⟨p.set id true, ?_, ?_⟩
    · unfold GetPoints
      simp only [hvid, hmark, Option.isSome_none, Bool.false_eq_true, if_false]
      rw [hget]
      simp only [hcalc]
    · unfold GetPoints
      have hset : ((p.set id true) id).isSome = true := by simp [Store.set]
      simp only [hvid, hset, if_true]
  · intro hmark
    unfold GetPoints
    have hset : (p id).isSome = true := by
      cases hp : p id with
      | none => exact absurd hp hmark
      | some b => rfl
    simp only [hvid, hset, if_true]

/-- Witness for C14 (amended): the receipt of `TestProcessReceiptsAndRetrievePoints` against
empty caches returns 23 on the first retrieval and 0 on the second. -/
theorem round_trip_points_then_zero_witness :
    CalculatePoints ext0 fixtureProcess = (23, none) ∧
    ProcessReceipts ext0 (fun _ => 0x123e4567e89b42d3a456426614174000) 1 (some fixtureProcess)
        Store.empty Store.empty
      = some (⟨200, .id "123e4567-e89b-42d3-a456-426614174000"⟩,
          Store.empty.set "123e4567-e89b-42d3-a456-426614174000" fixtureProcess,
          Store.empty) ∧
    (GetPoints ext0 "123e4567-e89b-42d3-a456-426614174000"
        (Store.empty.set "123e4567-e89b-42d3-a456-426614174000" fixtureProcess)
        Store.empty).1 = ⟨200, .points 23⟩ ∧
    (GetPoints ext0 "123e4567-e89b-42d3-a456-426614174000"
        (Store.empty.set "123e4567-e89b-42d3-a456-426614174000" fixtureProcess)
        ((Store.empty : Store Bool).set "123e4567-e89b-42d3-a456-426614174000" true)).1
      = ⟨200, .points 0⟩ ∧
    ∃ (id : String) (c1 : Store Receipt),
      ProcessReceipts ext0 (fun _ => 0x123e4567e89b42d3a456426614174000) 1
          (some fixtureProcess) Store.empty Store.empty
        = some (⟨200, .id id⟩, c1, Store.empty) ∧
      c1 id = some fixtureProcess ∧
      (CalculatePoints ext0 fixtureProcess).2 = none ∧
      ((Store.empty : Store Bool) id = none → ∃ p2 : Store Bool,
        GetPoints ext0 id c1 Store.empty
          = (⟨200, .points (CalculatePoints ext0 fixtureProcess).1⟩, c1, p2) ∧
        GetPoints ext0 id c1 p2 = (⟨200, .points 0⟩, c1, p2)) ∧
      ((Store.empty : Store Bool) id ≠ none →
        GetPoints ext0 id c1 Store.empty = (⟨200, .points 0⟩, c1, Store.empty)) :=
  ⟨by decide, by rfl, by decide, by decide,
    round_trip_points_then_zero ext0 (fun _ => 0x123e4567e89b42d3a456426614174000) 1 0
      fixtureProcess Store.empty Store.empty (by decide) (by decide) (by decide)⟩

/-- C15, as stated, fails when the cache of processed identifiers holds a marker for the
identifier: in the situation of `TestPointsRetrievalForProcessedReceipt`, the identifier
`abc123` has no entry in the cache of receipts and `GetPoints` answers 200 with 0 points,
not 404. -/
theorem unknown_id_not_found_counterexample :
    ValidateID "abc123" = none ∧
    (Store.empty : Store Receipt) "abc123" = none ∧
    (GetPoints ext0 "abc123" Store.empty (Store.empty.set "abc123" true)).1
      = ⟨200, .points 0⟩ := by
  decide

/-- C15, amended: for every identifier that `ValidateID` accepts and that has no entry in
the cache of receipts, `GetPoints` never answers 500: it answers 404 when the cache of
processed identifiers holds no marker for the identifier, and 200 with 0 points when it
holds one; both caches are left unchanged. -/
theorem unknown_id_not_found_unless_marked (ext : Ext) (id : String) (c : Store Receipt)
    (p : Store Bool) (hvalid : ValidateID id = none) (hc : c id = none) :
    (GetPoints ext id c p).1.status ≠ 500 ∧
    (p id = none →
      GetPoints ext id c p = (⟨404, .text "No Receipt found for that id"⟩, c, p)) ∧
    (p id ≠ none → GetPoints ext id c p = (⟨200, .points 0⟩, c, p)) := by
  unfold GetPoints
  cases hp : p id with
  | none => simp [hvalid, hc]
  | some b => simp [hvalid]

/-- Witness for C15 (amended): `unknownID` against empty caches, as in
`TestPointsRetrievalForUnprocessedReceipt`, yields 404. -/
theorem unknown_id_not_found_unless_marked_witness :
    (GetPoints ext0 "unknownID" Store.empty Store.empty).1.status = 404 ∧
    ((GetPoints ext0 "unknownID" Store.empty Store.empty).1.status ≠ 500 ∧
    ((Store.empty : Store Bool) "unknownID" = none →
      GetPoints ext0 "unknownID" Store.empty Store.empty
        = (⟨404, .text "No Receipt found for that id"⟩, Store.empty, Store.empty)) ∧
    ((Store.empty : Store Bool) "unknownID" ≠ none →
      GetPoints ext0 "unknownID" Store.empty Store.empty
        = (⟨200, .points 0⟩, Store.empty, Store.empty))) :=
  ⟨by decide,
    unknown_id_not_found_unless_marked ext0 "unknownID" Store.empty Store.empty (by decide)
      (by rfl)⟩

/-- C16: for every identifier that `ValidateID` accepts and for which the cache of processed
identifiers holds a marker, `GetPoints` answers 200 with 0 points, whatever the cache of
receipts holds, and leaves both caches unchanged. -/
theorem marked_id_gets_zero_points (ext : Ext) (id : String) (c : Store Receipt)
    (p : Store Bool) (hvalid : ValidateID id = none) (hmark : (p id).isSome = true) :
    GetPoints ext id c p = (⟨200, .points 0⟩, c, p) := by
  unfold GetPoints
  simp only [hvalid, hmark, if_true]

/-- Witness for C16: the marker set for `abc123` with an empty cache of receipts, as in
`TestPointsRetrievalForProcessedReceipt`. -/
theorem marked_id_gets_zero_points_witness :
    ValidateID "abc123" = none ∧
    ((Store.empty.set "abc123" true : Store Bool) "abc123").isSome = true ∧
    GetPoints ext0 "abc123" Store.empty (Store.empty.set "abc123" true)
      = (⟨200, .points 0⟩, Store.empty, Store.empty.set "abc123" true) :=
  ⟨by decide, by decide,
    marked_id_gets_zero_points ext0 "abc123" Store.empty (Store.empty.set "abc123" true)
      (by decide) (by decide)⟩

/-- C17: for every identifier that `ValidateID` rejects, `GetPoints` answers 400, whatever
the two caches hold, and leaves both unchanged. -/
theorem rejected_id_is_client_error (ext : Ext) (id : String) (c : Store Receipt)
    (p : Store Bool) (hinvalid : ValidateID id ≠ none) :
    GetPoints ext id c p
      = (⟨400, .text "Invalid receipt ID format: Invalid ID format"⟩, c, p) := by
  unfold GetPoints
  unfold ValidateID at hinvalid ⊢
  by_cases hm : (!matchID id.data) = true
  · simp only [hm, if_true]
    rfl
  · rw [if_neg hm] at hinvalid
    exact absurd rfl hinvalid

/-- Witness for C17: the identifier `abc 123` against caches that hold a receipt and a
marker under it. -/
theorem rejected_id_is_client_error_witness :
    ValidateID "abc 123" ≠ none ∧ ValidateID "" ≠ none ∧
    GetPoints ext0 "abc 123" (Store.empty.set "abc 123" fixtureProcess)
        (Store.empty.set "abc 123" true)
      = (⟨400, .text "Invalid receipt ID format: Invalid ID format"⟩,
          Store.empty.set "abc 123" fixtureProcess, Store.empty.set "abc 123" true) :=
  ⟨by decide, by decide,
    rejected_id_is_client_error ext0 "abc 123" (Store.empty.set "abc 123" fixtureProcess)
      (Store.empty.set "abc 123" true) (by decide)⟩

/-- C18: an identifier is assigned only after validation.  For every receipt that
`ValidateReceipt` rejects, `ProcessReceipts` answers 400 with the validation reason, no
identifier, and leaves both caches unchanged.  For every receipt that it accepts,
`ProcessReceipts` answers as soon as a candidate identifier is not a key of the cache of
receipts: it answers 200 with an identifier that was not a key, the cache of receipts
afterwards maps that identifier to the submitted receipt, every other entry is unchanged,
and so is the cache of processed identifiers.  An answer that carries an identifier is an
answer to a receipt that `ValidateReceipt` accepts. -/
theorem identifier_assigned_only_after_validation :
    (∀ (ext : Ext) (candidates : Nat → Nat) (fuel : Nat) (r : Receipt) (c : Store Receipt)
        (p : Store Bool) (err : ValidationError), ValidateReceipt ext r = some err →
      ProcessReceipts ext candidates fuel (some r) c p
        = some (⟨400, .text ("Invalid receipt: " ++ err.message)⟩, c, p)) ∧
    (∀ (ext : Ext) (candidates : Nat → Nat) (fuel k : Nat) (r : Receipt) (c : Store Receipt)
        (p : Store Bool), ValidateReceipt ext r = none →
      c (uuidString (candidates k)) = none → k < fuel →
      ∃ (id : String) (c1 : Store Receipt),
        ProcessReceipts ext candidates fuel (some r) c p = some (⟨200, .id id⟩, c1, p) ∧
        c id = none ∧ c1 id = some r ∧ ∀ key, key ≠ id → c1 key = c key) ∧
    (∀ (ext : Ext) (candidates : Nat → Nat) (fuel : Nat) (payload : Option Receipt)
        (c c1 : Store Receipt) (p p1 : Store Bool) (resp : Response) (id : String),
      ProcessReceipts ext candidates fuel payload c p = some (resp, c1, p1) →
      resp.body = .id id → ∃ r, payload = some r ∧ ValidateReceipt ext r = none) := by
  refine ⟨?_, ?_, ?_⟩
  · intro ext candidates fuel r c p err herr
    unfold ProcessReceipts
    simp only [herr]
  · intro ext candidates fuel k r c p hvalid hfree hk
    obtain ⟨id, hgen⟩ := GenerateReceiptID_ends c candidates k fuel 0
      (by simpa using hfree) hk
    obtain ⟨j, -, -, hcid, -⟩ := GenerateReceiptID_some c candidates fuel 0 id hgen
    refine ⟨id, c.set id r, ProcessReceipts_of_valid ext candidates fuel r c p hvalid id hgen,
      hcid, by simp [Store.set], ?_⟩
    intro key hkey
    simp [Store.set, hkey]
  · intro ext candidates fuel payload c c1 p p1 resp id hproc hbody
    unfold ProcessReceipts at hproc
    cases payload with
    | none =>
      simp only [Option.some.injEq, Prod.mk.injEq] at hproc
      rw [← hproc.1] at hbody
      simp at hbody
    | some r =>
      refine ⟨r, rfl, ?_⟩
      cases hv : ValidateReceipt ext r with
      | none => rfl
      | some err =>
        simp only [hv, Option.some.injEq, Prod.mk.injEq] at hproc
        rw [← hproc.1] at hbody
        simp at hbody

/-- C19: whenever `GenerateReceiptID` returns, the identifier it returns is the first
candidate that is not a key of the cache of receipts; it is absent from the cache, and the
insertion that follows in `ProcessReceipts` changes no entry that was present.  The loop
ends as soon as a candidate is not a key of the cache. -/
theorem generated_id_is_first_free_candidate (c : Store Receipt) (candidates : Nat → Nat)
    (fuel : Nat) (id : String) (h : GenerateReceiptID c candidates fuel 0 = some id) :
    (∃ k, k < fuel ∧ id = uuidString (candidates k) ∧
      ∀ j < k, c (uuidString (candidates j)) ≠ none) ∧
    c id = none ∧
    (∀ (ext : Ext) (r : Receipt) (p : Store Bool), ValidateReceipt ext r = none →
      ∃ c1 : Store Receipt,
        ProcessReceipts ext candidates fuel (some r) c p = some (⟨200, .id id⟩, c1, p) ∧
        ∀ key, c key ≠ none → c1 key = c key) ∧
    (∀ k more : Nat, c (uuidString (candidates k)) = none →
      (GenerateReceiptID c candidates (k + 1 + more) 0).isSome = true) := by
  obtain ⟨k, hk, hid, hcid, hbefore⟩ := GenerateReceiptID_some c candidates fuel 0 id h
  refine ⟨⟨k, hk, by simpa using hid, ?_⟩, hcid, ?_, ?_⟩
  · intro j hj
    simpa using hbefore j hj
  · intro ext r p hvalid
    refine ⟨c.set id r, ProcessReceipts_of_valid ext candidates fuel r c p hvalid id h, ?_⟩
    intro key hkey
    have hne : key ≠ id := by
      intro heq
      rw [heq] at hkey
      exact hkey hcid
    simp [Store.set, hne]
  · intro k more hfree
    obtain ⟨id', hgen⟩ := GenerateReceiptID_ends c candidates k (k + 1 + more) 0
      (by simpa using hfree) (by omega)
    rw [hgen]
    rfl

/-- Witness for C19: against a cache that holds the first two candidates, the third one is
returned. -/
theorem generated_id_is_first_free_candidate_witness :
    GenerateReceiptID ((Store.empty.set (uuidString 0) fixtureProcess).set (uuidString 1)
        fixtureValidate) (fun i => i) 5 0 = some (uuidString 2) ∧
    ((∃ k, k < 5 ∧ uuidString 2 = uuidString ((fun i => i) k) ∧
      ∀ j < k, ((Store.empty.set (uuidString 0) fixtureProcess).set (uuidString 1)
        fixtureValidate) (uuidString ((fun i => i) j)) ≠ none) ∧
    ((Store.empty.set (uuidString 0) fixtureProcess).set (uuidString 1) fixtureValidate)
      (uuidString 2) = none ∧
    (∀ (ext : Ext) (r : Receipt) (p : Store Bool), ValidateReceipt ext r = none →
      ∃ c1 : Store Receipt,
        ProcessReceipts ext (fun i => i) 5 (some r)
            ((Store.empty.set (uuidString 0) fixtureProcess).set (uuidString 1) fixtureValidate)
            p
          = some (⟨200, .id (uuidString 2)⟩, c1, p) ∧
        ∀ key, ((Store.empty.set (uuidString 0) fixtureProcess).set (uuidString 1)
            fixtureValidate) key ≠ none →
          c1 key = ((Store.empty.set (uuidString 0) fixtureProcess).set (uuidString 1)
            fixtureValidate) key) ∧
    (∀ k more : Nat, ((Store.empty.set (uuidString 0) fixtureProcess).set (uuidString 1)
        fixtureValidate) (uuidString ((fun i => i) k)) = none →
      (GenerateReceiptID ((Store.empty.set (uuidString 0) fixtureProcess).set (uuidString 1)
        fixtureValidate) (fun i => i) (k + 1 + more) 0).isSome = true)) :=
  ⟨by decide,
    generated_id_is_first_free_candidate
      ((Store.empty.set (uuidString 0) fixtureProcess).set (uuidString 1) fixtureValidate)
      (fun i => i) 5 (uuidString 2) (by decide)⟩

/-! ## Accepted receipts -/

/-- C20, as stated, fails on large prices: a receipt that `ValidateReceipt` accepts, with two
items at 40000000000000000000.00 that add 8000000000000000000 points each, gets a negative
score, because the sum leaves the range of the Go `int` and wraps around. -/
theorem valid_receipt_points_nonnegative_counterexample :
    ValidateReceipt ext0 ⟨"A", "2022-02-02", "13:00",
      [⟨"abc", "40000000000000000000.00"⟩, ⟨"abc", "40000000000000000000.00"⟩],
      "80000000000000000000.00"⟩ = none ∧
    itemTerm ext0 ⟨"abc", "40000000000000000000.00"⟩ = 8000000000000000000 ∧
    CalculatePoints ext0 ⟨"A", "2022-02-02", "13:00",
      [⟨"abc", "40000000000000000000.00"⟩, ⟨"abc", "40000000000000000000.00"⟩],
      "80000000000000000000.00"⟩ = (-2446744073709551535, none) := by
  decide

/-- C20, amended: for every receipt that `ValidateReceipt` accepts, `CalculatePoints` returns
no error; the points it returns are non-negative when every item price is below
2^45 = 35184372088832, the receipt has fewer than 2^18 items and the retailer has fewer than
2^61 bytes. -/
theorem valid_receipt_scores_without_error (ext : Ext) (r : Receipt)
    (h : ValidateReceipt ext r = none) :
    ∃ p : Int, CalculatePoints ext r = (p, none) ∧
      ((∀ item ∈ r.Items, cents item.Price < 100 * 2 ^ 45) → r.Items.length < 2 ^ 18 →
        goLen (removeSpaces r.Retailer.data) < 2 ^ 61 → 0 ≤ p) := by
  obtain ⟨d, hour, min, -, -, -, hcalc⟩ := CalculatePoints_of_valid ext r h
  refine ⟨_, hcalc, ?_⟩
  intro hsmall hlen hret
  obtain ⟨⟨-, -, -, -, -, hitems⟩, -⟩ := (ValidateReceipt_eq_none ext r).mp h
  have hterm : ∀ item ∈ r.Items, 0 ≤ itemTerm ext item ∧ itemTerm ext item ≤ 2 ^ 43 := by
    intro item hitem
    rw [itemTerm_small ext item (hitems item hitem).2.2.2 (hsmall item hitem)]
    have hs := hsmall item hitem
    split_ifs
    · have hq : (cents item.Price + 499) / 500 ≤ 2 ^ 43 := by omega
      constructor
      · positivity
      · exact_mod_cast hq
    · constructor <;> norm_num
  obtain ⟨hs0, hs1⟩ := sum_map_bounds (itemTerm ext) (2 ^ 43) r.Items hterm
  have hlenZ : (r.Items.length : Int) < 2 ^ 18 := by exact_mod_cast hlen
  have hsum : (r.Items.map (itemTerm ext)).sum < 2 ^ 61 := by
    have : (r.Items.length : Int) * 2 ^ 43 < 2 ^ 18 * 2 ^ 43 := by
      apply mul_lt_mul_of_pos_right hlenZ (by norm_num)
    have e : (2 : Int) ^ 18 * 2 ^ 43 = 2 ^ 61 := by norm_num
    linarith
  have hretZ : ((goLen (removeSpaces r.Retailer.data) : Nat) : Int) < 2 ^ 61 := by
    exact_mod_cast hret
  have hret0 : (0 : Int) ≤ ((goLen (removeSpaces r.Retailer.data) : Nat) : Int) := by positivity
  have hpairs : (((r.Items.length / 2 : Nat) : Int)) * 5 < 2 ^ 20 := by
    have : r.Items.length / 2 * 5 < 2 ^ 20 := by omega
    exact_mod_cast this
  have hpairs0 : (0 : Int) ≤ (((r.Items.length / 2 : Nat) : Int)) * 5 := by positivity
  have hb0 : 0 ≤ baseSum ext r + (if d.day % 2 == 1 then 6 else 0)
      + (if inWindow hour min then 10 else 0) := by
    unfold baseSum
    split_ifs <;> linarith
  have hb1 : baseSum ext r + (if d.day % 2 == 1 then 6 else 0)
      + (if inWindow hour min then 10 else 0) < 2 ^ 63 := by
    unfold baseSum
    split_ifs <;> linarith
  rw [wrap64_of_range _ (by linarith) hb1]
  exact hb0

/-- Witness for C20 (amended): the valid receipt of `TestValidateReceipt`. -/
theorem valid_receipt_scores_without_error_witness :
    ValidateReceipt ext0 fixtureValidate = none ∧
    ∃ p : Int, CalculatePoints ext0 fixtureValidate = (p, none) ∧
      ((∀ item ∈ fixtureValidate.Items, cents item.Price < 100 * 2 ^ 45) →
        fixtureValidate.Items.length < 2 ^ 18 →
        goLen (removeSpaces fixtureValidate.Retailer.data) < 2 ^ 61 → 0 ≤ p) :=
  ⟨by decide, valid_receipt_scores_without_error ext0 fixtureValidate (by decide)⟩

/-! ## The two rules on the total together -/

/-- C21: for every total string, if `isRoundDollarAmount` holds (the total ends in `.00`)
then `isMultipleOfQuarter` holds as well: the total either does not parse, and counts as 0,
or is an integer.  So on every receipt with such a total on which `CalculatePoints`
succeeds, the two rules on the total add 75 points together. -/
theorem round_dollar_implies_quarter (ext : Ext) (total : String)
    (h : isRoundDollarAmount total = true) :
    isMultipleOfQuarter ext total = true ∧
    ∀ (r : Receipt) (p : Int), r.Total = total → CalculatePoints ext r = (p, none) →
      ∃ (d : Date) (hour min : Nat), parseDate r.PurchaseDate.data = some d ∧
        parseTime r.PurchaseTime.data = some (hour, min) ∧
        p = wrap64 ((goLen (removeSpaces r.Retailer.data) : Int) + 75
          + ((r.Items.length / 2 : Nat) : Int) * 5 + (r.Items.map (itemTerm ext)).sum
          + (if d.day % 2 == 1 then 6 else 0) + (if inWindow hour min then 10 else 0)) := by
  have hq : isMultipleOfQuarter ext total = true := by
    unfold isMultipleOfQuarter parseTotal
    cases hp : ParseFloat ext total.data with
    | none => rfl
    | some v => exact ParseFloat_suffix_00 ext total.data h v hp
  refine ⟨hq, ?_⟩
  intro r p htotal hcalc
  rw [CalculatePoints_eq] at hcalc
  by_cases hpp : pricesParse ext r = true
  · rw [if_pos hpp] at hcalc
    cases hd : parseDate r.PurchaseDate.data with
    | none => rw [hd] at hcalc; simp at hcalc
    | some d =>
      cases ht : parseTime r.PurchaseTime.data with
      | none => rw [hd, ht] at hcalc; simp at hcalc
      | some hm =>
        obtain ⟨hour, min⟩ := hm
        rw [hd, ht] at hcalc
        simp only [Prod.mk.injEq, and_true] at hcalc
        refine ⟨d, hour, min, rfl, rfl, ?_⟩
        rw [← hcalc]
        congr 1
        unfold baseSum
        rw [htotal, if_pos h, if_pos hq]
        ring
  · rw [if_neg hpp] at hcalc
    simp at hcalc

/-- Witness for C21: the total 20.00 of the receipt of `TestCalculatePoints_SuccessCase`,
which scores 113, and the total `+1_0.00`. -/
theorem round_dollar_implies_quarter_witness :
    isRoundDollarAmount "20.00" = true ∧
    CalculatePoints ext0 fixtureSuccess = (113, none) ∧
    isMultipleOfQuarter ext0 "+1_0.00" = true ∧
    (isMultipleOfQuarter ext0 "20.00" = true ∧
    ∀ (r : Receipt) (p : Int), r.Total = "20.00" → CalculatePoints ext0 r = (p, none) →
      ∃ (d : Date) (hour min : Nat), parseDate r.PurchaseDate.data = some d ∧
        parseTime r.PurchaseTime.data = some (hour, min) ∧
        p = wrap64 ((goLen (removeSpaces r.Retailer.data) : Int) + 75
          + ((r.Items.length / 2 : Nat) : Int) * 5 + (r.Items.map (itemTerm ext0)).sum
          + (if d.day % 2 == 1 then 6 else 0) + (if inWindow hour min then 10 else 0))) :=
  ⟨by decide, by decide, by decide, round_dollar_implies_quarter ext0 "20.00" (by decide)⟩

end ReceiptProcessor
